import Mathlib

/-!
# FindPath3: A* search on a grid

A shallow embedding of `FindPath3.cpp` (classes `gridSquare` and `grid`, function
`FindPath`) together with theorems about it.

Modelling conventions:

* C++ `int` values are `Int`.  Machine width matters in the cast `(size_t)nOutBufferSize`,
  modelled by `toSizeT` (reduction modulo `2 ^ 64`), and in the two `int` products of the
  source, `yCoordinate * width` (line 108) and `height * width` (line 136), which leave the
  range of `int` on grids of `2 ^ 31` cells or more.  The functions `getLocationFromGrid`,
  `isTraversible`, `getNeighbors`, `FindPath` compute these products exactly; the functions
  `getLocationFromGrid32`, `isTraversible32`, `getNeighbors32`, `FindPath32` reduce them to
  32 bits (`wrap32`), as the compiled code does.  The two families agree on every grid with
  `width * height < 2 ^ 31` (`FindPath32_eq`), and they differ beyond.
* `std::vector<gridSquare>` is `List gridSquare`; `push_back` appends at the end.
* The map `pMap` is the list of its bytes.  A read outside the list is undefined behaviour
  in C++ and is reported as `none`.
* `cameFromX` / `cameFromY` are not set by the constructor; they are `none` until stamped.
* `std::sort` is a parameter `sort` of the model.  The C++ standard only promises a sorted
  permutation (`IsSort`); `stableSort` is the order produced by insertion sort, which is
  what the usual library implementations run on short ranges.
* Loops that are not structurally bounded take a `fuel` argument; running out of fuel is
  reported as its own outcome and never confused with a returned value.
-/

namespace AStar

/-! ## class gridSquare -/

/-- A search node.  `cameFromX`, `cameFromY` are `none` while uninitialised. -/
structure gridSquare where
  fScore : Int
  hScore : Int
  gScore : Int
  xCoordinate : Int
  yCoordinate : Int
  cameFromX : Option Int
  cameFromY : Option Int
deriving DecidableEq, Repr

/-- The constructor `gridSquare(xCoordinate, yCoordinate, gscore, hscore)`. -/
def gridSquare.new (xCoordinate yCoordinate gscore hscore : Int) : gridSquare :=
  { fScore := hscore + gscore
    hScore := hscore
    gScore := gscore
    xCoordinate := xCoordinate
    yCoordinate := yCoordinate
    cameFromX := none
    cameFromY := none }

/-- The member `operator==`: equality of coordinates only. -/
def gridSquare.eq (this rhs : gridSquare) : Bool :=
  if rhs.xCoordinate = this.xCoordinate ∧ rhs.yCoordinate = this.yCoordinate then true
  else false

/-- The free `operator<`: comparison of `fScore`. -/
def gridSquare.lt (s1 s2 : gridSquare) : Bool :=
  decide (s1.fScore < s2.fScore)

/-! ## class grid -/

/-- The grid: dimensions, map bytes, target and start. -/
structure grid where
  height : Int
  width : Int
  pMap : List Nat
  targetX : Int
  targetY : Int
  startX : Int
  startY : Int
deriving DecidableEq, Repr

/-- Read `pMap[location]`; `none` when the index is outside the map. -/
def grid.readMap (g : grid) (location : Int) : Option Nat :=
  if 0 ≤ location then g.pMap.get? location.toNat else none

/-- The method `grid::getLocationFromGrid`, with the product and the sum taken exactly: the
value the code computes whenever `yCoordinate * width + xCoordinate` and the product lie in
the range of `int`.  The 32-bit value is `grid.getLocationFromGrid32`. -/
def grid.getLocationFromGrid (g : grid) (xCoordinate yCoordinate : Int) : Int :=
  (yCoordinate * g.width) + xCoordinate

/-- The method `grid::isTraversible`: no bounds check, only the comparison of the byte with 1. -/
def grid.isTraversible (g : grid) (xCoordinate yCoordinate : Int) : Option Bool :=
  let location := g.getLocationFromGrid xCoordinate yCoordinate
  match g.readMap location with
  | some v => if v = 1 then some true else some false
  | none => none

/-- The method `grid::getManhattan`. -/
def grid.getManhattan (g : grid) (nStartX nStartY : Int) : Int :=
  ((nStartX - g.targetX).natAbs : Int) + ((nStartY - g.targetY).natAbs : Int)

/-- The square built for a neighbour at `(x, y)` of `currentLocation`. -/
def grid.neighbor (g : grid) (currentLocation : gridSquare) (x y : Int) : gridSquare :=
  gridSquare.new x y (currentLocation.gScore + 1) (g.getManhattan x y)

/-- The method `grid::getNeighbors`: down, up, right, left, each guarded by its bounds test and
then by `isTraversible` (short-circuit `&&`).  The operator `%` is the truncating remainder;
a zero width makes it undefined.  The product `height * width` of line 136 is taken exactly
here; `grid.getNeighbors32` takes it in 32-bit `int`. -/
def grid.getNeighbors (g : grid) (currentLocation : gridSquare) : Option (List gridSquare) :=
  let x := currentLocation.xCoordinate
  let y := currentLocation.yCoordinate
  (if y + 1 < g.height then g.isTraversible x (y + 1) else some false).bind fun down =>
  (if y - 1 ≥ 0 then g.isTraversible x (y - 1) else some false).bind fun up =>
  if g.width = 0 then none else
  (if (x + 1).tmod g.width ≠ 0 ∧ x + 1 < g.height * g.width
    then g.isTraversible (x + 1) y else some false).bind fun right =>
  (if (x - 1).tmod g.width ≠ g.width - 1 ∧ x - 1 ≥ 0
    then g.isTraversible (x - 1) y else some false).bind fun left =>
  some ((if down then [g.neighbor currentLocation x (y + 1)] else [])
    ++ (if up then [g.neighbor currentLocation x (y - 1)] else [])
    ++ (if right then [g.neighbor currentLocation (x + 1) y] else [])
    ++ (if left then [g.neighbor currentLocation (x - 1) y] else []))

/-- The method `grid::retracePath`.  `fuel` bounds the recursion depth.  The result is `none`
when `find` returns `closedList.end()` (which the code dereferences), when an uninitialised
`cameFrom` field is read, or when the fuel runs out. -/
def grid.retracePath (g : grid) :
    Nat → gridSquare → List gridSquare → List gridSquare → Option (List gridSquare)
  | 0, _, _, _ => none
  | fuel + 1, currentLocation, currentPath, closedList =>
    if currentLocation.xCoordinate = g.startX ∧ currentLocation.yCoordinate = g.startY then
      some (currentPath ++ [currentLocation])
    else
      match currentLocation.cameFromX, currentLocation.cameFromY with
      | some cx, some cy =>
        match closedList.find? (fun s => s.eq (gridSquare.new cx cy 0 0)) with
        | some it => g.retracePath fuel it (currentPath ++ [currentLocation]) closedList
        | none => none
      | _, _ => none

/-! ## FindPath -/

/-- What a call of `FindPath` does: return a value and leave the buffer in some state, run into
undefined behaviour, or exhaust the fuel of the model. -/
inductive Outcome where
  | returned (value : Int) (pOutBuffer : List Int)
  | undefinedBehaviour
  | outOfFuel
deriving DecidableEq, Repr

/-- The cast `(size_t)n` of an `int`, for a 64-bit `size_t`. -/
def toSizeT (n : Int) : Nat := (n % 2 ^ 64).toNat

/-- The loop `for (i = 0; i < path.size(); i++) pOutBuffer[i] = ...`, started at index `i`.
A write past the end of the buffer gives `none`. -/
def writeBuffer : List Int → Nat → List Int → Option (List Int)
  | [], _, pOutBuffer => some pOutBuffer
  | v :: rest, i, pOutBuffer =>
    if i < pOutBuffer.length then writeBuffer rest (i + 1) (pOutBuffer.set i v) else none

/-- Lines 200-209 of `FindPath`: drop the start square, reverse, compare with the capacity,
write the indices and return the length, or return -1. -/
def emitPath (g : grid) (pOutBuffer : List Int) (nOutBufferSize : Int)
    (retraced : List gridSquare) : Outcome :=
  match retraced with
  | [] => Outcome.undefinedBehaviour
  | _ :: _ =>
    let path := retraced.dropLast.reverse
    if path.length ≤ toSizeT nOutBufferSize then
      match writeBuffer (path.map fun s => g.getLocationFromGrid s.xCoordinate s.yCoordinate)
          0 pOutBuffer with
      | some buf => Outcome.returned path.length buf
      | none => Outcome.undefinedBehaviour
    else Outcome.returned (-1) pOutBuffer

/-- Lines 218-219: the neighbour with `cameFromX`, `cameFromY` set to the coordinates of
`currentLocation`. -/
def stamp (currentLocation adjacent : gridSquare) : gridSquare :=
  { adjacent with
    cameFromX := some currentLocation.xCoordinate
    cameFromY := some currentLocation.yCoordinate }

/-- One pass of the body of the `for` loop over `adjacentSqaures` (lines 216-239):
returns the new open list. -/
def addNeighbor (currentLocation : gridSquare) (closedList openList : List gridSquare)
    (adjacent : gridSquare) : List gridSquare :=
  let adj : gridSquare := stamp currentLocation adjacent
  match closedList.find? (fun s => s.eq adj) with
  | some _ => openList
  | none =>
    match openList.find? (fun s => s.eq adj) with
    | none => openList ++ [adj]
    | some it =>
      if currentLocation.gScore + 1 < adj.gScore then
        let adj2 : gridSquare :=
          { adj with
            gScore := currentLocation.gScore + 1
            fScore := currentLocation.fScore + 1 }
        openList.map fun s => if s.eq it then adj2 else s
      else openList

/-- The `for` loop over `adjacentSqaures`. -/
def processNeighbors (currentLocation : gridSquare) (closedList : List gridSquare) :
    List gridSquare → List gridSquare → List gridSquare
  | [], openList => openList
  | adjacent :: rest, openList =>
    processNeighbors currentLocation closedList rest
      (addNeighbor currentLocation closedList openList adjacent)

/-- Lines 196-209 of `FindPath`, run once the target has been taken from the open list:
retrace the path through the closed list and hand it to `emitPath`.  The recursion of
`retracePath` gets as many steps as the closed list has entries. -/
def reportPath (g : grid) (pOutBuffer : List Int) (nOutBufferSize : Int)
    (currentLocation : gridSquare) (closedList : List gridSquare) : Outcome :=
  match g.retracePath closedList.length currentLocation [] closedList with
  | none => Outcome.undefinedBehaviour
  | some path => emitPath g pOutBuffer nOutBufferSize path

/-- The `while (!openList.empty())` loop of `FindPath`; `fuel` bounds the number of
iterations. -/
def mainLoop (sort : List gridSquare → List gridSquare) (g : grid) (pOutBuffer : List Int)
    (nOutBufferSize : Int) : Nat → List gridSquare → List gridSquare → Outcome
  | _, [], _ => Outcome.returned (-1) pOutBuffer
  | 0, _ :: _, _ => Outcome.outOfFuel
  | fuel + 1, o :: os, closedList =>
    match sort (o :: os) with
    | [] => Outcome.undefinedBehaviour
    | currentLocation :: openList =>
      if currentLocation.xCoordinate = g.targetX ∧ currentLocation.yCoordinate = g.targetY then
        reportPath g pOutBuffer nOutBufferSize currentLocation (closedList ++ [currentLocation])
      else
        match g.getNeighbors currentLocation with
        | none => Outcome.undefinedBehaviour
        | some adjacentSqaures =>
          mainLoop sort g pOutBuffer nOutBufferSize fuel
            (processNeighbors currentLocation (closedList ++ [currentLocation])
              adjacentSqaures openList)
            (closedList ++ [currentLocation])

/-- The function `FindPath`. -/
def FindPath (sort : List gridSquare → List gridSquare) (fuel : Nat)
    (nStartX nStartY nTargetX nTargetY : Int) (pMap : List Nat)
    (nMapWidth nMapHeight : Int) (pOutBuffer : List Int) (nOutBufferSize : Int) : Outcome :=
  let myMap : grid := grid.mk nMapHeight nMapWidth pMap nTargetX nTargetY nStartX nStartY
  let startingLocation := gridSquare.new nStartX nStartY 0 (myMap.getManhattan nStartX nStartY)
  mainLoop sort myMap pOutBuffer nOutBufferSize fuel [startingLocation] []

/-! ## std::sort -/

/-- The contract of `std::sort` with `operator<`: the result is a permutation of the input in
which no element is less than an earlier one. -/
def IsSort (sort : List gridSquare → List gridSquare) : Prop :=
  ∀ l, (sort l).Perm l ∧ (sort l).Pairwise (fun a b => a.fScore ≤ b.fScore)

/-- Insert `a` after every element that is not greater than it. -/
def insertSorted (a : gridSquare) : List gridSquare → List gridSquare
  | [] => [a]
  | b :: l => if a.lt b then a :: b :: l else b :: insertSorted a l

/-- Insertion sort from left to right, keeping equal elements in their order. -/
def stableSort (l : List gridSquare) : List gridSquare :=
  l.foldl (fun acc a => insertSorted a acc) []

/-! ## Vocabulary of the specification -/

/-- The coordinates of a square. -/
def coords (s : gridSquare) : Int × Int := (s.xCoordinate, s.yCoordinate)

/-- The cell `c = (x, y)` lies on the grid. -/
def grid.InBounds (g : grid) (c : Int × Int) : Prop :=
  0 ≤ c.1 ∧ c.1 < g.width ∧ 0 ≤ c.2 ∧ c.2 < g.height

instance (g : grid) (c : Int × Int) : Decidable (g.InBounds c) := by
  unfold grid.InBounds; infer_instance

/-- Width and height are at least 1 and the map has exactly `width * height` bytes. -/
def grid.WellFormed (g : grid) : Prop :=
  1 ≤ g.width ∧ 1 ≤ g.height ∧ (g.pMap.length : Int) = g.width * g.height

instance (g : grid) : Decidable g.WellFormed := by
  unfold grid.WellFormed; infer_instance

/-- The cell lies on the grid and its map byte, at the row-major index, is 1. -/
def grid.openCell (g : grid) (c : Int × Int) : Prop :=
  g.InBounds c ∧ g.pMap.get? (c.2 * g.width + c.1).toNat = some 1

instance (g : grid) (c : Int × Int) : Decidable (g.openCell c) := by
  unfold grid.openCell; infer_instance

/-- Two cells differ by exactly 1 in exactly one coordinate and agree in the other. -/
def adjacent4 (a b : Int × Int) : Prop :=
  ((a.1 - b.1).natAbs = 1 ∧ a.2 = b.2) ∨ (a.1 = b.1 ∧ (a.2 - b.2).natAbs = 1)

instance (a b : Int × Int) : Decidable (adjacent4 a b) := by
  unfold adjacent4; infer_instance

/-- One move of a path: to a 4-adjacent cell that is on the grid and has map value 1. -/
def grid.step (g : grid) (a b : Int × Int) : Prop :=
  adjacent4 a b ∧ g.openCell b

instance (g : grid) (a b : Int × Int) : Decidable (g.step a b) := by
  unfold grid.step; infer_instance

/-- The list `path` is a sequence of moves that leads from the cell `c` to the target. -/
def grid.PathFrom (g : grid) : Int × Int → List (Int × Int) → Prop
  | c, [] => c = (g.targetX, g.targetY)
  | c, d :: rest => g.step c d ∧ g.PathFrom d rest

/-- Deciding `PathFrom` by walking along the list. -/
def grid.decPathFrom (g : grid) : (c : Int × Int) → (path : List (Int × Int)) →
    Decidable (g.PathFrom c path)
  | c, [] => inferInstanceAs (Decidable (c = (g.targetX, g.targetY)))
  | c, d :: rest =>
    have := g.decPathFrom d rest
    inferInstanceAs (Decidable (g.step c d ∧ g.PathFrom d rest))

instance (g : grid) (c : Int × Int) (path : List (Int × Int)) :
    Decidable (g.PathFrom c path) := g.decPathFrom c path

/-- The list `path` holds the cells after the start of a sequence of moves that leads from the
start of `g` to its target: every cell of it is 4-adjacent to the one before, lies on the
grid and has map value 1. -/
def grid.ValidPath (g : grid) (path : List (Int × Int)) : Prop :=
  g.PathFrom (g.startX, g.startY) path

instance (g : grid) (path : List (Int × Int)) : Decidable (g.ValidPath path) := by
  unfold grid.ValidPath; infer_instance

/-- The 4-adjacent cells of `c` that can be entered. -/
def grid.stepCells (g : grid) (c : Int × Int) : List (Int × Int) :=
  [(c.1, c.2 + 1), (c.1, c.2 - 1), (c.1 + 1, c.2), (c.1 - 1, c.2)].filter
    fun d => decide (g.openCell d)

/-- The cells that are reached from the start by exactly `k` moves. -/
def grid.bfsLayer (g : grid) : Nat → List (Int × Int)
  | 0 => [(g.startX, g.startY)]
  | k + 1 => ((g.bfsLayer k).flatMap g.stepCells).dedup

/-- Breadth-first-search distance from start to target: the least number of moves that reaches
the target, looked for among the first `width * height` layers. -/
def grid.bfsDist (g : grid) : Option Nat :=
  (List.range (g.width * g.height).toNat).find?
    fun k => decide ((g.targetX, g.targetY) ∈ g.bfsLayer k)

/-- Decode a row-major index into a cell. -/
def decodeIndex (width : Int) (i : Int) : Int × Int := (i % width, i / width)

/-! ## States of the main loop -/

/-- The square that `FindPath` puts on the open list before the loop. -/
def grid.startingLocation (g : grid) : gridSquare :=
  gridSquare.new g.startX g.startY 0 (g.getManhattan g.startX g.startY)

/-- The pairs (open list, closed list) that occur at the head of the main loop: the initial
pair, and the pair left by one pass of the body that did not take the target. -/
inductive Reach (sort : List gridSquare → List gridSquare) (g : grid) :
    List gridSquare → List gridSquare → Prop where
  | init : Reach sort g [g.startingLocation] []
  | next {openList closedList rest adjacentSqaures : List gridSquare}
      {currentLocation : gridSquare} :
      Reach sort g openList closedList →
      openList ≠ [] →
      sort openList = currentLocation :: rest →
      ¬ (currentLocation.xCoordinate = g.targetX ∧ currentLocation.yCoordinate = g.targetY) →
      g.getNeighbors currentLocation = some adjacentSqaures →
      Reach sort g
        (processNeighbors currentLocation (closedList ++ [currentLocation]) adjacentSqaures rest)
        (closedList ++ [currentLocation])

/-- One pass of the body of the main loop that does not leave the loop: the lists at the next
loop head.  The result is `none` when the loop is left (empty open list, target taken,
undefined behaviour). -/
def loopStep (sort : List gridSquare → List gridSquare) (g : grid)
    (openList closedList : List gridSquare) : Option (List gridSquare × List gridSquare) :=
  match openList with
  | [] => none
  | o :: os =>
    match sort (o :: os) with
    | [] => none
    | currentLocation :: rest =>
      if currentLocation.xCoordinate = g.targetX ∧ currentLocation.yCoordinate = g.targetY then
        none
      else
        match g.getNeighbors currentLocation with
        | none => none
        | some adjacentSqaures =>
          some (processNeighbors currentLocation (closedList ++ [currentLocation])
            adjacentSqaures rest, closedList ++ [currentLocation])

/-- The open and closed list at the head of iteration `k` of the main loop (counted from 0),
when the loop gets that far. -/
def loopState (sort : List gridSquare → List gridSquare) (g : grid) :
    Nat → Option (List gridSquare × List gridSquare)
  | 0 => some ([g.startingLocation], [])
  | k + 1 =>
    match loopState sort g k with
    | none => none
    | some s => loopStep sort g s.1 s.2

/-! ## The products in 32-bit arithmetic -/

/-- The value that a 32-bit two's complement `int` holds for the mathematical integer `n`. -/
def wrap32 (n : Int) : Int := (n + 2 ^ 31) % 2 ^ 32 - 2 ^ 31

/-- The method `grid::getLocationFromGrid`, with the product and the sum computed in
32-bit `int`. -/
def grid.getLocationFromGrid32 (g : grid) (xCoordinate yCoordinate : Int) : Int :=
  wrap32 (wrap32 (yCoordinate * g.width) + xCoordinate)

/-- The method `grid::isTraversible`, reading at the 32-bit location. -/
def grid.isTraversible32 (g : grid) (xCoordinate yCoordinate : Int) : Option Bool :=
  let location := g.getLocationFromGrid32 xCoordinate yCoordinate
  match g.readMap location with
  | some v => if v = 1 then some true else some false
  | none => none

/-- The method `grid::getNeighbors`, with `height * width` on line 136 computed in 32-bit
`int` and the map read through `isTraversible32`. -/
def grid.getNeighbors32 (g : grid) (currentLocation : gridSquare) : Option (List gridSquare) :=
  let x := currentLocation.xCoordinate
  let y := currentLocation.yCoordinate
  (if y + 1 < g.height then g.isTraversible32 x (y + 1) else some false).bind fun down =>
  (if y - 1 ≥ 0 then g.isTraversible32 x (y - 1) else some false).bind fun up =>
  if g.width = 0 then none else
  (if (x + 1).tmod g.width ≠ 0 ∧ x + 1 < wrap32 (g.height * g.width)
    then g.isTraversible32 (x + 1) y else some false).bind fun right =>
  (if (x - 1).tmod g.width ≠ g.width - 1 ∧ x - 1 ≥ 0
    then g.isTraversible32 (x - 1) y else some false).bind fun left =>
  some ((if down then [g.neighbor currentLocation x (y + 1)] else [])
    ++ (if up then [g.neighbor currentLocation x (y - 1)] else [])
    ++ (if right then [g.neighbor currentLocation (x + 1) y] else [])
    ++ (if left then [g.neighbor currentLocation (x - 1) y] else []))

/-- Lines 200-209 of `FindPath`, writing the 32-bit locations. -/
def emitPath32 (g : grid) (pOutBuffer : List Int) (nOutBufferSize : Int)
    (retraced : List gridSquare) : Outcome :=
  match retraced with
  | [] => Outcome.undefinedBehaviour
  | _ :: _ =>
    let path := retraced.dropLast.reverse
    if path.length ≤ toSizeT nOutBufferSize then
      match writeBuffer (path.map fun s => g.getLocationFromGrid32 s.xCoordinate s.yCoordinate)
          0 pOutBuffer with
      | some buf => Outcome.returned path.length buf
      | none => Outcome.undefinedBehaviour
    else Outcome.returned (-1) pOutBuffer

/-- Lines 196-209 of `FindPath`, writing the 32-bit locations. -/
def reportPath32 (g : grid) (pOutBuffer : List Int) (nOutBufferSize : Int)
    (currentLocation : gridSquare) (closedList : List gridSquare) : Outcome :=
  match g.retracePath closedList.length currentLocation [] closedList with
  | none => Outcome.undefinedBehaviour
  | some path => emitPath32 g pOutBuffer nOutBufferSize path

/-- The main loop of `FindPath` over `getNeighbors32`. -/
def mainLoop32 (sort : List gridSquare → List gridSquare) (g : grid) (pOutBuffer : List Int)
    (nOutBufferSize : Int) : Nat → List gridSquare → List gridSquare → Outcome
  | _, [], _ => Outcome.returned (-1) pOutBuffer
  | 0, _ :: _, _ => Outcome.outOfFuel
  | fuel + 1, o :: os, closedList =>
    match sort (o :: os) with
    | [] => Outcome.undefinedBehaviour
    | currentLocation :: openList =>
      if currentLocation.xCoordinate = g.targetX ∧ currentLocation.yCoordinate = g.targetY then
        reportPath32 g pOutBuffer nOutBufferSize currentLocation
          (closedList ++ [currentLocation])
      else
        match g.getNeighbors32 currentLocation with
        | none => Outcome.undefinedBehaviour
        | some adjacentSqaures =>
          mainLoop32 sort g pOutBuffer nOutBufferSize fuel
            (processNeighbors currentLocation (closedList ++ [currentLocation])
              adjacentSqaures openList)
            (closedList ++ [currentLocation])

/-- The function `FindPath` with the two `int` products computed in 32 bits. -/
def FindPath32 (sort : List gridSquare → List gridSquare) (fuel : Nat)
    (nStartX nStartY nTargetX nTargetY : Int) (pMap : List Nat)
    (nMapWidth nMapHeight : Int) (pOutBuffer : List Int) (nOutBufferSize : Int) : Outcome :=
  let myMap : grid := grid.mk nMapHeight nMapWidth pMap nTargetX nTargetY nStartX nStartY
  let startingLocation := gridSquare.new nStartX nStartY 0 (myMap.getManhattan nStartX nStartY)
  mainLoop32 sort myMap pOutBuffer nOutBufferSize fuel [startingLocation] []

/-- One pass of the body of the main loop over `getNeighbors32` that does not leave the
loop. -/
def loopStep32 (sort : List gridSquare → List gridSquare) (g : grid)
    (openList closedList : List gridSquare) : Option (List gridSquare × List gridSquare) :=
  match openList with
  | [] => none
  | o :: os =>
    match sort (o :: os) with
    | [] => none
    | currentLocation :: rest =>
      if currentLocation.xCoordinate = g.targetX ∧ currentLocation.yCoordinate = g.targetY then
        none
      else
        match g.getNeighbors32 currentLocation with
        | none => none
        | some adjacentSqaures =>
          some (processNeighbors currentLocation (closedList ++ [currentLocation])
            adjacentSqaures rest, closedList ++ [currentLocation])

/-- The open and closed list at the head of iteration `k` of the main loop over
`getNeighbors32`, when the loop gets that far. -/
def loopState32 (sort : List gridSquare → List gridSquare) (g : grid) :
    Nat → Option (List gridSquare × List gridSquare)
  | 0 => some ([g.startingLocation], [])
  | k + 1 =>
    match loopState32 sort g k with
    | none => none
    | some s => loopStep32 sort g s.1 s.2

/-! ## Invariants of the main loop -/

/-- The square `s` is the start with cost 0, or it was entered from a closed square `p`:
its `cameFrom` fields name `p`, its cost is one more than that of `p`, and its cell is
4-adjacent to that of `p`, lies on the grid and has map value 1. -/
def Linked (g : grid) (closedList : List gridSquare) (s : gridSquare) : Prop :=
  0 ≤ s.gScore ∧
    ((coords s = (g.startX, g.startY) ∧ s.gScore = 0) ∨
      (coords s ≠ (g.startX, g.startY) ∧ g.openCell (coords s) ∧
        ∃ p ∈ closedList, s.cameFromX = some p.xCoordinate ∧
          s.cameFromY = some p.yCoordinate ∧ s.gScore = p.gScore + 1 ∧
          adjacent4 (coords p) (coords s)))

/-- What `getNeighbors` promises about a neighbour `a` of `cur`. -/
def NbOK (g : grid) (cur a : gridSquare) : Prop :=
  a.gScore = cur.gScore + 1 ∧ g.openCell (coords a) ∧ adjacent4 (coords cur) (coords a) ∧
    a.hScore = g.getManhattan a.xCoordinate a.yCoordinate ∧ a.fScore = a.hScore + a.gScore

/-- The invariant of the two lists at the head of the main loop. -/
structure Inv (g : grid) (openList closedList : List gridSquare) : Prop where
  nodup : ((closedList ++ openList).map coords).Nodup
  hasStart : (g.startX, g.startY) ∈ (closedList ++ openList).map coords
  linked : ∀ s ∈ closedList ++ openList, Linked g closedList s
  scores : ∀ s ∈ closedList ++ openList,
    s.hScore = g.getManhattan s.xCoordinate s.yCoordinate ∧ s.fScore = s.hScore + s.gScore
  inBounds : ∀ s ∈ closedList ++ openList, g.InBounds (coords s)
  depthClosed : ∀ s ∈ closedList, s.gScore < closedList.length
  depthOpen : ∀ s ∈ openList, s.gScore ≤ closedList.length
  notTarget : ∀ s ∈ closedList, coords s ≠ (g.targetX, g.targetY)

/-- Every cell that can be entered from a closed square is on one of the two lists. -/
def Complete (g : grid) (openList closedList : List gridSquare) : Prop :=
  ∀ p ∈ closedList, ∀ c, g.step (coords p) c → c ∈ (closedList ++ openList).map coords

/-- The list `chain` runs from `s` back to the start along `cameFrom` links. -/
inductive RetraceChain (g : grid) : gridSquare → List gridSquare → Prop where
  | start (s : gridSquare) : coords s = (g.startX, g.startY) → RetraceChain g s [s]
  | link (s p : gridSquare) (chain : List gridSquare) :
      coords s ≠ (g.startX, g.startY) → g.openCell (coords s) →
      adjacent4 (coords p) (coords s) → RetraceChain g p chain →
      RetraceChain g s (s :: chain)

/-- What lines 202-209 do with a path whose cells (after the start) are `cells`: -1 when the
path is longer than `(size_t)nOutBufferSize`; a write past the end of the buffer when it fits
the declared capacity but not the buffer; otherwise the row-major indices of the cells at the
front of the buffer, the rest of the buffer untouched, and the number of cells returned. -/
def Emitted (width : Int) (buf : List Int) (cap : Int) (cells : List (Int × Int))
    (out : Outcome) : Prop :=
  (out = Outcome.returned (-1) buf ∧ toSizeT cap < cells.length) ∨
  (out = Outcome.undefinedBehaviour ∧ cells.length ≤ toSizeT cap ∧ buf.length < cells.length) ∨
  (∃ o, out = Outcome.returned cells.length o ∧ cells.length ≤ toSizeT cap ∧
    cells.length ≤ buf.length ∧ o.length = buf.length ∧
    o.take cells.length = cells.map (fun c => c.2 * width + c.1) ∧
    ∀ j : Nat, cells.length ≤ j → o[j]? = buf[j]?)

/-! ## Unfolding the loop -/

theorem mainLoop_nil (sort : List gridSquare → List gridSquare) (g : grid) (buf : List Int)
    (cap : Int) (fuel : Nat) (closedList : List gridSquare) :
    mainLoop sort g buf cap fuel [] closedList = Outcome.returned (-1) buf := by
  cases fuel <;> rfl

theorem mainLoop_zero (sort : List gridSquare → List gridSquare) (g : grid) (buf : List Int)
    (cap : Int) (openList closedList : List gridSquare) (h : openList ≠ []) :
    mainLoop sort g buf cap 0 openList closedList = Outcome.outOfFuel := by
  cases openList with
  | nil => exact absurd rfl h
  | cons o os => rfl

theorem mainLoop_succ (sort : List gridSquare → List gridSquare) (g : grid) (buf : List Int)
    (cap : Int) (fuel : Nat) (openList closedList : List gridSquare) (h : openList ≠ []) :
    mainLoop sort g buf cap (fuel + 1) openList closedList =
      match sort openList with
      | [] => Outcome.undefinedBehaviour
      | currentLocation :: rest =>
        if currentLocation.xCoordinate = g.targetX ∧ currentLocation.yCoordinate = g.targetY then
          reportPath g buf cap currentLocation (closedList ++ [currentLocation])
        else
          match g.getNeighbors currentLocation with
          | none => Outcome.undefinedBehaviour
          | some adjacentSqaures =>
            mainLoop sort g buf cap fuel
              (processNeighbors currentLocation (closedList ++ [currentLocation])
                adjacentSqaures rest)
              (closedList ++ [currentLocation]) := by
  cases openList with
  | nil => exact absurd rfl h
  | cons o os => rfl

/-! ## The buffer -/

theorem writeBuffer_get : ∀ (vs : List Int) (i : Nat) (buf out : List Int),
    writeBuffer vs i buf = some out →
    out.length = buf.length ∧
      ∀ j : Nat, out[j]? = if i ≤ j ∧ j < i + vs.length then vs[j - i]? else buf[j]?
  | [], i, buf, out, h => by
    simp only [writeBuffer, Option.some.injEq] at h
    subst h
    refine ⟨rfl, fun j => ?_⟩
    have : ¬ (i ≤ j ∧ j < i + ([] : List Int).length) := by simp
    rw [if_neg this]
  | v :: rest, i, buf, out, h => by
    simp only [writeBuffer] at h
    split at h
    · rename_i hi
      obtain ⟨hl, hg⟩ := writeBuffer_get rest (i + 1) (buf.set i v) out h
      refine ⟨by simpa using hl, fun j => ?_⟩
      rw [hg j]
      by_cases hji : j = i
      · subst hji
        have h1 : ¬ (j + 1 ≤ j ∧ j < j + 1 + rest.length) := by omega
        have h2 : j ≤ j ∧ j < j + (v :: rest).length := by simp
        rw [if_neg h1, if_pos h2]
        simp [hi]
      · by_cases hr : i + 1 ≤ j ∧ j < i + 1 + rest.length
        · have h2 : i ≤ j ∧ j < i + (v :: rest).length := by
            simp only [List.length_cons]; omega
          rw [if_pos hr, if_pos h2]
          have : j - i = (j - (i + 1)) + 1 := by omega
          rw [this, List.getElem?_cons_succ]
        · have h2 : ¬ (i ≤ j ∧ j < i + (v :: rest).length) := by
            simp only [List.length_cons]; omega
          rw [if_neg hr, if_neg h2]
          rw [List.getElem?_set_ne (Ne.symm hji)]
    · exact absurd h (by simp)

theorem writeBuffer_isSome : ∀ (vs : List Int) (i : Nat) (buf : List Int),
    i + vs.length ≤ buf.length → ∃ out, writeBuffer vs i buf = some out
  | [], _, buf, _ => ⟨buf, rfl⟩
  | v :: rest, i, buf, h => by
    simp only [List.length_cons] at h
    have hi : i < buf.length := by omega
    simp only [writeBuffer, if_pos hi]
    exact writeBuffer_isSome rest (i + 1) (buf.set i v) (by simp; omega)

theorem writeBuffer_length_le : ∀ (vs : List Int) (i : Nat) (buf out : List Int),
    writeBuffer vs i buf = some out → vs = [] ∨ i + vs.length ≤ buf.length
  | [], _, _, _, _ => Or.inl rfl
  | v :: rest, i, buf, out, h => by
    simp only [writeBuffer] at h
    split at h
    · rename_i hi
      rcases writeBuffer_length_le rest (i + 1) (buf.set i v) out h with h1 | h1
      · subst h1; right; simp; omega
      · right; simp at h1 ⊢; omega
    · exact absurd h (by simp)

/-- The row-major indices written for a retraced path. -/
theorem emitPath_cases (g : grid) (buf : List Int) (cap : Int) (c : gridSquare)
    (chain : List gridSquare) :
    let idx := ((c :: chain).dropLast.reverse).map
      fun s => g.getLocationFromGrid s.xCoordinate s.yCoordinate
    (emitPath g buf cap (c :: chain) = Outcome.returned (-1) buf ∧ toSizeT cap < idx.length) ∨
    (emitPath g buf cap (c :: chain) = Outcome.undefinedBehaviour ∧
      idx.length ≤ toSizeT cap ∧ buf.length < idx.length) ∨
    (∃ out, emitPath g buf cap (c :: chain) = Outcome.returned idx.length out ∧
      idx.length ≤ toSizeT cap ∧ idx.length ≤ buf.length ∧ out.length = buf.length ∧
      out.take idx.length = idx ∧ ∀ j : Nat, idx.length ≤ j → out[j]? = buf[j]?) := by
  intro idx
  have hlen : ((c :: chain).dropLast.reverse).length = idx.length := by simp [idx]
  by_cases hcap : ((c :: chain).dropLast.reverse).length ≤ toSizeT cap
  · cases hw : writeBuffer idx 0 buf with
    | none =>
      right; left
      refine ⟨?_, by omega, ?_⟩
      · simp only [emitPath, if_pos hcap]
        rw [show List.map (fun s => g.getLocationFromGrid s.xCoordinate s.yCoordinate)
          ((c :: chain).dropLast.reverse) = idx from rfl, hw]
      · by_contra hcon
        obtain ⟨out, ho⟩ := writeBuffer_isSome idx 0 buf (by omega)
        rw [ho] at hw
        exact absurd hw (by simp)
    | some out =>
      right; right
      obtain ⟨hl, hg⟩ := writeBuffer_get idx 0 buf out hw
      have hle : idx.length ≤ buf.length := by
        rcases writeBuffer_length_le idx 0 buf out hw with h | h
        · rw [h]; simp
        · omega
      refine ⟨out, ?_, by omega, hle, hl, ?_, ?_⟩
      · simp only [emitPath, if_pos hcap]
        rw [show List.map (fun s => g.getLocationFromGrid s.xCoordinate s.yCoordinate)
          ((c :: chain).dropLast.reverse) = idx from rfl, hw, hlen]
      · apply List.ext_getElem?
        intro j
        by_cases hj : j < idx.length
        · rw [List.getElem?_take_of_lt hj, hg j]
          have : 0 ≤ j ∧ j < 0 + idx.length := by omega
          rw [if_pos this]; simp
        · rw [List.getElem?_eq_none (by simp; omega), List.getElem?_eq_none (by omega)]
      · intro j hj
        rw [hg j]
        have : ¬ (0 ≤ j ∧ j < 0 + idx.length) := by omega
        rw [if_neg this]
  · left
    refine ⟨?_, by omega⟩
    simp only [emitPath, if_neg hcap]

theorem emitPath_frame (g : grid) (buf : List Int) (cap : Int) (chain : List gridSquare)
    (n : Int) (out : List Int) (h : emitPath g buf cap chain = Outcome.returned n out) :
    (n = -1 ∧ out = buf) ∨
      (0 ≤ n ∧ out.length = buf.length ∧ ∀ j : Nat, n ≤ (j : Int) → out[j]? = buf[j]?) := by
  cases chain with
  | nil => simp [emitPath] at h
  | cons c chain =>
    rcases emitPath_cases g buf cap c chain with ⟨h1, _⟩ | ⟨h1, _⟩ | ⟨o, h1, _, _, h4, _, h6⟩
    · rw [h1] at h
      injection h with h2 h3
      exact Or.inl ⟨h2.symm, h3.symm⟩
    · rw [h1] at h; exact absurd h (by simp)
    · rw [h1] at h
      injection h with h2 h3
      subst h3
      right
      refine ⟨by rw [← h2]; exact Int.natCast_nonneg _, h4, fun j hj => h6 j ?_⟩
      rw [← h2] at hj
      exact_mod_cast hj

theorem reportPath_frame (g : grid) (buf : List Int) (cap : Int) (cur : gridSquare)
    (closedList : List gridSquare) (n : Int) (out : List Int)
    (h : reportPath g buf cap cur closedList = Outcome.returned n out) :
    (n = -1 ∧ out = buf) ∨
      (0 ≤ n ∧ out.length = buf.length ∧ ∀ j : Nat, n ≤ (j : Int) → out[j]? = buf[j]?) := by
  unfold reportPath at h
  split at h
  · exact absurd h (by simp)
  · exact emitPath_frame g buf cap _ n out h

theorem mainLoop_frame (sort : List gridSquare → List gridSquare) (g : grid) (buf : List Int)
    (cap : Int) : ∀ (fuel : Nat) (openList closedList : List gridSquare) (n : Int)
    (out : List Int), mainLoop sort g buf cap fuel openList closedList = Outcome.returned n out →
    (n = -1 ∧ out = buf) ∨
      (0 ≤ n ∧ out.length = buf.length ∧ ∀ j : Nat, n ≤ (j : Int) → out[j]? = buf[j]?) := by
  intro fuel
  induction fuel with
  | zero =>
    intro openList closedList n out h
    cases openList with
    | nil =>
      rw [mainLoop_nil] at h
      injection h with h2 h3
      exact Or.inl ⟨h2.symm, h3.symm⟩
    | cons o os => rw [mainLoop_zero _ _ _ _ _ _ (by simp)] at h; exact absurd h (by simp)
  | succ fuel ih =>
    intro openList closedList n out h
    cases openList with
    | nil =>
      rw [mainLoop_nil] at h
      injection h with h2 h3
      exact Or.inl ⟨h2.symm, h3.symm⟩
    | cons o os =>
      rw [mainLoop_succ _ _ _ _ _ _ _ (by simp)] at h
      split at h
      · exact absurd h (by simp)
      · split at h
        · exact reportPath_frame g buf cap _ _ n out h
        · split at h
          · exact absurd h (by simp)
          · exact ih _ _ n out h

/-- Claim C9. For every input, a call of `FindPath` that returns gives either -1 with the output
buffer exactly as passed, or a count `n ≥ 0` with every buffer entry at a position `≥ n`
unchanged (and the buffer length unchanged): -1 is the only failure value and nothing is
written on failure. -/
theorem C9_frame (sort : List gridSquare → List gridSquare) (fuel : Nat)
    (nStartX nStartY nTargetX nTargetY : Int) (pMap : List Nat) (nMapWidth nMapHeight : Int)
    (pOutBuffer : List Int) (nOutBufferSize : Int) (n : Int) (out : List Int)
    (h : FindPath sort fuel nStartX nStartY nTargetX nTargetY pMap nMapWidth nMapHeight
      pOutBuffer nOutBufferSize = Outcome.returned n out) :
    (n = -1 ∧ out = pOutBuffer) ∨
      (0 ≤ n ∧ out.length = pOutBuffer.length ∧
        ∀ j : Nat, n ≤ (j : Int) → out[j]? = pOutBuffer[j]?) :=
  mainLoop_frame sort _ pOutBuffer nOutBufferSize fuel _ _ n out h

theorem C9_frame_witness :
    FindPath stableSort 12 0 0 1 2 [1, 1, 1, 1, 0, 1, 0, 1, 0, 1, 1, 1] 4 3 [7, 7, 7, 7, 7] 5
        = Outcome.returned 3 [1, 5, 9, 7, 7] ∧
      (((3 : Int) = -1 ∧ ([1, 5, 9, 7, 7] : List Int) = [7, 7, 7, 7, 7]) ∨
        ((0 : Int) ≤ 3 ∧ [1, 5, 9, 7, (7 : Int)].length = [7, 7, 7, 7, (7 : Int)].length ∧
          ∀ j : Nat, (3 : Int) ≤ (j : Int) →
            [1, 5, 9, 7, (7 : Int)][j]? = [7, 7, 7, 7, (7 : Int)][j]?)) :=
  ⟨by decide, C9_frame stableSort 12 0 0 1 2 [1, 1, 1, 1, 0, 1, 0, 1, 0, 1, 1, 1] 4 3
    [7, 7, 7, 7, 7] 5 3 [1, 5, 9, 7, 7] (by decide)⟩

/-! ## The sort -/

theorem insertSorted_perm (a : gridSquare) : ∀ l : List gridSquare,
    (insertSorted a l).Perm (a :: l)
  | [] => List.Perm.refl _
  | b :: l => by
    unfold insertSorted
    split
    · exact List.Perm.refl _
    · exact ((insertSorted_perm a l).cons b).trans (List.Perm.swap a b l)

theorem insertSorted_sorted (a : gridSquare) : ∀ l : List gridSquare,
    l.Pairwise (fun x y => x.fScore ≤ y.fScore) →
    (insertSorted a l).Pairwise (fun x y => x.fScore ≤ y.fScore)
  | [], _ => by simp [insertSorted]
  | b :: l, h => by
    unfold insertSorted
    rw [List.pairwise_cons] at h
    split
    · rename_i hlt
      have hab : a.fScore < b.fScore := by simpa [gridSquare.lt] using hlt
      refine List.Pairwise.cons ?_ (List.Pairwise.cons h.1 h.2)
      intro c hc
      rcases List.mem_cons.1 hc with rfl | hc
      · exact le_of_lt hab
      · exact le_trans (le_of_lt hab) (h.1 c hc)
    · rename_i hlt
      have hba : b.fScore ≤ a.fScore := by
        have : ¬ a.fScore < b.fScore := by simpa [gridSquare.lt] using hlt
        omega
      refine List.Pairwise.cons ?_ (insertSorted_sorted a l h.2)
      intro c hc
      rcases List.mem_cons.1 ((insertSorted_perm a l).mem_iff.1 hc) with rfl | hc
      · exact hba
      · exact h.1 c hc

theorem foldl_insertSorted (l : List gridSquare) : ∀ acc : List gridSquare,
    acc.Pairwise (fun x y => x.fScore ≤ y.fScore) →
    (l.foldl (fun acc a => insertSorted a acc) acc).Perm (acc ++ l) ∧
      (l.foldl (fun acc a => insertSorted a acc) acc).Pairwise
        (fun x y => x.fScore ≤ y.fScore) := by
  induction l with
  | nil => intro acc h; simpa using h
  | cons a l ih =>
    intro acc h
    obtain ⟨h1, h2⟩ := ih (insertSorted a acc) (insertSorted_sorted a acc h)
    refine ⟨?_, h2⟩
    rw [List.foldl_cons]
    refine h1.trans ?_
    have : (insertSorted a acc ++ l).Perm ((a :: acc) ++ l) :=
      (insertSorted_perm a acc).append_right l
    exact this.trans (by simpa using (List.perm_middle).symm)

theorem stableSort_isSort : IsSort stableSort := by
  intro l
  have := foldl_insertSorted l [] List.Pairwise.nil
  simpa [stableSort] using this

theorem IsSort.singleton {sort : List gridSquare → List gridSquare} (hs : IsSort sort)
    (s : gridSquare) : sort [s] = [s] :=
  List.perm_singleton.1 (hs [s]).1

/-! ## Start equal to target -/

/-- Claim C5. If start and target coincide, `FindPath` returns 0 and leaves the buffer as it was,
for every map, width, height and capacity: the first pass of the loop takes the start square,
finds it to be the target, retraces a path that consists of the start alone and writes nothing.
The map is never read (it may even be empty). -/
theorem C5_start_is_target (sort : List gridSquare → List gridSquare) (hs : IsSort sort)
    (fuel : Nat) (hfuel : 1 ≤ fuel) (x y : Int) (pMap : List Nat)
    (nMapWidth nMapHeight : Int) (pOutBuffer : List Int) (nOutBufferSize : Int) :
    FindPath sort fuel x y x y pMap nMapWidth nMapHeight pOutBuffer nOutBufferSize
      = Outcome.returned 0 pOutBuffer := by
  obtain ⟨k, rfl⟩ : ∃ k, fuel = k + 1 := ⟨fuel - 1, by omega⟩
  simp [FindPath, mainLoop, hs.singleton, gridSquare.new, reportPath, grid.retracePath,
    emitPath, writeBuffer]

theorem C5_start_is_target_witness :
    IsSort stableSort ∧ 1 ≤ 1 ∧
      FindPath stableSort 1 2 1 2 1 [0, 0, 0, 0, 0, 0] 3 2 [7, 7] 0
        = Outcome.returned 0 [7, 7] :=
  ⟨stableSort_isSort, le_refl 1,
    C5_start_is_target stableSort stableSort_isSort 1 (le_refl 1) 2 1 [0, 0, 0, 0, 0, 0] 3 2
      [7, 7] 0⟩

/-! ## Evaluations -/

/-- Claim C1. On the 4x5 grid below, from (1,4) to (0,0) with room for 9 entries, `FindPath`
(with equal `fScore`s kept in insertion order) returns 9 and writes a path of 9 moves, although
the path (2,4), (2,3), (2,2), (2,1), (2,0), (1,0), (0,0) has 7 moves and the breadth-first
distance is 7: the returned path is not a shortest one. -/
theorem C1_not_shortest :
    FindPath stableSort 20 1 4 0 0
        [1, 1, 1, 1,
         0, 0, 1, 1,
         1, 1, 1, 1,
         1, 0, 1, 1,
         1, 1, 1, 1] 4 5 [0, 0, 0, 0, 0, 0, 0, 0, 0] 9
      = Outcome.returned 9 [16, 12, 8, 9, 10, 6, 2, 1, 0] ∧
    (grid.mk 5 4 [1, 1, 1, 1, 0, 0, 1, 1, 1, 1, 1, 1, 1, 0, 1, 1, 1, 1, 1, 1] 0 0 1 4).ValidPath
      [(2, 4), (2, 3), (2, 2), (2, 1), (2, 0), (1, 0), (0, 0)] ∧
    (grid.mk 5 4 [1, 1, 1, 1, 0, 0, 1, 1, 1, 1, 1, 1, 1, 0, 1, 1, 1, 1, 1, 1] 0 0 1 4).bfsDist
      = some 7 := by
  refine ⟨by decide, by decide, by decide⟩

/-- Claim C7. With the declared capacity -1 the comparison `path.size() <= (size_t)nOutBufferSize`
succeeds, and `FindPath` returns a count above the capacity: 0 when start and target coincide,
and 3 (after writing three entries) on the 4x3 sample grid. -/
theorem C7_negative_capacity :
    FindPath stableSort 1 0 0 0 0 [1] 1 1 [] (-1) = Outcome.returned 0 [] ∧
    FindPath stableSort 12 0 0 1 2 [1, 1, 1, 1, 0, 1, 0, 1, 0, 1, 1, 1] 4 3 [0, 0, 0] (-1)
      = Outcome.returned 3 [1, 5, 9] := by
  refine ⟨by decide, by decide⟩

/-- Claim C10 as stated fails: on the 3x3 sample grid `FindPath` does not return 4 with the
indices 5, 4, 3, 6 in the buffer. -/
theorem C10_sample_not_four :
    ¬ ∃ rest : List Int,
      FindPath stableSort 9 2 0 0 2 [0, 0, 1, 0, 1, 1, 1, 0, 1] 3 3 [0, 0, 0, 0, 0, 0, 0] 7
        = Outcome.returned 4 ([5, 4, 3, 6] ++ rest) := by
  have h : FindPath stableSort 9 2 0 0 2 [0, 0, 1, 0, 1, 1, 1, 0, 1] 3 3 [0, 0, 0, 0, 0, 0, 0] 7
      = Outcome.returned (-1) [0, 0, 0, 0, 0, 0, 0] := by decide
  rintro ⟨rest, hr⟩
  rw [h] at hr
  injection hr with h1 _
  exact absurd h1 (by decide)

/-! ## Squares and coordinates -/

theorem gridSquare.eq_iff (s t : gridSquare) : s.eq t = true ↔ coords s = coords t := by
  unfold gridSquare.eq coords
  constructor
  · intro h
    split at h
    · rename_i hc; exact Prod.ext hc.1.symm hc.2.symm
    · exact absurd h (by simp)
  · intro h
    have h1 : s.xCoordinate = t.xCoordinate := congrArg Prod.fst h
    have h2 : s.yCoordinate = t.yCoordinate := congrArg Prod.snd h
    rw [if_pos ⟨h1.symm, h2.symm⟩]

theorem find_eq_none_iff (l : List gridSquare) (t : gridSquare) :
    l.find? (fun s => s.eq t) = none ↔ coords t ∉ l.map coords := by
  rw [List.find?_eq_none]
  constructor
  · intro h hm
    obtain ⟨s, hs, hc⟩ := List.mem_map.1 hm
    exact h s hs ((gridSquare.eq_iff s t).2 hc)
  · intro h s hs hc
    exact h (List.mem_map.2 ⟨s, hs, (gridSquare.eq_iff s t).1 hc⟩)

theorem find_eq_some_of_nodup : ∀ (l : List gridSquare) (p t : gridSquare),
    (l.map coords).Nodup → p ∈ l → coords p = coords t →
    l.find? (fun s => s.eq t) = some p
  | [], _, _, _, hp, _ => absurd hp (List.not_mem_nil _)
  | a :: l, p, t, hnd, hp, hc => by
    rw [List.map_cons, List.nodup_cons] at hnd
    rcases List.mem_cons.1 hp with rfl | hp
    · rw [List.find?_cons, (gridSquare.eq_iff p t).2 hc]
    · have hne : a.eq t = false := by
        cases hat : a.eq t with
        | false => rfl
        | true =>
          exfalso
          apply hnd.1
          rw [(gridSquare.eq_iff a t).1 hat, ← hc]
          exact List.mem_map_of_mem _ hp
      rw [List.find?_cons, hne]
      exact find_eq_some_of_nodup l p t hnd.2 hp hc

theorem coords_inj_of_nodup {l : List gridSquare} (hnd : (l.map coords).Nodup)
    {a b : gridSquare} (ha : a ∈ l) (hb : b ∈ l) (h : coords a = coords b) : a = b :=
  List.inj_on_of_nodup_map hnd ha hb h

/-! ## The grid -/

theorem index_lt (g : grid) (wf : g.WellFormed) (c : Int × Int) (hc : g.InBounds c) :
    0 ≤ c.2 * g.width + c.1 ∧ c.2 * g.width + c.1 < g.width * g.height := by
  obtain ⟨hw, hh, _⟩ := wf
  obtain ⟨h1, h2, h3, h4⟩ := hc
  constructor
  · have : 0 ≤ c.2 * g.width := Int.mul_nonneg h3 (by omega)
    omega
  · have : (c.2 + 1) * g.width ≤ g.height * g.width :=
      Int.mul_le_mul_of_nonneg_right (by omega) (by omega)
    have h5 : (c.2 + 1) * g.width = c.2 * g.width + g.width := by ring
    have h6 : g.height * g.width = g.width * g.height := by ring
    omega

theorem isTraversible_inBounds (g : grid) (wf : g.WellFormed) (x y : Int)
    (hc : g.InBounds (x, y)) : g.isTraversible x y = some (decide (g.openCell (x, y))) := by
  obtain ⟨h0, h1⟩ := index_lt g wf (x, y) hc
  simp only at h0 h1
  have hlt : (y * g.width + x).toNat < g.pMap.length := by
    have := wf.2.2
    omega
  unfold grid.isTraversible grid.readMap grid.getLocationFromGrid
  simp only [if_pos h0]
  rw [List.get?_eq_get hlt]
  simp only
  by_cases hv : g.pMap.get ⟨(y * g.width + x).toNat, hlt⟩ = 1
  · rw [if_pos hv]
    have : g.openCell (x, y) := ⟨hc, by simp only; rw [List.get?_eq_get hlt, hv]⟩
    simp [this]
  · rw [if_neg hv]
    have : ¬ g.openCell (x, y) := by
      rintro ⟨_, h⟩
      simp only at h
      rw [List.get?_eq_get hlt] at h
      exact hv (Option.some.inj h)
    simp [this]

theorem not_openCell_of_not_inBounds (g : grid) (c : Int × Int) (h : ¬ g.InBounds c) :
    decide (g.openCell c) = false := by
  have : ¬ g.openCell c := fun ho => h ho.1
  simp [this]

/-- On a well-formed grid `getNeighbors` reads the map only inside its bounds and returns the
squares for the cells of `stepCells`, in the order down, up, right, left. -/
theorem getNeighbors_inBounds (g : grid) (wf : g.WellFormed) (cur : gridSquare)
    (hc : g.InBounds (coords cur)) :
    g.getNeighbors cur =
      some ((g.stepCells (coords cur)).map fun c => g.neighbor cur c.1 c.2) := by
  obtain ⟨hw, hh, hlen⟩ := wf
  obtain ⟨h1, h2, h3, h4⟩ := hc
  simp only [coords] at h1 h2 h3 h4
  have wf : g.WellFormed := ⟨hw, hh, hlen⟩
  have hdown : (if cur.yCoordinate + 1 < g.height
      then g.isTraversible cur.xCoordinate (cur.yCoordinate + 1) else some false)
      = some (decide (g.openCell (cur.xCoordinate, cur.yCoordinate + 1))) := by
    split
    · exact isTraversible_inBounds g wf _ _ ⟨h1, h2, by simp only; omega, by simpa⟩
    · rw [not_openCell_of_not_inBounds]
      rintro ⟨_, _, _, h⟩
      simp only at h; omega
  have hup : (if cur.yCoordinate - 1 ≥ 0
      then g.isTraversible cur.xCoordinate (cur.yCoordinate - 1) else some false)
      = some (decide (g.openCell (cur.xCoordinate, cur.yCoordinate - 1))) := by
    split
    · exact isTraversible_inBounds g wf _ _ ⟨h1, h2, by simp only; omega, by simp only; omega⟩
    · rw [not_openCell_of_not_inBounds]
      rintro ⟨_, _, h, _⟩
      simp only at h; omega
  have hright : (if (cur.xCoordinate + 1).tmod g.width ≠ 0 ∧
        cur.xCoordinate + 1 < g.height * g.width
      then g.isTraversible (cur.xCoordinate + 1) cur.yCoordinate else some false)
      = some (decide (g.openCell (cur.xCoordinate + 1, cur.yCoordinate))) := by
    by_cases hx : cur.xCoordinate + 1 < g.width
    · have ht : (cur.xCoordinate + 1).tmod g.width = cur.xCoordinate + 1 :=
        Int.tmod_eq_of_lt (by omega) hx
      have hle : g.width ≤ g.height * g.width := by
        have := Int.mul_le_mul_of_nonneg_right hh (show (0 : Int) ≤ g.width by omega)
        simpa using this
      rw [if_pos ⟨by rw [ht]; omega, by omega⟩]
      exact isTraversible_inBounds g wf _ _ ⟨by simp only; omega, hx, h3, h4⟩
    · have hxw : cur.xCoordinate + 1 = g.width := by omega
      have ht : (cur.xCoordinate + 1).tmod g.width = 0 := by rw [hxw]; exact Int.tmod_self
      rw [if_neg (by rw [ht]; simp)]
      rw [not_openCell_of_not_inBounds]
      rintro ⟨_, h, _, _⟩
      simp only at h; omega
  have hleft : (if (cur.xCoordinate - 1).tmod g.width ≠ g.width - 1 ∧
        cur.xCoordinate - 1 ≥ 0
      then g.isTraversible (cur.xCoordinate - 1) cur.yCoordinate else some false)
      = some (decide (g.openCell (cur.xCoordinate - 1, cur.yCoordinate))) := by
    by_cases hx : cur.xCoordinate - 1 ≥ 0
    · have ht : (cur.xCoordinate - 1).tmod g.width = cur.xCoordinate - 1 :=
        Int.tmod_eq_of_lt hx (by omega)
      rw [if_pos ⟨by rw [ht]; omega, hx⟩]
      exact isTraversible_inBounds g wf _ _ ⟨hx, by simp only; omega, h3, h4⟩
    · rw [if_neg (by intro h; exact hx h.2)]
      rw [not_openCell_of_not_inBounds]
      rintro ⟨h, _, _, _⟩
      simp only at h; omega
  have hw0 : g.width ≠ 0 := by omega
  unfold grid.getNeighbors
  simp only [hdown, hup, hright, hleft, Option.some_bind, if_neg hw0]
  simp only [grid.stepCells, coords, List.filter]
  by_cases c1 : g.openCell (cur.xCoordinate, cur.yCoordinate + 1) <;>
  by_cases c2 : g.openCell (cur.xCoordinate, cur.yCoordinate - 1) <;>
  by_cases c3 : g.openCell (cur.xCoordinate + 1, cur.yCoordinate) <;>
  by_cases c4 : g.openCell (cur.xCoordinate - 1, cur.yCoordinate) <;>
  simp [c1, c2, c3, c4]

theorem mem_stepCells (g : grid) (a c : Int × Int) : c ∈ g.stepCells a ↔ g.step a c := by
  obtain ⟨ax, ay⟩ := a
  obtain ⟨cx, cy⟩ := c
  simp only [grid.stepCells, grid.step, adjacent4, List.mem_filter, List.mem_cons,
    List.mem_singleton, Prod.mk.injEq, decide_eq_true_eq, List.not_mem_nil, or_false]
  constructor
  · rintro ⟨h, ho⟩
    refine ⟨?_, ho⟩
    omega
  · rintro ⟨h, ho⟩
    refine ⟨?_, ho⟩
    omega

theorem neighbor_nbOK (g : grid) (cur : gridSquare) (c : Int × Int)
    (h : g.step (coords cur) c) : NbOK g cur (g.neighbor cur c.1 c.2) :=
  ⟨rfl, h.2, h.1, rfl, rfl⟩

theorem neighbors_spec (g : grid) (cur : gridSquare) :
    (∀ a ∈ (g.stepCells (coords cur)).map (fun c => g.neighbor cur c.1 c.2), NbOK g cur a) ∧
    (∀ c, g.step (coords cur) c →
      c ∈ ((g.stepCells (coords cur)).map (fun c => g.neighbor cur c.1 c.2)).map coords) := by
  constructor
  · intro a ha
    obtain ⟨c, hc, rfl⟩ := List.mem_map.1 ha
    exact neighbor_nbOK g cur c ((mem_stepCells g _ c).1 hc)
  · intro c hc
    exact List.mem_map.2 ⟨g.neighbor cur c.1 c.2,
      List.mem_map.2 ⟨c, (mem_stepCells g _ c).2 hc, rfl⟩, rfl⟩

/-! ## The loop over the neighbours -/

theorem coords_stamp (cur a : gridSquare) : coords (stamp cur a) = coords a := rfl

theorem addNeighbor_cases (cur : gridSquare) (closedList openList : List gridSquare)
    (a : gridSquare) (h : a.gScore = cur.gScore + 1) :
    (coords a ∈ (closedList ++ openList).map coords ∧
      addNeighbor cur closedList openList a = openList) ∨
    (coords a ∉ (closedList ++ openList).map coords ∧
      addNeighbor cur closedList openList a = openList ++ [stamp cur a]) := by
  unfold addNeighbor
  simp only
  cases hc : closedList.find? (fun s => s.eq (stamp cur a)) with
  | some it =>
    left
    refine ⟨?_, rfl⟩
    have : coords (stamp cur a) ∈ closedList.map coords := by
      by_contra hn
      rw [(find_eq_none_iff closedList (stamp cur a)).2 hn] at hc
      exact absurd hc (by simp)
    rw [List.map_append, List.mem_append]
    exact Or.inl this
  | none =>
    have hc2 := (find_eq_none_iff closedList (stamp cur a)).1 hc
    cases ho : openList.find? (fun s => s.eq (stamp cur a)) with
    | some it =>
      left
      constructor
      · have : coords (stamp cur a) ∈ openList.map coords := by
          by_contra hn
          rw [(find_eq_none_iff openList (stamp cur a)).2 hn] at ho
          exact absurd ho (by simp)
        rw [List.map_append, List.mem_append]
        exact Or.inr this
      · have hlt : ¬ (cur.gScore + 1 < (stamp cur a).gScore) := by
          simp only [stamp]; omega
        simp only [if_neg hlt]
    | none =>
      right
      have ho2 := (find_eq_none_iff openList (stamp cur a)).1 ho
      refine ⟨?_, rfl⟩
      rw [List.map_append, List.mem_append]
      rintro (h1 | h1)
      · exact hc2 h1
      · exact ho2 h1

theorem processNeighbors_spec (cur : gridSquare) (closedList : List gridSquare) :
    ∀ (adj openList : List gridSquare), (∀ a ∈ adj, a.gScore = cur.gScore + 1) →
    ∃ news : List gridSquare,
      processNeighbors cur closedList adj openList = openList ++ news ∧
      (∀ n ∈ news, ∃ a ∈ adj, n = stamp cur a) ∧
      (news.map coords).Nodup ∧
      (∀ n ∈ news, coords n ∉ (closedList ++ openList).map coords) ∧
      (∀ a ∈ adj, coords a ∈ (closedList ++ openList ++ news).map coords) := by
  intro adj
  induction adj with
  | nil =>
    intro openList _
    exact ⟨[], by simp [processNeighbors], by simp, by simp, by simp, by simp⟩
  | cons a adj ih =>
    intro openList hg
    have hga : a.gScore = cur.gScore + 1 := hg a (List.mem_cons_self _ _)
    have hgr : ∀ b ∈ adj, b.gScore = cur.gScore + 1 :=
      fun b hb => hg b (List.mem_cons_of_mem _ hb)
    rcases addNeighbor_cases cur closedList openList a hga with ⟨hin, heq⟩ | ⟨hnin, heq⟩
    · obtain ⟨news, h1, h2, h3, h4, h5⟩ := ih openList hgr
      refine ⟨news, ?_, ?_, h3, h4, ?_⟩
      · simp only [processNeighbors, heq, h1]
      · intro n hn
        obtain ⟨b, hb, hnb⟩ := h2 n hn
        exact ⟨b, List.mem_cons_of_mem _ hb, hnb⟩
      · intro b hb
        rcases List.mem_cons.1 hb with rfl | hb
        · rw [List.map_append, List.mem_append]
          exact Or.inl hin
        · exact h5 b hb
    · obtain ⟨news, h1, h2, h3, h4, h5⟩ := ih (openList ++ [stamp cur a]) hgr
      refine ⟨stamp cur a :: news, ?_, ?_, ?_, ?_, ?_⟩
      · simp only [processNeighbors, heq, h1, List.append_assoc, List.singleton_append]
      · intro n hn
        rcases List.mem_cons.1 hn with rfl | hn
        · exact ⟨a, List.mem_cons_self _ _, rfl⟩
        · obtain ⟨b, hb, hnb⟩ := h2 n hn
          exact ⟨b, List.mem_cons_of_mem _ hb, hnb⟩
      · rw [List.map_cons, List.nodup_cons]
        refine ⟨?_, h3⟩
        intro hm
        obtain ⟨n, hn, hcn⟩ := List.mem_map.1 hm
        apply h4 n hn
        rw [hcn]
        simp only [List.map_append, List.mem_append, List.map_cons, List.map_nil,
          List.mem_singleton]
        exact Or.inr (Or.inr trivial)
      · intro n hn
        rcases List.mem_cons.1 hn with rfl | hn
        · exact hnin
        · intro hm
          apply h4 n hn
          simp only [List.map_append, List.mem_append] at hm ⊢
          rcases hm with hm | hm
          · exact Or.inl hm
          · exact Or.inr (Or.inl hm)
      · intro b hb
        rcases List.mem_cons.1 hb with rfl | hb
        · simp only [List.map_append, List.mem_append, List.map_cons, List.mem_cons]
          exact Or.inr (Or.inl rfl)
        · have := h5 b hb
          simp only [List.map_append, List.mem_append, List.map_cons, List.mem_cons,
            List.map_nil, List.not_mem_nil, or_false] at this ⊢
          rcases this with (h | h | h) | h
          · exact Or.inl (Or.inl h)
          · exact Or.inl (Or.inr h)
          · exact Or.inr (Or.inl h)
          · exact Or.inr (Or.inr h)

/-! ## The invariant holds at every loop head -/

theorem Linked.mono {g : grid} {l1 l2 : List gridSquare} {s : gridSquare}
    (h : Linked g l1 s) (hsub : ∀ p ∈ l1, p ∈ l2) : Linked g l2 s := by
  obtain ⟨h0, h1 | ⟨h1, h2, p, hp, h3⟩⟩ := h
  · exact ⟨h0, Or.inl h1⟩
  · exact ⟨h0, Or.inr ⟨h1, h2, p, hsub p hp, h3⟩⟩

theorem inv_init (g : grid) (hs : g.InBounds (g.startX, g.startY)) :
    Inv g [g.startingLocation] [] ∧ Complete g [g.startingLocation] [] := by
  refine ⟨⟨?_, ?_, ?_, ?_, ?_, ?_, ?_, ?_⟩, ?_⟩
  · simp
  · simp [grid.startingLocation, gridSquare.new, coords]
  · intro s hs'
    simp only [List.nil_append, List.mem_singleton] at hs'
    subst hs'
    exact ⟨le_refl _, Or.inl ⟨rfl, rfl⟩⟩
  · intro s hs'
    simp only [List.nil_append, List.mem_singleton] at hs'
    subst hs'
    exact ⟨rfl, rfl⟩
  · intro s hs'
    simp only [List.nil_append, List.mem_singleton] at hs'
    subst hs'
    exact hs
  · intro s hs'; exact absurd hs' (List.not_mem_nil _)
  · intro s hs'
    simp only [List.mem_singleton] at hs'
    subst hs'
    exact le_refl _
  · intro s hs'; exact absurd hs' (List.not_mem_nil _)
  · intro p hp; exact absurd hp (List.not_mem_nil _)

theorem inv_next (g : grid) (openList closedList rest : List gridSquare) (cur : gridSquare)
    (hinv : Inv g openList closedList) (hcomp : Complete g openList closedList)
    (hperm : (cur :: rest).Perm openList)
    (hnt : ¬ (cur.xCoordinate = g.targetX ∧ cur.yCoordinate = g.targetY)) :
    Inv g
        (processNeighbors cur (closedList ++ [cur])
          ((g.stepCells (coords cur)).map fun c => g.neighbor cur c.1 c.2) rest)
        (closedList ++ [cur]) ∧
      Complete g
        (processNeighbors cur (closedList ++ [cur])
          ((g.stepCells (coords cur)).map fun c => g.neighbor cur c.1 c.2) rest)
        (closedList ++ [cur]) := by
  obtain ⟨hnb, hcov⟩ := neighbors_spec g cur
  obtain ⟨news, hpn, hn1, hn2, hn3, hn4⟩ :=
    processNeighbors_spec cur (closedList ++ [cur])
      ((g.stepCells (coords cur)).map fun c => g.neighbor cur c.1 c.2) rest
      (fun a ha => (hnb a ha).1)
  rw [hpn]
  -- the old squares, rearranged
  have hP : ((closedList ++ [cur]) ++ rest).Perm (closedList ++ openList) := by
    rw [List.append_assoc]
    exact List.Perm.append_left _ hperm
  have hmem : ∀ s, s ∈ (closedList ++ [cur]) ++ rest ↔ s ∈ closedList ++ openList :=
    fun s => hP.mem_iff
  have hcur : cur ∈ openList := hperm.mem_iff.1 (List.mem_cons_self _ _)
  have hcurL : Linked g closedList cur := hinv.linked cur (List.mem_append_right _ hcur)
  have hsub : ∀ p ∈ closedList, p ∈ closedList ++ [cur] :=
    fun p hp => List.mem_append_left _ hp
  have hold : ∀ s, s ∈ (closedList ++ [cur]) ++ (rest ++ news) →
      s ∈ closedList ++ openList ∨ s ∈ news := by
    intro s hs
    rw [← List.append_assoc, List.mem_append] at hs
    rcases hs with hs | hs
    · exact Or.inl ((hmem s).1 hs)
    · exact Or.inr hs
  have hstart : (g.startX, g.startY) ∈ ((closedList ++ [cur]) ++ rest).map coords :=
    (hP.map coords).mem_iff.2 hinv.hasStart
  have hnew : ∀ n ∈ news, NbOK g cur n ∧ n.cameFromX = some cur.xCoordinate ∧
      n.cameFromY = some cur.yCoordinate ∧
      coords n ∉ ((closedList ++ [cur]) ++ rest).map coords := by
    intro n hn
    obtain ⟨a, ha, rfl⟩ := hn1 n hn
    exact ⟨hnb a ha, rfl, rfl, hn3 _ hn⟩
  refine ⟨⟨?_, ?_, ?_, ?_, ?_, ?_, ?_, ?_⟩, ?_⟩
  · -- nodup
    rw [← List.append_assoc, List.map_append]
    refine List.Nodup.append ((hP.map coords).nodup_iff.2 hinv.nodup) hn2 ?_
    intro c hc1 hc2
    obtain ⟨n, hn, rfl⟩ := List.mem_map.1 hc2
    exact hn3 n hn hc1
  · rw [← List.append_assoc, List.map_append, List.mem_append]
    exact Or.inl hstart
  · intro s hs
    rcases hold s hs with hs | hs
    · exact (hinv.linked s hs).mono hsub
    · obtain ⟨hok, hx, hy, hnin⟩ := hnew s hs
      refine ⟨by rw [hok.1]; have := hcurL.1; omega, Or.inr ⟨?_, hok.2.1, cur, ?_, hx, hy,
        hok.1, hok.2.2.1⟩⟩
      · intro hc
        rw [hc] at hnin
        exact hnin hstart
      · simp
  · intro s hs
    rcases hold s hs with hs | hs
    · exact hinv.scores s hs
    · obtain ⟨hok, _⟩ := hnew s hs
      exact ⟨hok.2.2.2.1, hok.2.2.2.2⟩
  · intro s hs
    rcases hold s hs with hs | hs
    · exact hinv.inBounds s hs
    · obtain ⟨hok, _⟩ := hnew s hs
      exact hok.2.1.1
  · intro s hs
    rw [List.length_append, List.length_singleton]
    rcases List.mem_append.1 hs with hs | hs
    · have := hinv.depthClosed s hs
      push_cast; omega
    · rw [List.mem_singleton] at hs
      subst hs
      have := hinv.depthOpen s hcur
      push_cast; omega
  · intro s hs
    rw [List.length_append, List.length_singleton]
    rcases List.mem_append.1 hs with hs | hs
    · have := hinv.depthOpen s (hperm.mem_iff.1 (List.mem_cons_of_mem _ hs))
      push_cast; omega
    · obtain ⟨hok, _⟩ := hnew s hs
      have := hinv.depthOpen cur hcur
      rw [hok.1]
      push_cast; omega
  · intro s hs
    rcases List.mem_append.1 hs with hs | hs
    · exact hinv.notTarget s hs
    · rw [List.mem_singleton] at hs
      subst hs
      intro hc
      exact hnt ⟨congrArg Prod.fst hc, congrArg Prod.snd hc⟩
  · -- completeness
    intro p hp c hstep
    rw [← List.append_assoc, List.map_append, List.mem_append]
    rcases List.mem_append.1 hp with hp | hp
    · left
      exact (hP.map coords).mem_iff.2 (hcomp p hp c hstep)
    · rw [List.mem_singleton] at hp
      subst hp
      obtain ⟨a, ha, hac⟩ := List.mem_map.1 (hcov c hstep)
      have := hn4 a ha
      rw [hac, List.map_append, List.mem_append] at this
      exact this

theorem reach_inv (sort : List gridSquare → List gridSquare) (hs : IsSort sort) (g : grid)
    (wf : g.WellFormed) (hstart : g.InBounds (g.startX, g.startY))
    {openList closedList : List gridSquare} (h : Reach sort g openList closedList) :
    Inv g openList closedList ∧ Complete g openList closedList := by
  induction h with
  | init => exact inv_init g hstart
  | @next openList closedList rest adj cur _ _ hsort hnt hadj ih =>
    obtain ⟨hinv, hcomp⟩ := ih
    have hperm : (cur :: rest).Perm openList := hsort ▸ (hs openList).1
    have hcur : cur ∈ openList := hperm.mem_iff.1 (List.mem_cons_self _ _)
    have hb : g.InBounds (coords cur) := hinv.inBounds cur (List.mem_append_right _ hcur)
    rw [getNeighbors_inBounds g wf cur hb] at hadj
    injection hadj with hadj
    subst hadj
    exact inv_next g openList closedList rest cur hinv hcomp hperm hnt

/-! ## Retracing -/

theorem retrace_spec (g : grid) (closedList : List gridSquare)
    (hnd : (closedList.map coords).Nodup) (hl : ∀ s ∈ closedList, Linked g closedList s) :
    ∀ (n : Nat) (s : gridSquare), s ∈ closedList → s.gScore = (n : Int) →
    ∀ (fuel : Nat), n < fuel → ∀ acc : List gridSquare,
    ∃ chain, g.retracePath fuel s acc closedList = some (acc ++ chain) ∧
      RetraceChain g s chain ∧ chain.length = n + 1 := by
  intro n
  induction n with
  | zero =>
    intro s hs hg fuel hfuel acc
    obtain ⟨k, rfl⟩ : ∃ k, fuel = k + 1 := ⟨fuel - 1, by omega⟩
    obtain ⟨_, ⟨hc, _⟩ | ⟨_, _, p, hp, _, _, hgp, _⟩⟩ := hl s hs
    · refine ⟨[s], ?_, RetraceChain.start s hc, rfl⟩
      have hx : s.xCoordinate = g.startX := congrArg Prod.fst hc
      have hy : s.yCoordinate = g.startY := congrArg Prod.snd hc
      simp only [grid.retracePath, if_pos (And.intro hx hy)]
    · have := (hl p hp).1
      rw [hg] at hgp
      simp only [Nat.cast_zero] at hgp
      omega
  | succ n ih =>
    intro s hs hg fuel hfuel acc
    obtain ⟨k, rfl⟩ : ∃ k, fuel = k + 1 := ⟨fuel - 1, by omega⟩
    obtain ⟨_, ⟨_, h0⟩ | ⟨hc, hopen, p, hp, hx, hy, hgp, hadj⟩⟩ := hl s hs
    · rw [hg] at h0
      push_cast at h0
      omega
    · have hpg : p.gScore = (n : Int) := by
        rw [hg] at hgp
        push_cast at hgp
        omega
      obtain ⟨chain, h1, h2, h3⟩ := ih p hp hpg k (by omega) (acc ++ [s])
      refine ⟨s :: chain, ?_, RetraceChain.link s p chain hc hopen hadj h2, by simp [h3]⟩
      have hns : ¬ (s.xCoordinate = g.startX ∧ s.yCoordinate = g.startY) := by
        rintro ⟨h4, h5⟩
        exact hc (Prod.ext h4 h5)
      have hfind : closedList.find?
          (fun t => t.eq (gridSquare.new p.xCoordinate p.yCoordinate 0 0)) = some p :=
        find_eq_some_of_nodup closedList p _ hnd hp rfl
      simp only [grid.retracePath, if_neg hns, hx, hy, hfind, h1, List.append_assoc,
        List.singleton_append]

theorem RetraceChain.ne_nil {g : grid} {s : gridSquare} {chain : List gridSquare}
    (h : RetraceChain g s chain) : chain ≠ [] := by
  cases h <;> simp

theorem chain_path (g : grid) {s : gridSquare} {chain : List gridSquare}
    (h : RetraceChain g s chain) : ∀ suffix : List (Int × Int),
    g.PathFrom (coords s) suffix →
    g.PathFrom (g.startX, g.startY) ((chain.dropLast.reverse).map coords ++ suffix) := by
  induction h with
  | start s hc =>
    intro suffix hp
    rw [hc] at hp
    simpa using hp
  | link s p chain hc hopen hadj hch ih =>
    intro suffix hp
    have hne := hch.ne_nil
    rw [List.dropLast_cons_of_ne_nil hne, List.reverse_cons, List.map_append,
      List.append_assoc]
    exact ih (coords s :: suffix) ⟨⟨hadj, hopen⟩, hp⟩

theorem chain_no_start (g : grid) {s : gridSquare} {chain : List gridSquare}
    (h : RetraceChain g s chain) :
    (g.startX, g.startY) ∉ (chain.dropLast.reverse).map coords := by
  induction h with
  | start s hc => simp
  | link s p chain hc hopen hadj hch ih =>
    have hne := hch.ne_nil
    rw [List.dropLast_cons_of_ne_nil hne, List.reverse_cons, List.map_append,
      List.mem_append]
    rintro (h1 | h1)
    · exact ih h1
    · simp only [List.map_cons, List.map_nil, List.mem_singleton] at h1
      exact hc h1.symm

theorem mainLoop_cases (sort : List gridSquare → List gridSquare) (g : grid) (buf : List Int)
    (cap : Int) : ∀ (fuel : Nat) (openList closedList : List gridSquare),
    Reach sort g openList closedList →
    (∃ closedF, Reach sort g [] closedF ∧
      mainLoop sort g buf cap fuel openList closedList = Outcome.returned (-1) buf) ∨
    (∃ openF closedF cur rest, Reach sort g openF closedF ∧ openF ≠ [] ∧
      sort openF = cur :: rest ∧
      (cur.xCoordinate = g.targetX ∧ cur.yCoordinate = g.targetY) ∧
      mainLoop sort g buf cap fuel openList closedList
        = reportPath g buf cap cur (closedF ++ [cur])) ∨
    (∃ openF closedF, Reach sort g openF closedF ∧ openF ≠ [] ∧
      (sort openF = [] ∨ ∃ cur rest, sort openF = cur :: rest ∧ g.getNeighbors cur = none)) ∨
    (∃ openF closedF, Reach sort g openF closedF ∧ openF ≠ [] ∧
      closedF.length = closedList.length + fuel ∧
      mainLoop sort g buf cap fuel openList closedList = Outcome.outOfFuel) := by
  intro fuel
  induction fuel with
  | zero =>
    intro openList closedList hr
    cases openList with
    | nil => exact Or.inl ⟨closedList, hr, mainLoop_nil _ _ _ _ _ _⟩
    | cons o os =>
      exact Or.inr (Or.inr (Or.inr ⟨o :: os, closedList, hr, by simp, by simp,
        mainLoop_zero _ _ _ _ _ _ (by simp)⟩))
  | succ fuel ih =>
    intro openList closedList hr
    cases openList with
    | nil => exact Or.inl ⟨closedList, hr, mainLoop_nil _ _ _ _ _ _⟩
    | cons o os =>
      have hne : o :: os ≠ [] := by simp
      rw [mainLoop_succ _ _ _ _ _ _ _ hne]
      cases hsort : sort (o :: os) with
      | nil => exact Or.inr (Or.inr (Or.inl ⟨o :: os, closedList, hr, hne, Or.inl hsort⟩))
      | cons cur rest =>
        simp only
        by_cases ht : cur.xCoordinate = g.targetX ∧ cur.yCoordinate = g.targetY
        · rw [if_pos ht]
          exact Or.inr (Or.inl ⟨o :: os, closedList, cur, rest, hr, hne, hsort, ht, rfl⟩)
        · rw [if_neg ht]
          cases hadj : g.getNeighbors cur with
          | none =>
            exact Or.inr (Or.inr (Or.inl ⟨o :: os, closedList, hr, hne,
              Or.inr ⟨cur, rest, hsort, hadj⟩⟩))
          | some adj =>
            simp only
            have hr2 := Reach.next hr hne hsort ht hadj
            rcases ih _ _ hr2 with h | h | h | ⟨openF, closedF, h1, h2, h3, h4⟩
            · exact Or.inl h
            · exact Or.inr (Or.inl h)
            · exact Or.inr (Or.inr (Or.inl h))
            · refine Or.inr (Or.inr (Or.inr ⟨openF, closedF, h1, h2, ?_, h4⟩))
              rw [h3, List.length_append, List.length_singleton]
              omega

theorem reach_not_stuck (sort : List gridSquare → List gridSquare) (hs : IsSort sort)
    (g : grid) (wf : g.WellFormed) (hstart : g.InBounds (g.startX, g.startY))
    {openF closedF : List gridSquare} (hr : Reach sort g openF closedF) (hne : openF ≠ []) :
    ¬ (sort openF = [] ∨ ∃ cur rest, sort openF = cur :: rest ∧ g.getNeighbors cur = none) := by
  obtain ⟨hinv, _⟩ := reach_inv sort hs g wf hstart hr
  rintro (h | ⟨cur, rest, h1, h2⟩)
  · have := (hs openF).1
    rw [h] at this
    exact hne (List.nil_perm.1 this)
  · have hperm : (cur :: rest).Perm openF := h1 ▸ (hs openF).1
    have hcur : cur ∈ openF := hperm.mem_iff.1 (List.mem_cons_self _ _)
    have hb : g.InBounds (coords cur) := hinv.inBounds cur (List.mem_append_right _ hcur)
    rw [getNeighbors_inBounds g wf cur hb] at h2
    exact absurd h2 (by simp)

/-- The two lists together never hold more squares than the grid has cells. -/
theorem inv_length_le (g : grid) {openList closedList : List gridSquare}
    (hinv : Inv g openList closedList) :
    (closedList ++ openList).length ≤ (g.width * g.height).toNat := by
  have hsub : ((closedList ++ openList).map coords).toFinset ⊆
      Finset.Ico (0 : Int) g.width ×ˢ Finset.Ico (0 : Int) g.height := by
    intro c hc
    rw [List.mem_toFinset] at hc
    obtain ⟨s, hs, rfl⟩ := List.mem_map.1 hc
    obtain ⟨h1, h2, h3, h4⟩ := hinv.inBounds s hs
    simp only [Finset.mem_product, Finset.mem_Ico]
    exact ⟨⟨h1, h2⟩, ⟨h3, h4⟩⟩
  have hcard := Finset.card_le_card hsub
  rw [List.toFinset_card_of_nodup hinv.nodup, List.length_map, Finset.card_product,
    Int.card_Ico, Int.card_Ico] at hcard
  simp only [sub_zero] at hcard
  by_cases hw : 0 ≤ g.width
  · by_cases hh : 0 ≤ g.height
    · obtain ⟨a, ha⟩ := Int.eq_ofNat_of_zero_le hw
      obtain ⟨b, hb⟩ := Int.eq_ofNat_of_zero_le hh
      rw [ha, hb] at hcard ⊢
      have hab : ((a : Int) * (b : Int)).toNat = a * b := by
        rw [← Nat.cast_mul]; exact Int.toNat_natCast _
      rw [hab]
      simpa using hcard
    · have : g.height.toNat = 0 := Int.toNat_eq_zero.2 (by omega)
      rw [this] at hcard
      omega
  · have : g.width.toNat = 0 := Int.toNat_eq_zero.2 (by omega)
    rw [this] at hcard
    omega

/-! ## The success branch -/

theorem reportPath_spec (g : grid) (buf : List Int) (cap : Int)
    {openF closedF rest : List gridSquare} {cur : gridSquare}
    (hinv : Inv g openF closedF) (hperm : (cur :: rest).Perm openF) :
    ∃ chain, RetraceChain g cur chain ∧ (chain.length : Int) = cur.gScore + 1 ∧
      reportPath g buf cap cur (closedF ++ [cur]) = emitPath g buf cap chain := by
  have hcur : cur ∈ openF := hperm.mem_iff.1 (List.mem_cons_self _ _)
  have hP : ((closedF ++ [cur]) ++ rest).Perm (closedF ++ openF) := by
    rw [List.append_assoc]
    exact List.Perm.append_left _ hperm
  have hnd : ((closedF ++ [cur]).map coords).Nodup := by
    have := (hP.map coords).nodup_iff.2 hinv.nodup
    rw [List.map_append] at this
    exact (List.nodup_append.1 this).1
  have hl : ∀ s ∈ closedF ++ [cur], Linked g (closedF ++ [cur]) s := by
    intro s hs
    have hs2 : s ∈ closedF ++ openF := by
      rcases List.mem_append.1 hs with h | h
      · exact List.mem_append_left _ h
      · rw [List.mem_singleton] at h
        subst h
        exact List.mem_append_right _ hcur
    exact (hinv.linked s hs2).mono (fun p hp => List.mem_append_left _ hp)
  have hg0 : 0 ≤ cur.gScore := (hinv.linked cur (List.mem_append_right _ hcur)).1
  have hgd := hinv.depthOpen cur hcur
  obtain ⟨chain, h1, h2, h3⟩ := retrace_spec g (closedF ++ [cur]) hnd hl cur.gScore.toNat cur
    (by simp) (by omega) (closedF ++ [cur]).length
    (by rw [List.length_append, List.length_singleton]; omega) []
  refine ⟨chain, h2, by rw [h3]; push_cast; omega, ?_⟩
  unfold reportPath
  rw [h1]
  rfl

theorem emitPath_emitted (g : grid) (buf : List Int) (cap : Int) {s : gridSquare}
    {chain : List gridSquare} (h : RetraceChain g s chain) :
    Emitted g.width buf cap ((chain.dropLast.reverse).map coords)
      (emitPath g buf cap chain) := by
  cases chain with
  | nil => exact absurd rfl h.ne_nil
  | cons c chain =>
    have hmap : List.map (fun c : Int × Int => c.2 * g.width + c.1)
        (List.map coords (c :: chain).dropLast.reverse)
        = List.map (fun s => g.getLocationFromGrid s.xCoordinate s.yCoordinate)
          (c :: chain).dropLast.reverse := by
      rw [List.map_map]
      rfl
    have hlen : (List.map coords (c :: chain).dropLast.reverse).length
        = (List.map (fun s => g.getLocationFromGrid s.xCoordinate s.yCoordinate)
          (c :: chain).dropLast.reverse).length := by
      simp
    unfold Emitted
    rw [hmap, hlen]
    exact emitPath_cases g buf cap c chain

/-- What the search on a well-formed grid with the start on the grid comes to:
-1 with the open list exhausted, or the target taken from the open list at some loop head and
a valid path to it handed to the capacity test, or too little fuel. -/
theorem search_outcome (sort : List gridSquare → List gridSquare) (hs : IsSort sort)
    (g : grid) (wf : g.WellFormed) (hstart : g.InBounds (g.startX, g.startY))
    (fuel : Nat) (buf : List Int) (cap : Int) :
    (mainLoop sort g buf cap fuel [g.startingLocation] [] = Outcome.returned (-1) buf ∧
      ∃ closedF, Reach sort g [] closedF) ∨
    (∃ (cells : List (Int × Int)) (openF closedF rest : List gridSquare) (cur : gridSquare),
      Reach sort g openF closedF ∧ sort openF = cur :: rest ∧
      coords cur = (g.targetX, g.targetY) ∧ (cells.length : Int) = cur.gScore ∧
      g.ValidPath cells ∧ (g.startX, g.startY) ∉ cells ∧
      Emitted g.width buf cap cells (mainLoop sort g buf cap fuel [g.startingLocation] [])) ∨
    (mainLoop sort g buf cap fuel [g.startingLocation] [] = Outcome.outOfFuel ∧
      fuel < (g.width * g.height).toNat) := by
  rcases mainLoop_cases sort g buf cap fuel _ _ (Reach.init) with
    ⟨closedF, h1, h2⟩ | ⟨openF, closedF, cur, rest, h1, h2, h3, h4, h5⟩ |
    ⟨openF, closedF, h1, h2, h3⟩ | ⟨openF, closedF, h1, h2, h3, h4⟩
  · exact Or.inl ⟨h2, closedF, h1⟩
  · right; left
    obtain ⟨hinv, _⟩ := reach_inv sort hs g wf hstart h1
    have hperm : (cur :: rest).Perm openF := h3 ▸ (hs openF).1
    obtain ⟨chain, hc1, hc2, hc3⟩ := reportPath_spec g buf cap hinv hperm
    have hct : coords cur = (g.targetX, g.targetY) := Prod.ext h4.1 h4.2
    refine ⟨(chain.dropLast.reverse).map coords, openF, closedF, rest, cur, h1, h3, hct, ?_,
      ?_, chain_no_start g hc1, ?_⟩
    · rw [List.length_map, List.length_reverse, List.length_dropLast]
      have : 1 ≤ chain.length := by
        have := hc1.ne_nil
        cases chain with
        | nil => exact absurd rfl this
        | cons _ _ => simp
      rw [Nat.cast_sub this]
      push_cast
      omega
    · have := chain_path g hc1 [] hct
      simpa [grid.ValidPath] using this
    · rw [h5, hc3]
      exact emitPath_emitted g buf cap hc1
  · exact absurd h3 (reach_not_stuck sort hs g wf hstart h1 h2)
  · right; right
    refine ⟨h4, ?_⟩
    obtain ⟨hinv, _⟩ := reach_inv sort hs g wf hstart h1
    have hlen := inv_length_le g hinv
    rw [List.length_append] at hlen
    have : 1 ≤ openF.length := by
      cases openF with
      | nil => exact absurd rfl h2
      | cons _ _ => simp
    simp only [List.length_nil, Nat.zero_add] at h3
    omega

/-! ## Paths -/

/-- The last move of a path to a target other than its origin enters the target, which is
therefore open, from the origin or from a cell that is open. -/
theorem PathFrom.last_step (g : grid) : ∀ (path : List (Int × Int)) (c : Int × Int),
    g.PathFrom c path → c ≠ (g.targetX, g.targetY) →
    g.openCell (g.targetX, g.targetY) ∧
      (adjacent4 c (g.targetX, g.targetY) ∨
        ∃ d, g.openCell d ∧ adjacent4 d (g.targetX, g.targetY))
  | [], c, h, hne => absurd h hne
  | d :: rest, c, h, _ => by
    obtain ⟨⟨hadj, hopen⟩, hrest⟩ := h
    by_cases hd : d = (g.targetX, g.targetY)
    · subst hd
      exact ⟨hopen, Or.inl hadj⟩
    · obtain ⟨h1, h2 | h2⟩ := PathFrom.last_step g rest d hrest hd
      · exact ⟨h1, Or.inr ⟨d, hopen, h2⟩⟩
      · exact ⟨h1, Or.inr h2⟩

theorem adjacent4_symm {a b : Int × Int} (h : adjacent4 a b) : adjacent4 b a := by
  unfold adjacent4 at h ⊢
  omega

/-- No path exists when the target is blocked, or when no neighbour of the target can be
entered and the start is not next to the target. -/
theorem no_path_of_enclosed (g : grid) (hne : (g.startX, g.startY) ≠ (g.targetX, g.targetY))
    (h : ¬ g.openCell (g.targetX, g.targetY) ∨
      (¬ adjacent4 (g.startX, g.startY) (g.targetX, g.targetY) ∧
        g.stepCells (g.targetX, g.targetY) = [])) :
    ∀ path, ¬ g.ValidPath path := by
  intro path hp
  obtain ⟨h1, h2⟩ := PathFrom.last_step g path _ hp hne
  rcases h with h | ⟨h3, h4⟩
  · exact h h1
  · rcases h2 with h2 | ⟨d, hd1, hd2⟩
    · exact h3 h2
    · have : d ∈ g.stepCells (g.targetX, g.targetY) :=
        (mem_stepCells g _ d).2 ⟨adjacent4_symm hd2, hd1⟩
      rw [h4] at this
      exact absurd this (List.not_mem_nil _)

theorem toSizeT_of_nonneg (c : Int) (h0 : 0 ≤ c) (h1 : c < 2 ^ 64) : (toSizeT c : Int) = c := by
  unfold toSizeT
  rw [Int.emod_eq_of_lt h0 h1]
  exact Int.toNat_of_nonneg h0

/-- Claim C10, amended. On the 3x3 grid with map bytes 0,0,1,0,1,1,1,0,1, start (2,0), target
(0,2) and capacity 7, `FindPath` returns -1 and leaves the buffer as it was, whatever the
order among equal `fScore`s: the cells (0,1) and (1,2), the only neighbours of the target on
the grid, have map byte 0 (indices 3 and 7), so no path reaches the target. -/
theorem C10_sample_no_path (sort : List gridSquare → List gridSquare) (hs : IsSort sort)
    (fuel : Nat) (hfuel : 9 ≤ fuel) (buf : List Int) :
    FindPath sort fuel 2 0 0 2 [0, 0, 1, 0, 1, 1, 1, 0, 1] 3 3 buf 7
      = Outcome.returned (-1) buf := by
  have wf : (grid.mk 3 3 [0, 0, 1, 0, 1, 1, 1, 0, 1] 0 2 2 0).WellFormed := by decide
  have hstart : (grid.mk 3 3 [0, 0, 1, 0, 1, 1, 1, 0, 1] 0 2 2 0).InBounds (2, 0) := by decide
  have hnone := no_path_of_enclosed (grid.mk 3 3 [0, 0, 1, 0, 1, 1, 1, 0, 1] 0 2 2 0)
    (by decide) (Or.inr ⟨by decide, by decide⟩)
  rcases search_outcome sort hs _ wf hstart fuel buf 7 with
    ⟨h1, _⟩ | ⟨cells, _, _, _, _, _, _, _, _, hv, _, _⟩ | ⟨_, h1⟩
  · exact h1
  · exact absurd hv (hnone cells)
  · have h9 : ((3 : Int) * 3).toNat = 9 := by decide
    simp only [h9] at h1
    omega

theorem C10_sample_no_path_witness :
    IsSort stableSort ∧ 9 ≤ 9 ∧
      FindPath stableSort 9 2 0 0 2 [0, 0, 1, 0, 1, 1, 1, 0, 1] 3 3 [0, 0, 0, 0, 0, 0, 0] 7
        = Outcome.returned (-1) [0, 0, 0, 0, 0, 0, 0] :=
  ⟨stableSort_isSort, le_refl 9,
    C10_sample_no_path stableSort stableSort_isSort 9 (le_refl 9) [0, 0, 0, 0, 0, 0, 0]⟩

/-! ## The open grid -/

theorem openCell_of_all_one (g : grid) (wf : g.WellFormed) (hall : ∀ v ∈ g.pMap, v = 1)
    (c : Int × Int) (hc : g.InBounds c) : g.openCell c := by
  obtain ⟨h0, h1⟩ := index_lt g wf c hc
  have hlt : (c.2 * g.width + c.1).toNat < g.pMap.length := by
    have := wf.2.2
    omega
  refine ⟨hc, ?_⟩
  rw [List.get?_eq_get hlt]
  exact congrArg some (hall _ (List.get_mem _ _ _))

/-- A cell on the grid other than the target has a neighbour on the grid that is one nearer
to the target. -/
theorem exists_nearer (g : grid) (ht : g.InBounds (g.targetX, g.targetY)) (c : Int × Int)
    (hc : g.InBounds c) (hne : c ≠ (g.targetX, g.targetY)) :
    ∃ d, adjacent4 c d ∧ g.InBounds d ∧
      g.getManhattan d.1 d.2 = g.getManhattan c.1 c.2 - 1 := by
  obtain ⟨cx, cy⟩ := c
  obtain ⟨t1, t2, t3, t4⟩ := ht
  obtain ⟨c1, c2, c3, c4⟩ := hc
  simp only at t1 t2 t3 t4 c1 c2 c3 c4
  have hne2 : cx ≠ g.targetX ∨ cy ≠ g.targetY := by
    by_contra hcon
    push_neg at hcon
    exact hne (Prod.ext hcon.1 hcon.2)
  unfold grid.getManhattan adjacent4 grid.InBounds
  by_cases hx1 : cx < g.targetX
  · exact ⟨(cx + 1, cy), by dsimp only; omega, by dsimp only; omega, by dsimp only; omega⟩
  · by_cases hx2 : g.targetX < cx
    · exact ⟨(cx - 1, cy), by dsimp only; omega, by dsimp only; omega, by dsimp only; omega⟩
    · by_cases hy1 : cy < g.targetY
      · exact ⟨(cx, cy + 1), by dsimp only; omega, by dsimp only; omega, by dsimp only; omega⟩
      · exact ⟨(cx, cy - 1), by dsimp only; omega, by dsimp only; omega, by dsimp only; omega⟩

theorem manhattan_adjacent (g : grid) (a b : Int × Int) (h : adjacent4 a b) :
    g.getManhattan a.1 a.2 = g.getManhattan b.1 b.2 + 1 ∨
      g.getManhattan b.1 b.2 = g.getManhattan a.1 a.2 + 1 := by
  unfold grid.getManhattan
  unfold adjacent4 at h
  omega

theorem manhattan_eq_zero (g : grid) (c : Int × Int) (h : g.getManhattan c.1 c.2 = 0) :
    c = (g.targetX, g.targetY) := by
  unfold grid.getManhattan at h
  exact Prod.ext (by simp only; omega) (by simp only; omega)

/-- On a grid without blockers, while every closed square has the `fScore` of the start, every
open square has at least that `fScore`. -/
theorem open_f_ge (g : grid) {openList closedList : List gridSquare}
    (hinv : Inv g openList closedList)
    (hf : ∀ s ∈ closedList, s.fScore = g.getManhattan g.startX g.startY) :
    ∀ o ∈ openList, g.getManhattan g.startX g.startY ≤ o.fScore := by
  intro o ho
  have hmem : o ∈ closedList ++ openList := List.mem_append_right _ ho
  obtain ⟨hh, hfo⟩ := hinv.scores o hmem
  obtain ⟨_, ⟨hc, hg⟩ | ⟨_, _, p, hp, _, _, hgp, hadj⟩⟩ := hinv.linked o hmem
  · have hx : o.xCoordinate = g.startX := congrArg Prod.fst hc
    have hy : o.yCoordinate = g.startY := congrArg Prod.snd hc
    rw [hfo, hh, hg, hx, hy]
    omega
  · obtain ⟨hhp, hfp⟩ := hinv.scores p (List.mem_append_left _ hp)
    have hpf := hf p hp
    have := manhattan_adjacent g (coords p) (coords o) hadj
    simp only [coords] at this
    omega

/-- On a grid without blockers, while every closed square has the `fScore` of the start and
the target is not closed, some open square has that `fScore` too. -/
theorem open_has_f (g : grid) (wf : g.WellFormed) (hall : ∀ v ∈ g.pMap, v = 1)
    (ht : g.InBounds (g.targetX, g.targetY))
    {openList closedList : List gridSquare}
    (hinv : Inv g openList closedList) (hcomp : Complete g openList closedList)
    (hf : ∀ s ∈ closedList, s.fScore = g.getManhattan g.startX g.startY) :
    ∃ o ∈ openList, o.fScore = g.getManhattan g.startX g.startY := by
  -- from a closed square at distance `k` from the target
  have key : ∀ (k : Nat) (m : gridSquare), m ∈ closedList → m.hScore = (k : Int) →
      ∃ o ∈ openList, o.fScore = g.getManhattan g.startX g.startY := by
    intro k
    induction k using Nat.strong_induction_on with
    | _ k ih =>
      intro m hm hk
      have hmm : m ∈ closedList ++ openList := List.mem_append_left _ hm
      obtain ⟨hmh, _⟩ := hinv.scores m hmm
      obtain ⟨d, hd1, hd2, hd3⟩ := exists_nearer g ht (coords m) (hinv.inBounds m hmm)
        (hinv.notTarget m hm)
      have hstep : g.step (coords m) d := ⟨hd1, openCell_of_all_one g wf hall d hd2⟩
      obtain ⟨s, hs, hsd⟩ := List.mem_map.1 (hcomp m hm d hstep)
      obtain ⟨hsh, hsf⟩ := hinv.scores s hs
      have hsk : s.hScore = (k : Int) - 1 := by
        have e1 : s.xCoordinate = d.1 := congrArg Prod.fst hsd
        have e2 : s.yCoordinate = d.2 := congrArg Prod.snd hsd
        rw [hsh, e1, e2, hd3]
        simp only [coords]
        omega
      have hk1 : 1 ≤ k := by
        have : 0 ≤ s.hScore := by rw [hsh]; unfold grid.getManhattan; omega
        omega
      rcases List.mem_append.1 hs with hsc | hso
      · exact ih (k - 1) (by omega) s hsc (by omega)
      · obtain ⟨_, ⟨hc, hg⟩ | ⟨_, _, p, hp, _, _, hgp, hadj⟩⟩ := hinv.linked s hs
        · refine ⟨s, hso, ?_⟩
          have hx : s.xCoordinate = g.startX := congrArg Prod.fst hc
          have hy : s.yCoordinate = g.startY := congrArg Prod.snd hc
          rw [hsf, hsh, hg, hx, hy]
          omega
        · obtain ⟨hph, hpf⟩ := hinv.scores p (List.mem_append_left _ hp)
          have hpF := hf p hp
          have hma := manhattan_adjacent g (coords p) (coords s) hadj
          simp only [coords] at hma
          rcases hma with hma | hma
          · exact ⟨s, hso, by omega⟩
          · have hp0 : 0 ≤ p.hScore := by rw [hph]; unfold grid.getManhattan; omega
            exact ih (k - 2) (by omega) p hp (by omega)
  cases closedList with
  | nil =>
    obtain ⟨s, hs, hsc⟩ := List.mem_map.1 hinv.hasStart
    rw [List.nil_append] at hs
    obtain ⟨hh, hfo⟩ := hinv.scores s (by simpa using hs)
    refine ⟨s, hs, ?_⟩
    obtain ⟨_, ⟨_, hg⟩ | ⟨hc, _⟩⟩ := hinv.linked s (by simpa using hs)
    · have hx : s.xCoordinate = g.startX := congrArg Prod.fst hsc
      have hy : s.yCoordinate = g.startY := congrArg Prod.snd hsc
      rw [hfo, hh, hg, hx, hy]
      omega
    · exact absurd hsc hc
  | cons m rest =>
    have hm : m ∈ m :: rest := List.mem_cons_self _ _
    obtain ⟨hmh, _⟩ := hinv.scores m (List.mem_append_left _ hm)
    have hm0 : 0 ≤ m.hScore := by rw [hmh]; unfold grid.getManhattan; omega
    exact key m.hScore.toNat m hm (by omega)

/-- On a grid without blockers the square taken from the open list always has the `fScore` of
the start. -/
theorem head_f (sort : List gridSquare → List gridSquare) (hs : IsSort sort) (g : grid)
    (wf : g.WellFormed) (hall : ∀ v ∈ g.pMap, v = 1)
    (ht : g.InBounds (g.targetX, g.targetY))
    {openList closedList rest : List gridSquare} {cur : gridSquare}
    (hinv : Inv g openList closedList) (hcomp : Complete g openList closedList)
    (hf : ∀ s ∈ closedList, s.fScore = g.getManhattan g.startX g.startY)
    (hsort : sort openList = cur :: rest) :
    cur.fScore = g.getManhattan g.startX g.startY := by
  have hperm : (cur :: rest).Perm openList := hsort ▸ (hs openList).1
  have hsorted : (cur :: rest).Pairwise (fun a b => a.fScore ≤ b.fScore) :=
    hsort ▸ (hs openList).2
  have hcur : cur ∈ openList := hperm.mem_iff.1 (List.mem_cons_self _ _)
  have hge := open_f_ge g hinv hf cur hcur
  obtain ⟨o, ho, hof⟩ := open_has_f g wf hall ht hinv hcomp hf
  have hle : cur.fScore ≤ o.fScore := by
    rcases List.mem_cons.1 (hperm.mem_iff.2 ho) with rfl | hor
    · exact le_refl _
    · exact (List.pairwise_cons.1 hsorted).1 o hor
  omega

theorem reach_closed_f (sort : List gridSquare → List gridSquare) (hs : IsSort sort)
    (g : grid) (wf : g.WellFormed) (hall : ∀ v ∈ g.pMap, v = 1)
    (hstart : g.InBounds (g.startX, g.startY)) (ht : g.InBounds (g.targetX, g.targetY))
    {openList closedList : List gridSquare} (h : Reach sort g openList closedList) :
    ∀ s ∈ closedList, s.fScore = g.getManhattan g.startX g.startY := by
  induction h with
  | init => intro s hs'; exact absurd hs' (List.not_mem_nil _)
  | @next openList closedList rest adj cur hr _ hsort _ _ ih =>
    obtain ⟨hinv, hcomp⟩ := reach_inv sort hs g wf hstart hr
    intro s hs'
    rcases List.mem_append.1 hs' with h1 | h1
    · exact ih s h1
    · rw [List.mem_singleton] at h1
      subst h1
      exact head_f sort hs g wf hall ht hinv hcomp ih hsort

/-- With the products taken exactly: on a grid of width and height at least 1 whose map bytes are all 1, with start and
target on the grid, a capacity (an `int`, so below `2 ^ 64`) of at least
`|startX - targetX| + |startY - targetY|`, a buffer that holds that many entries and at least
`width * height` iterations of fuel, `FindPath` returns exactly
`|startX - targetX| + |startY - targetY|`, for every sort that meets the contract of
`std::sort`, that is, whatever order it leaves equal `fScore`s in. -/
theorem open_grid_manhattan (sort : List gridSquare → List gridSquare) (hs : IsSort sort)
    (fuel : Nat) (sx sy tx ty : Int) (pMap : List Nat) (w h : Int) (buf : List Int)
    (cap : Int) (hw : 1 ≤ w) (hh : 1 ≤ h) (hmap : (pMap.length : Int) = w * h)
    (hall : ∀ v ∈ pMap, v = 1)
    (hsx : 0 ≤ sx ∧ sx < w) (hsy : 0 ≤ sy ∧ sy < h)
    (htx : 0 ≤ tx ∧ tx < w) (hty : 0 ≤ ty ∧ ty < h)
    (hfuel : (w * h).toNat ≤ fuel)
    (hcap : (((sx - tx).natAbs + (sy - ty).natAbs : Nat) : Int) ≤ cap) (hc1 : cap < 2 ^ 64)
    (hbuf : (sx - tx).natAbs + (sy - ty).natAbs ≤ buf.length) :
    ∃ out, FindPath sort fuel sx sy tx ty pMap w h buf cap
      = Outcome.returned (((sx - tx).natAbs + (sy - ty).natAbs : Nat) : Int) out := by
  have wf : (grid.mk h w pMap tx ty sx sy).WellFormed := ⟨hw, hh, hmap⟩
  have hstart : (grid.mk h w pMap tx ty sx sy).InBounds (sx, sy) :=
    ⟨hsx.1, hsx.2, hsy.1, hsy.2⟩
  have ht : (grid.mk h w pMap tx ty sx sy).InBounds (tx, ty) :=
    ⟨htx.1, htx.2, hty.1, hty.2⟩
  have hsz := toSizeT_of_nonneg cap (by omega) hc1
  rcases search_outcome sort hs _ wf hstart fuel buf cap with
    ⟨_, closedF, hr⟩ | ⟨cells, openF, closedF, rest, cur, hr, hsort, hct, hlen, _, _, hem⟩ |
    ⟨_, h1⟩
  · exfalso
    obtain ⟨hinv, hcomp⟩ := reach_inv sort hs _ wf hstart hr
    obtain ⟨o, ho, _⟩ := open_has_f _ wf hall ht hinv hcomp
      (reach_closed_f sort hs _ wf hall hstart ht hr)
    exact absurd ho (List.not_mem_nil _)
  · obtain ⟨hinv, hcomp⟩ := reach_inv sort hs _ wf hstart hr
    have hcf := head_f sort hs _ wf hall ht hinv hcomp
      (reach_closed_f sort hs _ wf hall hstart ht hr) hsort
    have hperm : (cur :: rest).Perm openF := hsort ▸ (hs openF).1
    have hcur : cur ∈ openF := hperm.mem_iff.1 (List.mem_cons_self _ _)
    obtain ⟨hh', hff⟩ := hinv.scores cur (List.mem_append_right _ hcur)
    have hx : cur.xCoordinate = tx := congrArg Prod.fst hct
    have hy : cur.yCoordinate = ty := congrArg Prod.snd hct
    have hcells : (cells.length : Int) = (((sx - tx).natAbs + (sy - ty).natAbs : Nat) : Int) := by
      rw [hlen]
      rw [hff, hh', hx, hy] at hcf
      simp only [grid.getManhattan] at hcf
      rw [Nat.cast_add]
      omega
    have hcells2 : cells.length = (sx - tx).natAbs + (sy - ty).natAbs := by exact_mod_cast hcells
    rcases hem with ⟨_, h2⟩ | ⟨_, _, h2⟩ | ⟨o, h1, _⟩
    · omega
    · omega
    · exact ⟨o, by rw [← hcells2]; exact h1⟩
  · simp only at h1; omega

/-! ## Breadth-first distance -/

/-- A path that ends at `c`, followed by a move from `c` to `d`, is a path that ends at `d`
(the end of a path is the target field of the grid, so the grid is rebuilt with that end). -/
theorem PathFrom.snoc (g : grid) (c d : Int × Int) : ∀ (path : List (Int × Int)) (a : Int × Int),
    (grid.mk g.height g.width g.pMap c.1 c.2 g.startX g.startY).PathFrom a path →
    g.step c d →
    (grid.mk g.height g.width g.pMap d.1 d.2 g.startX g.startY).PathFrom a (path ++ [d])
  | [], a, h, hstep => by
    have ha : a = c := h
    subst ha
    exact ⟨hstep, rfl⟩
  | e :: rest, a, h, hstep => by
    obtain ⟨h1, h2⟩ := h
    exact ⟨h1, PathFrom.snoc g c d rest e h2 hstep⟩

theorem PathFrom.unsnoc (g : grid) (d : Int × Int) : ∀ (path : List (Int × Int)) (a : Int × Int),
    (grid.mk g.height g.width g.pMap d.1 d.2 g.startX g.startY).PathFrom a (path ++ [d]) →
    ∃ c, (grid.mk g.height g.width g.pMap c.1 c.2 g.startX g.startY).PathFrom a path ∧
      g.step c d
  | [], a, h => by
    obtain ⟨h1, _⟩ := h
    exact ⟨a, rfl, h1⟩
  | e :: rest, a, h => by
    obtain ⟨h1, h2⟩ := h
    obtain ⟨c, h3, h4⟩ := PathFrom.unsnoc g d rest e h2
    exact ⟨c, ⟨h1, h3⟩, h4⟩

theorem PathFrom.getLast (g : grid) : ∀ (path : List (Int × Int)) (a : Int × Int),
    g.PathFrom a path → ∀ e, path.getLast? = some e → e = (g.targetX, g.targetY)
  | [], _, _, e, he => by simp at he
  | [d], a, h, e, he => by
    obtain ⟨_, h2⟩ := h
    have hd : d = (g.targetX, g.targetY) := h2
    simp only [List.getLast?_singleton, Option.some.injEq] at he
    rw [← he, hd]
  | d :: d2 :: rest, a, h, e, he => by
    obtain ⟨_, h2⟩ := h
    rw [List.getLast?_cons_cons] at he
    exact PathFrom.getLast g (d2 :: rest) d h2 e he

/-- The cells of layer `k` are the ends of the paths of `k` moves from the start. -/
theorem mem_bfsLayer (g : grid) : ∀ (k : Nat) (c : Int × Int),
    c ∈ g.bfsLayer k ↔
      ∃ path : List (Int × Int), path.length = k ∧
        (grid.mk g.height g.width g.pMap c.1 c.2 g.startX g.startY).PathFrom
          (g.startX, g.startY) path
  | 0, c => by
    simp only [grid.bfsLayer, List.mem_singleton]
    constructor
    · intro h
      exact ⟨[], rfl, h.symm⟩
    · rintro ⟨path, hl, hp⟩
      rw [List.length_eq_zero] at hl
      subst hl
      exact Eq.symm hp
  | k + 1, d => by
    simp only [grid.bfsLayer, List.mem_dedup, List.mem_flatMap]
    constructor
    · rintro ⟨c, hc, hd⟩
      obtain ⟨path, hl, hp⟩ := (mem_bfsLayer g k c).1 hc
      exact ⟨path ++ [d], by simp [hl],
        PathFrom.snoc g c d path _ hp ((mem_stepCells g c d).1 hd)⟩
    · rintro ⟨path, hl, hp⟩
      rcases List.eq_nil_or_concat path with rfl | ⟨init, e, rfl⟩
      · simp at hl
      · rw [List.concat_eq_append] at hl hp
        have he : e = d := by
          have := PathFrom.getLast _ (init ++ [e]) _ hp e (by simp)
          exact this
        subst he
        obtain ⟨c, hc1, hc2⟩ := PathFrom.unsnoc g e init _ hp
        refine ⟨c, (mem_bfsLayer g k c).2 ⟨init, ?_, hc1⟩, (mem_stepCells g c e).2 hc2⟩
        simpa using hl

/-- When `bfsDist` finds a distance `d`, some valid path has `d` moves and none has fewer. -/
theorem bfsDist_spec (g : grid) (d : Nat) (h : g.bfsDist = some d) :
    (∃ path, g.ValidPath path ∧ path.length = d) ∧
      ∀ path, g.ValidPath path → d ≤ path.length := by
  unfold grid.bfsDist at h
  have hfound := List.find?_some h
  simp only [decide_eq_true_eq] at hfound
  have hd : d < (g.width * g.height).toNat := List.mem_range.1 (List.mem_of_find?_eq_some h)
  constructor
  · obtain ⟨path, hl, hp⟩ := (mem_bfsLayer g d _).1 hfound
    exact ⟨path, hp, hl⟩
  · intro path hp
    by_contra hlt
    push_neg at hlt
    have hmem : (g.targetX, g.targetY) ∈ g.bfsLayer path.length :=
      (mem_bfsLayer g path.length _).2 ⟨path, rfl, hp⟩
    -- an earlier layer with the target contradicts the choice made by `find?`
    obtain ⟨_, front, back, hsplit, hnot⟩ := List.find?_eq_some.1 h
    have hpw := List.pairwise_lt_range (g.width * g.height).toNat
    have hjr : path.length ∈ List.range (g.width * g.height).toNat :=
      List.mem_range.2 (by omega)
    rw [hsplit] at hpw hjr
    rcases List.mem_append.1 hjr with h1 | h1
    · have := hnot _ h1
      simp only [Bool.not_eq_true', decide_eq_false_iff_not] at this
      exact this hmem
    · rcases List.mem_cons.1 h1 with h2 | h2
      · omega
      · have h3 := (List.pairwise_append.1 hpw).2.1
        have h4 := (List.pairwise_cons.1 h3).1 _ h2
        omega

/-! ## The states of the loop, one by one -/

theorem loopStep_eq_some (sort : List gridSquare → List gridSquare) (g : grid)
    {openList closedList o' c' : List gridSquare}
    (h : loopStep sort g openList closedList = some (o', c')) :
    ∃ cur rest adj, openList ≠ [] ∧ sort openList = cur :: rest ∧
      ¬ (cur.xCoordinate = g.targetX ∧ cur.yCoordinate = g.targetY) ∧
      g.getNeighbors cur = some adj ∧
      o' = processNeighbors cur (closedList ++ [cur]) adj rest ∧ c' = closedList ++ [cur] := by
  unfold loopStep at h
  cases openList with
  | nil => simp at h
  | cons o os =>
    simp only at h
    cases hsort : sort (o :: os) with
    | nil => rw [hsort] at h; simp at h
    | cons cur rest =>
      rw [hsort] at h
      simp only at h
      by_cases ht : cur.xCoordinate = g.targetX ∧ cur.yCoordinate = g.targetY
      · rw [if_pos ht] at h; simp at h
      · rw [if_neg ht] at h
        cases hadj : g.getNeighbors cur with
        | none => rw [hadj] at h; simp at h
        | some adj =>
          rw [hadj] at h
          simp only [Option.some.injEq, Prod.mk.injEq] at h
          exact ⟨cur, rest, adj, by simp, rfl, ht, hadj, h.1.symm, h.2.symm⟩

theorem loopStep_of (sort : List gridSquare → List gridSquare) (g : grid)
    {openList closedList rest adj : List gridSquare} {cur : gridSquare}
    (hne : openList ≠ []) (hsort : sort openList = cur :: rest)
    (ht : ¬ (cur.xCoordinate = g.targetX ∧ cur.yCoordinate = g.targetY))
    (hadj : g.getNeighbors cur = some adj) :
    loopStep sort g openList closedList =
      some (processNeighbors cur (closedList ++ [cur]) adj rest, closedList ++ [cur]) := by
  unfold loopStep
  cases openList with
  | nil => exact absurd rfl hne
  | cons o os =>
    simp only
    rw [hsort]
    simp only [if_neg ht, hadj]

theorem loopState_reach (sort : List gridSquare → List gridSquare) (g : grid) :
    ∀ (k : Nat) (o c : List gridSquare), loopState sort g k = some (o, c) → Reach sort g o c := by
  intro k
  induction k with
  | zero =>
    intro o c h
    simp only [loopState, Option.some.injEq, Prod.mk.injEq] at h
    rw [← h.1, ← h.2]
    exact Reach.init
  | succ k ih =>
    intro o c h
    simp only [loopState] at h
    cases hk : loopState sort g k with
    | none => rw [hk] at h; simp at h
    | some s =>
      rw [hk] at h
      simp only at h
      obtain ⟨cur, rest, adj, h1, h2, h3, h4, h5, h6⟩ := loopStep_eq_some sort g h
      rw [h5, h6]
      exact Reach.next (ih s.1 s.2 (by rw [hk])) h1 h2 h3 h4

theorem reach_loopState (sort : List gridSquare → List gridSquare) (g : grid)
    {o c : List gridSquare} (h : Reach sort g o c) :
    loopState sort g c.length = some (o, c) := by
  induction h with
  | init => rfl
  | @next openList closedList rest adj cur _ hne hsort ht hadj ih =>
    rw [List.length_append, List.length_singleton]
    simp only [loopState, ih]
    exact loopStep_of sort g hne hsort ht hadj

/-- Running the loop from its start with `k` more iterations of fuel than from the state at
the head of iteration `k` gives the same outcome. -/
theorem mainLoop_loopState (sort : List gridSquare → List gridSquare) (g : grid)
    (buf : List Int) (cap : Int) (fuel : Nat) :
    ∀ (k : Nat) (o c : List gridSquare), loopState sort g k = some (o, c) →
    mainLoop sort g buf cap (k + fuel) [g.startingLocation] []
      = mainLoop sort g buf cap fuel o c := by
  intro k
  induction k generalizing fuel with
  | zero =>
    intro o c h
    simp only [loopState, Option.some.injEq, Prod.mk.injEq] at h
    rw [← h.1, ← h.2, Nat.zero_add]
  | succ k ih =>
    intro o c h
    simp only [loopState] at h
    cases hk : loopState sort g k with
    | none => rw [hk] at h; simp at h
    | some s =>
      rw [hk] at h
      simp only at h
      obtain ⟨cur, rest, adj, h1, h2, h3, h4, h5, h6⟩ := loopStep_eq_some sort g h
      have := ih (fuel + 1) s.1 s.2 (by rw [hk])
      rw [show k + 1 + fuel = k + (fuel + 1) by omega, this,
        mainLoop_succ _ _ _ _ _ _ _ h1, h2]
      simp only [if_neg h3, h4, h5, h6]

/-! ## Runs without ties -/

theorem map_injOn_eq {α β : Type} (f : α → β) : ∀ (l1 l2 : List α),
    l1.map f = l2.map f → (∀ a ∈ l1, ∀ b ∈ l2, f a = f b → a = b) → l1 = l2
  | [], [], _, _ => rfl
  | [], _ :: _, h, _ => by simp at h
  | _ :: _, [], h, _ => by simp at h
  | a :: l1, b :: l2, h, hinj => by
    simp only [List.map_cons, List.cons.injEq] at h
    have hab : a = b := hinj a (List.mem_cons_self _ _) b (List.mem_cons_self _ _) h.1
    have := map_injOn_eq f l1 l2 h.2
      (fun x hx y hy => hinj x (List.mem_cons_of_mem _ hx) y (List.mem_cons_of_mem _ hy))
    rw [hab, this]

/-- When no two squares of a list share an `fScore`, every sort that meets the contract of
`std::sort` orders it the same way. -/
theorem sort_unique (s1 s2 : List gridSquare → List gridSquare) (h1 : IsSort s1)
    (h2 : IsSort s2) (l : List gridSquare) (hnd : (l.map gridSquare.fScore).Nodup) :
    s1 l = s2 l := by
  obtain ⟨p1, o1⟩ := h1 l
  obtain ⟨p2, o2⟩ := h2 l
  have hperm : ((s1 l).map gridSquare.fScore).Perm ((s2 l).map gridSquare.fScore) :=
    (p1.map _).trans (p2.map _).symm
  have hs1 : ((s1 l).map gridSquare.fScore).Sorted (· ≤ ·) := by
    rw [List.Sorted, List.pairwise_map]; exact o1
  have hs2 : ((s2 l).map gridSquare.fScore).Sorted (· ≤ ·) := by
    rw [List.Sorted, List.pairwise_map]; exact o2
  have hmap := List.eq_of_perm_of_sorted hperm hs1 hs2
  apply map_injOn_eq gridSquare.fScore _ _ hmap
  intro a ha b hb hab
  exact List.inj_on_of_nodup_map hnd (p1.mem_iff.1 ha) (p2.mem_iff.1 hb) hab

theorem loopStep_congr (s1 s2 : List gridSquare → List gridSquare) (g : grid)
    (o c : List gridSquare) (h : s1 o = s2 o) : loopStep s1 g o c = loopStep s2 g o c := by
  unfold loopStep
  cases o with
  | nil => rfl
  | cons a l => simp only [h]

/-- While the open lists of the run with `stableSort` hold no two squares of equal `fScore`,
the run is the same with every sort that meets the contract of `std::sort`. -/
theorem loopState_eq_stable (sort : List gridSquare → List gridSquare) (hs : IsSort sort)
    (g : grid) : ∀ k : Nat,
    (∀ j, j < k → (loopState stableSort g j).all
      (fun s => decide ((s.1.map gridSquare.fScore).Nodup)) = true) →
    loopState sort g k = loopState stableSort g k := by
  intro k
  induction k with
  | zero => intro _; rfl
  | succ k ih =>
    intro h
    have hk := ih (fun j hj => h j (by omega))
    simp only [loopState, hk]
    cases hst : loopState stableSort g k with
    | none => rfl
    | some s =>
      simp only
      have := h k (by omega)
      rw [hst] at this
      simp only [Option.all_some, decide_eq_true_eq] at this
      exact loopStep_congr sort stableSort g s.1 s.2
        (sort_unique sort stableSort hs stableSort_isSort s.1 this)

theorem eq_append_drop (o buf idx : List Int) (h1 : o.take idx.length = idx)
    (h2 : ∀ j : Nat, idx.length ≤ j → o[j]? = buf[j]?) : o = idx ++ buf.drop idx.length := by
  have hd : o.drop idx.length = buf.drop idx.length := by
    apply List.ext_getElem?
    intro j
    rw [List.getElem?_drop, List.getElem?_drop]
    exact h2 _ (by omega)
  calc o = o.take idx.length ++ o.drop idx.length := (List.take_append_drop _ _).symm
    _ = idx ++ buf.drop idx.length := by rw [h1, hd]

/-- Claim C11. On the 4x3 grid with map bytes 1,1,1,1,0,1,0,1,0,1,1,1, start (0,0), target (1,2)
and capacity 12, `FindPath` returns 3 and writes the indices 1, 5, 9 at the front of the buffer,
whatever the order among equal `fScore`s (no two open squares ever share one); 3 is the
breadth-first distance and the cells (1,0), (1,1), (1,2) that the indices stand for form a valid
path. -/
theorem C11_sample_path (sort : List gridSquare → List gridSquare) (hs : IsSort sort)
    (fuel : Nat) (hfuel : 4 ≤ fuel) (buf : List Int) (hbuf : 3 ≤ buf.length) :
    FindPath sort fuel 0 0 1 2 [1, 1, 1, 1, 0, 1, 0, 1, 0, 1, 1, 1] 4 3 buf 12
        = Outcome.returned 3 ([1, 5, 9] ++ buf.drop 3) ∧
      (grid.mk 3 4 [1, 1, 1, 1, 0, 1, 0, 1, 0, 1, 1, 1] 1 2 0 0).bfsDist = some 3 ∧
      (grid.mk 3 4 [1, 1, 1, 1, 0, 1, 0, 1, 0, 1, 1, 1] 1 2 0 0).ValidPath
        [decodeIndex 4 1, decodeIndex 4 5, decodeIndex 4 9] := by
  refine ⟨?_, by decide, by decide⟩
  obtain ⟨f, rfl⟩ : ∃ f, fuel = 3 + (f + 1) := ⟨fuel - 4, by omega⟩
  have hst : loopState sort (grid.mk 3 4 [1, 1, 1, 1, 0, 1, 0, 1, 0, 1, 1, 1] 1 2 0 0) 3
      = some ([(⟨5, 3, 2, 2, 0, some 1, some 0⟩ : gridSquare), ⟨3, 0, 3, 1, 2, some 1, some 1⟩],
          [(⟨3, 3, 0, 0, 0, none, none⟩ : gridSquare), ⟨3, 2, 1, 1, 0, some 0, some 0⟩,
            ⟨3, 1, 2, 1, 1, some 1, some 0⟩]) := by
    rw [loopState_eq_stable sort hs _ 3 (by decide)]
    decide
  have hsort : sort [(⟨5, 3, 2, 2, 0, some 1, some 0⟩ : gridSquare),
        ⟨3, 0, 3, 1, 2, some 1, some 1⟩]
      = [(⟨3, 0, 3, 1, 2, some 1, some 1⟩ : gridSquare), ⟨5, 3, 2, 2, 0, some 1, some 0⟩] := by
    rw [sort_unique sort stableSort hs stableSort_isSort _ (by decide)]
    decide
  have hF : FindPath sort (3 + (f + 1)) 0 0 1 2 [1, 1, 1, 1, 0, 1, 0, 1, 0, 1, 1, 1] 4 3 buf 12
      = mainLoop sort (grid.mk 3 4 [1, 1, 1, 1, 0, 1, 0, 1, 0, 1, 1, 1] 1 2 0 0) buf 12
        (3 + (f + 1))
        [(grid.mk 3 4 [1, 1, 1, 1, 0, 1, 0, 1, 0, 1, 1, 1] 1 2 0 0).startingLocation] [] := rfl
  rw [hF, mainLoop_loopState sort _ buf 12 (f + 1) 3 _ _ hst,
    mainLoop_succ _ _ _ _ _ _ _ (by simp), hsort]
  simp only
  rw [if_pos (by decide)]
  have hre : (grid.mk 3 4 [1, 1, 1, 1, 0, 1, 0, 1, 0, 1, 1, 1] 1 2 0 0).retracePath
      ([(⟨3, 3, 0, 0, 0, none, none⟩ : gridSquare), ⟨3, 2, 1, 1, 0, some 0, some 0⟩,
          ⟨3, 1, 2, 1, 1, some 1, some 0⟩] ++ [(⟨3, 0, 3, 1, 2, some 1, some 1⟩ : gridSquare)]).length
      ⟨3, 0, 3, 1, 2, some 1, some 1⟩ []
      ([(⟨3, 3, 0, 0, 0, none, none⟩ : gridSquare), ⟨3, 2, 1, 1, 0, some 0, some 0⟩,
          ⟨3, 1, 2, 1, 1, some 1, some 0⟩] ++ [(⟨3, 0, 3, 1, 2, some 1, some 1⟩ : gridSquare)])
      = some [(⟨3, 0, 3, 1, 2, some 1, some 1⟩ : gridSquare), ⟨3, 1, 2, 1, 1, some 1, some 0⟩,
          ⟨3, 2, 1, 1, 0, some 0, some 0⟩, ⟨3, 3, 0, 0, 0, none, none⟩] := by decide
  unfold reportPath
  rw [hre]
  simp only
  have hidx : (([(⟨3, 0, 3, 1, 2, some 1, some 1⟩ : gridSquare), ⟨3, 1, 2, 1, 1, some 1, some 0⟩,
        ⟨3, 2, 1, 1, 0, some 0, some 0⟩, ⟨3, 3, 0, 0, 0, none, none⟩].dropLast.reverse).map
      fun s => (grid.mk 3 4 [1, 1, 1, 1, 0, 1, 0, 1, 0, 1, 1, 1] 1 2 0 0).getLocationFromGrid
        s.xCoordinate s.yCoordinate) = [1, 5, 9] := by decide
  have hcap : toSizeT 12 = 12 := by decide
  have hcases := emitPath_cases (grid.mk 3 4 [1, 1, 1, 1, 0, 1, 0, 1, 0, 1, 1, 1] 1 2 0 0) buf 12
    ⟨3, 0, 3, 1, 2, some 1, some 1⟩ [(⟨3, 1, 2, 1, 1, some 1, some 0⟩ : gridSquare),
      ⟨3, 2, 1, 1, 0, some 0, some 0⟩, ⟨3, 3, 0, 0, 0, none, none⟩]
  simp only [hidx, hcap] at hcases
  rcases hcases with ⟨_, h2⟩ | ⟨_, _, h2⟩ | ⟨o, h1, _, _, _, h5, h6⟩
  · simp at h2
  · simp only [List.length_cons, List.length_nil] at h2; omega
  · rw [h1]
    have := eq_append_drop o buf [1, 5, 9] h5 h6
    simp only [List.length_cons, List.length_nil] at this ⊢
    rw [this]
    rfl

theorem C11_sample_path_witness :
    IsSort stableSort ∧ 4 ≤ 4 ∧
      3 ≤ ([0, 0, 0, 0, 0, 0, 0, 0, 0, 0, 0, 0] : List Int).length ∧
      (FindPath stableSort 4 0 0 1 2 [1, 1, 1, 1, 0, 1, 0, 1, 0, 1, 1, 1] 4 3
          [0, 0, 0, 0, 0, 0, 0, 0, 0, 0, 0, 0] 12
        = Outcome.returned 3
          ([1, 5, 9] ++ ([0, 0, 0, 0, 0, 0, 0, 0, 0, 0, 0, 0] : List Int).drop 3) ∧
      (grid.mk 3 4 [1, 1, 1, 1, 0, 1, 0, 1, 0, 1, 1, 1] 1 2 0 0).bfsDist = some 3 ∧
      (grid.mk 3 4 [1, 1, 1, 1, 0, 1, 0, 1, 0, 1, 1, 1] 1 2 0 0).ValidPath
        [decodeIndex 4 1, decodeIndex 4 5, decodeIndex 4 9]) :=
  ⟨stableSort_isSort, le_refl 4, by decide,
    C11_sample_path stableSort stableSort_isSort 4 (le_refl 4)
      [0, 0, 0, 0, 0, 0, 0, 0, 0, 0, 0, 0] (by decide)⟩

/-! ## The methods of the grid -/

/-- With the products taken exactly: on a well-formed grid (width or height 1 included), for a square on the grid,
`getNeighbors` returns squares whose cells are exactly those of the candidates
(x, y+1), (x, y-1), (x+1, y), (x-1, y), in this order, that lie on the grid and have map
byte 1; each returned square has `gScore = cell.gScore + 1`,
`hScore = |x' - targetX| + |y' - targetY|` and `fScore = gScore + hScore`. -/
theorem getNeighbors_exact (g : grid) (wf : g.WellFormed) (cur : gridSquare)
    (hc : g.InBounds (coords cur)) :
    ∃ adj, g.getNeighbors cur = some adj ∧
      adj.map coords =
        [(cur.xCoordinate, cur.yCoordinate + 1), (cur.xCoordinate, cur.yCoordinate - 1),
          (cur.xCoordinate + 1, cur.yCoordinate), (cur.xCoordinate - 1, cur.yCoordinate)].filter
          (fun d => decide (g.InBounds d ∧ g.pMap.get? (d.2 * g.width + d.1).toNat = some 1)) ∧
      ∀ a ∈ adj, a.gScore = cur.gScore + 1 ∧
        a.hScore = (((a.xCoordinate - g.targetX).natAbs + (a.yCoordinate - g.targetY).natAbs
          : Nat) : Int) ∧
        a.fScore = a.gScore + a.hScore := by
  refine ⟨_, getNeighbors_inBounds g wf cur hc, ?_, ?_⟩
  · rw [List.map_map]
    have : (coords ∘ fun c : Int × Int => g.neighbor cur c.1 c.2) = id := by
      funext c
      rfl
    rw [this, List.map_id]
    rfl
  · intro a ha
    obtain ⟨c, _, rfl⟩ := List.mem_map.1 ha
    refine ⟨rfl, ?_, ?_⟩
    · simp only [grid.neighbor, gridSquare.new, grid.getManhattan, Nat.cast_add]
    · simp only [grid.neighbor, gridSquare.new]
      omega

/-- Whatever the grid, every square that `getNeighbors` returns has the `gScore` of the
expanded square plus one. -/
theorem getNeighbors_gScore (g : grid) (cur : gridSquare) (adj : List gridSquare)
    (h : g.getNeighbors cur = some adj) : ∀ a ∈ adj, a.gScore = cur.gScore + 1 := by
  unfold grid.getNeighbors at h
  simp only [Option.bind_eq_some] at h
  obtain ⟨down, _, up, _, h⟩ := h
  split at h
  · exact absurd h (by simp)
  · simp only [Option.bind_eq_some] at h
    obtain ⟨right, _, left, _, h⟩ := h
    injection h with h
    subst h
    intro a ha
    simp only [List.mem_append] at ha
    rcases ha with ((ha | ha) | ha) | ha
    all_goals
      split at ha
      · rw [List.mem_singleton] at ha
        rw [ha]
        rfl
      · exact absurd ha (List.not_mem_nil _)

/-! ## The open-list update -/

/-- Claim C14, evaluated in the run of `FindPath` from (1,4) to (0,0) on the 4x5 grid of C1 (equal
`fScore`s in insertion order).  At the head of iteration 6 the open list holds (2,3) with
`gScore` 2 and (2,2) with `gScore` 5; (2,3) is taken, `getNeighbors` produces (2,2) with
`gScore` 3, which is on the open list and not on the closed list, and 2 + 1 < 5; yet the
pass of the neighbour loop leaves the open list as it was: the entry for (2,2) keeps
`gScore` 5, `fScore` 9 and `cameFrom` (1,2). -/
theorem C14_entry_not_replaced :
    loopState stableSort
        (grid.mk 5 4 [1, 1, 1, 1, 0, 0, 1, 1, 1, 1, 1, 1, 1, 0, 1, 1, 1, 1, 1, 1] 0 0 1 4) 6
      = some ([(⟨7, 5, 2, 2, 3, some 2, some 4⟩ : gridSquare), ⟨9, 7, 2, 3, 4, some 2, some 4⟩,
            ⟨9, 4, 5, 2, 2, some 1, some 2⟩],
          [(⟨5, 5, 0, 1, 4, none, none⟩ : gridSquare), ⟨5, 4, 1, 0, 4, some 1, some 4⟩,
            ⟨5, 3, 2, 0, 3, some 0, some 4⟩, ⟨5, 2, 3, 0, 2, some 0, some 3⟩,
            ⟨7, 6, 1, 2, 4, some 1, some 4⟩, ⟨7, 3, 4, 1, 2, some 0, some 2⟩]) ∧
    stableSort [(⟨7, 5, 2, 2, 3, some 2, some 4⟩ : gridSquare), ⟨9, 7, 2, 3, 4, some 2, some 4⟩,
        ⟨9, 4, 5, 2, 2, some 1, some 2⟩]
      = [(⟨7, 5, 2, 2, 3, some 2, some 4⟩ : gridSquare), ⟨9, 7, 2, 3, 4, some 2, some 4⟩,
        ⟨9, 4, 5, 2, 2, some 1, some 2⟩] ∧
    (grid.mk 5 4 [1, 1, 1, 1, 0, 0, 1, 1, 1, 1, 1, 1, 1, 0, 1, 1, 1, 1, 1, 1] 0 0 1 4).getNeighbors
        ⟨7, 5, 2, 2, 3, some 2, some 4⟩
      = some [(⟨9, 6, 3, 2, 4, none, none⟩ : gridSquare), ⟨7, 4, 3, 2, 2, none, none⟩,
          ⟨9, 6, 3, 3, 3, none, none⟩] ∧
    (⟨7, 5, 2, 2, 3, some 2, some 4⟩ : gridSquare).gScore + 1
      < (⟨9, 4, 5, 2, 2, some 1, some 2⟩ : gridSquare).gScore ∧
    addNeighbor ⟨7, 5, 2, 2, 3, some 2, some 4⟩
        ([(⟨5, 5, 0, 1, 4, none, none⟩ : gridSquare), ⟨5, 4, 1, 0, 4, some 1, some 4⟩,
            ⟨5, 3, 2, 0, 3, some 0, some 4⟩, ⟨5, 2, 3, 0, 2, some 0, some 3⟩,
            ⟨7, 6, 1, 2, 4, some 1, some 4⟩, ⟨7, 3, 4, 1, 2, some 0, some 2⟩]
          ++ [(⟨7, 5, 2, 2, 3, some 2, some 4⟩ : gridSquare)])
        [(⟨9, 7, 2, 3, 4, some 2, some 4⟩ : gridSquare), ⟨9, 4, 5, 2, 2, some 1, some 2⟩]
        ⟨7, 4, 3, 2, 2, none, none⟩
      = [(⟨9, 7, 2, 3, 4, some 2, some 4⟩ : gridSquare), ⟨9, 4, 5, 2, 2, some 1, some 2⟩] := by
  refine ⟨by decide, by decide, by decide, by decide, by decide⟩

/-- Claim C20. For every grid and every sort that meets the contract of `std::sort`:
every neighbour that `getNeighbors` produces has `gScore = currentLocation.gScore + 1`, so the
comparison `(currentLocation.gScore + 1) < adjacentSqaures[i].gScore` is false and a pass of
the neighbour loop either leaves the open list alone or appends the stamped neighbour;
consequently, from one loop head to the next, the open list is the old one without the square
taken (every other entry the same record as before), followed by the newly discovered
squares, each with `gScore = currentLocation.gScore + 1` and `cameFrom` the square taken. -/
theorem C20_replace_branch_dead (sort : List gridSquare → List gridSquare) (hs : IsSort sort)
    (g : grid) :
    (∀ (cur : gridSquare) (adj : List gridSquare), g.getNeighbors cur = some adj →
      ∀ a ∈ adj, ¬ (cur.gScore + 1 < (stamp cur a).gScore) ∧
        ∀ closedList openList : List gridSquare,
          addNeighbor cur closedList openList a = openList ∨
          addNeighbor cur closedList openList a = openList ++ [stamp cur a]) ∧
    (∀ (k : Nat) (o c o' c' : List gridSquare), loopState sort g k = some (o, c) →
      loopState sort g (k + 1) = some (o', c') →
      ∃ (cur : gridSquare) (rest news : List gridSquare), (cur :: rest).Perm o ∧
        c' = c ++ [cur] ∧ o' = rest ++ news ∧
        ∀ n ∈ news, n.gScore = cur.gScore + 1 ∧ n.cameFromX = some cur.xCoordinate ∧
          n.cameFromY = some cur.yCoordinate ∧ coords n ∉ (c' ++ rest).map coords) := by
  constructor
  · intro cur adj hadj a ha
    have hg := getNeighbors_gScore g cur adj hadj a ha
    refine ⟨by simp only [stamp]; omega, fun closedList openList => ?_⟩
    rcases addNeighbor_cases cur closedList openList a hg with ⟨_, h⟩ | ⟨_, h⟩
    · exact Or.inl h
    · exact Or.inr h
  · intro k o c o' c' h1 h2
    simp only [loopState, h1] at h2
    obtain ⟨cur, rest, adj, _, hsort, _, hadj, ho, hc⟩ := loopStep_eq_some sort g h2
    obtain ⟨news, hpn, hn1, _, hn3, _⟩ := processNeighbors_spec cur (c ++ [cur]) adj rest
      (getNeighbors_gScore g cur adj hadj)
    refine ⟨cur, rest, news, hsort ▸ (hs o).1, hc, by rw [ho, hpn], ?_⟩
    intro n hn
    obtain ⟨a, ha, rfl⟩ := hn1 n hn
    refine ⟨getNeighbors_gScore g cur adj hadj a ha, rfl, rfl, ?_⟩
    rw [hc]
    exact hn3 _ hn

theorem C20_replace_branch_dead_witness :
    IsSort stableSort ∧
    ((∀ (cur : gridSquare) (adj : List gridSquare),
      (grid.mk 3 4 [1, 1, 1, 1, 0, 1, 0, 1, 0, 1, 1, 1] 1 2 0 0).getNeighbors cur = some adj →
      ∀ a ∈ adj, ¬ (cur.gScore + 1 < (stamp cur a).gScore) ∧
        ∀ closedList openList : List gridSquare,
          addNeighbor cur closedList openList a = openList ∨
          addNeighbor cur closedList openList a = openList ++ [stamp cur a]) ∧
    (∀ (k : Nat) (o c o' c' : List gridSquare),
      loopState stableSort (grid.mk 3 4 [1, 1, 1, 1, 0, 1, 0, 1, 0, 1, 1, 1] 1 2 0 0) k
        = some (o, c) →
      loopState stableSort (grid.mk 3 4 [1, 1, 1, 1, 0, 1, 0, 1, 0, 1, 1, 1] 1 2 0 0) (k + 1)
        = some (o', c') →
      ∃ (cur : gridSquare) (rest news : List gridSquare), (cur :: rest).Perm o ∧
        c' = c ++ [cur] ∧ o' = rest ++ news ∧
        ∀ n ∈ news, n.gScore = cur.gScore + 1 ∧ n.cameFromX = some cur.xCoordinate ∧
          n.cameFromY = some cur.yCoordinate ∧ coords n ∉ (c' ++ rest).map coords)) :=
  ⟨stableSort_isSort,
    C20_replace_branch_dead stableSort stableSort_isSort
      (grid.mk 3 4 [1, 1, 1, 1, 0, 1, 0, 1, 0, 1, 1, 1] 1 2 0 0)⟩

/-! ## Completeness of the search -/

/-- When the open list is exhausted the closed squares are closed under moves, contain the
start and not the target: no path leads to the target. -/
theorem exhausted_no_path (g : grid) {closedF : List gridSquare}
    (hinv : Inv g [] closedF) (hcomp : Complete g [] closedF) :
    ∀ path, ¬ g.ValidPath path := by
  have key : ∀ (path : List (Int × Int)) (c : Int × Int), c ∈ closedF.map coords →
      ¬ g.PathFrom c path := by
    intro path
    induction path with
    | nil =>
      intro c hc hp
      obtain ⟨s, hs, hsc⟩ := List.mem_map.1 hc
      have hct : c = (g.targetX, g.targetY) := hp
      exact hinv.notTarget s hs (hsc.trans hct)
    | cons d rest ih =>
      intro c hc hp
      obtain ⟨hstep, hrest⟩ := hp
      obtain ⟨s, hs, hsc⟩ := List.mem_map.1 hc
      have := hcomp s hs d (hsc ▸ hstep)
      rw [List.append_nil] at this
      exact ih d this hrest
  intro path hp
  have hstart := hinv.hasStart
  rw [List.append_nil] at hstart
  exact key path _ hstart hp

/-- With the products taken exactly: on a well-formed grid with the start on the grid, a capacity of at least
`width * height` (an `int`, so below `2 ^ 64`), a buffer of at least `width * height` entries
and at least `width * height` iterations of fuel: if some sequence of moves leads from the
start to the target through cells of map value 1, `FindPath` returns a count `n ≥ 0`; and it
returns -1 exactly when there is no such sequence (the path found has fewer than
`width * height` moves, so it is never longer than this capacity). -/
theorem path_found (sort : List gridSquare → List gridSquare) (hs : IsSort sort)
    (fuel : Nat) (sx sy tx ty : Int) (pMap : List Nat) (w h : Int) (buf : List Int)
    (cap : Int) (hw : 1 ≤ w) (hh : 1 ≤ h) (hmap : (pMap.length : Int) = w * h)
    (hsx : 0 ≤ sx ∧ sx < w) (hsy : 0 ≤ sy ∧ sy < h) (hfuel : (w * h).toNat ≤ fuel)
    (hcap : w * h ≤ cap) (hc1 : cap < 2 ^ 64) (hbuf : (w * h).toNat ≤ buf.length) :
    ((∃ path, (grid.mk h w pMap tx ty sx sy).ValidPath path) →
      ∃ (n : Int) (out : List Int),
        FindPath sort fuel sx sy tx ty pMap w h buf cap = Outcome.returned n out ∧ 0 ≤ n) ∧
    (FindPath sort fuel sx sy tx ty pMap w h buf cap = Outcome.returned (-1) buf ↔
      ¬ ∃ path, (grid.mk h w pMap tx ty sx sy).ValidPath path) := by
  have wf : (grid.mk h w pMap tx ty sx sy).WellFormed := ⟨hw, hh, hmap⟩
  have hstart : (grid.mk h w pMap tx ty sx sy).InBounds (sx, sy) :=
    ⟨hsx.1, hsx.2, hsy.1, hsy.2⟩
  have hwh : 0 ≤ w * h := Int.mul_nonneg (by omega) (by omega)
  have hsz := toSizeT_of_nonneg cap (by omega) hc1
  rcases search_outcome sort hs _ wf hstart fuel buf cap with
    ⟨h1, closedF, hr⟩ | ⟨cells, openF, closedF, rest, cur, hr, hsort, _, hlen, hv, _, hem⟩ |
    ⟨_, h1⟩
  · -- open list exhausted
    obtain ⟨hinv, hcomp⟩ := reach_inv sort hs _ wf hstart hr
    have hno := exhausted_no_path _ hinv hcomp
    refine ⟨fun ⟨path, hp⟩ => absurd hp (hno path), fun _ => fun ⟨path, hp⟩ => hno path hp,
      fun _ => h1⟩
  · -- target taken
    obtain ⟨hinv, _⟩ := reach_inv sort hs _ wf hstart hr
    have hperm : (cur :: rest).Perm openF := hsort ▸ (hs openF).1
    have hcur : cur ∈ openF := hperm.mem_iff.1 (List.mem_cons_self _ _)
    have hd := hinv.depthOpen cur hcur
    have hl := inv_length_le _ hinv
    rw [List.length_append] at hl
    have hopen : 1 ≤ openF.length := by
      cases openF with
      | nil => exact absurd hcur (List.not_mem_nil _)
      | cons _ _ => simp
    simp only at hl
    have hcl : (cells.length : Int) < w * h := by omega
    rcases hem with ⟨_, h2⟩ | ⟨_, _, h2⟩ | ⟨o, h1, _⟩
    · omega
    · omega
    · refine ⟨fun _ => ⟨cells.length, o, h1, Int.natCast_nonneg _⟩, fun h2 => ?_,
        fun h2 => absurd ⟨cells, hv⟩ h2⟩
      have h4 : Outcome.returned (cells.length : Int) o = Outcome.returned (-1) buf :=
        h1.symm.trans h2
      injection h4 with h3 _
      omega
  · simp only at h1; omega

/-! ## Facts at every loop head -/

theorem loopState_pred (sort : List gridSquare → List gridSquare) (g : grid) (k : Nat)
    (x : List gridSquare × List gridSquare) (h : loopState sort g (k + 1) = some x) :
    ∃ s, loopState sort g k = some s ∧ loopStep sort g s.1 s.2 = some x := by
  simp only [loopState] at h
  cases hk : loopState sort g k with
  | none => rw [hk] at h; simp at h
  | some s => rw [hk] at h; exact ⟨s, rfl, h⟩

/-- The closed list of an earlier loop head is an initial segment of every later one. -/
theorem loopState_prefix (sort : List gridSquare → List gridSquare) (g : grid) (j : Nat)
    (o2 c2 : List gridSquare) (hj : loopState sort g j = some (o2, c2)) :
    ∀ (k : Nat) (o c : List gridSquare), j ≤ k → loopState sort g k = some (o, c) →
    c2 <+: c := by
  intro k
  induction k with
  | zero =>
    intro o c hjk hk
    have : j = 0 := by omega
    subst this
    rw [hj] at hk
    injection hk with hk
    injection hk with _ h2
    rw [h2]
  | succ k ih =>
    intro o c hjk hk
    by_cases hje : j = k + 1
    · subst hje
      rw [hj] at hk
      injection hk with hk
      injection hk with _ h2
      rw [h2]
    · obtain ⟨s, hs, hstep⟩ := loopState_pred sort g k _ hk
      obtain ⟨cur, rest, adj, _, _, _, _, _, h6⟩ := loopStep_eq_some sort g hstep
      have := ih s.1 s.2 (by omega) hs
      rw [h6]
      exact this.trans (List.prefix_append _ _)

/-- The start square stays on the lists as the record built before the loop. -/
theorem reach_start_mem (sort : List gridSquare → List gridSquare) (hs : IsSort sort)
    (g : grid) {o c : List gridSquare} (h : Reach sort g o c) :
    g.startingLocation ∈ c ++ o := by
  induction h with
  | init => simp
  | @next openList closedList rest adj cur _ _ hsort _ hadj ih =>
    obtain ⟨news, hpn, _⟩ := processNeighbors_spec cur (closedList ++ [cur]) adj rest
      (getNeighbors_gScore g cur adj hadj)
    rw [hpn]
    have hperm : (cur :: rest).Perm openList := hsort ▸ (hs openList).1
    rcases List.mem_append.1 ih with h1 | h1
    · simp [h1]
    · rcases List.mem_cons.1 (hperm.mem_iff.2 h1) with h2 | h2
      · simp [h2]
      · simp [h2]

theorem retrace_none (g : grid) (closedList : List gridSquare)
    (hnd : (closedList.map coords).Nodup) (hl : ∀ s ∈ closedList, Linked g closedList s) :
    ∀ (n : Nat) (s : gridSquare), s ∈ closedList → s.gScore = (n : Int) →
    ∀ (fuel : Nat), fuel ≤ n → ∀ acc : List gridSquare,
    g.retracePath fuel s acc closedList = none := by
  intro n
  induction n with
  | zero =>
    intro s _ _ fuel hfuel acc
    have : fuel = 0 := by omega
    subst this
    rfl
  | succ n ih =>
    intro s hs hg fuel hfuel acc
    cases fuel with
    | zero => rfl
    | succ k =>
      obtain ⟨_, ⟨_, h0⟩ | ⟨hc, _, p, hp, hx, hy, hgp, _⟩⟩ := hl s hs
      · rw [hg] at h0
        push_cast at h0
        omega
      · have hpg : p.gScore = (n : Int) := by
          rw [hg] at hgp
          push_cast at hgp
          omega
        have hns : ¬ (s.xCoordinate = g.startX ∧ s.yCoordinate = g.startY) := by
          rintro ⟨h4, h5⟩
          exact hc (Prod.ext h4 h5)
        have hfind : closedList.find?
            (fun t => t.eq (gridSquare.new p.xCoordinate p.yCoordinate 0 0)) = some p :=
          find_eq_some_of_nodup closedList p _ hnd hp rfl
        simp only [grid.retracePath, if_neg hns, hx, hy, hfind]
        exact ih p hp hpg k (by omega) _

/-- Claim C16. On a well-formed grid with the start on the grid, at the head of every iteration
of the main loop no two entries of the open list share coordinates, no two entries of the
closed list share coordinates, no coordinate is on both lists, and the closed list of every
earlier loop head is an initial segment of the present one: the closed list only grows by
appending, no entry of it is removed or changed. -/
theorem C16_lists_unique (sort : List gridSquare → List gridSquare) (hs : IsSort sort)
    (g : grid) (wf : g.WellFormed) (hstart : g.InBounds (g.startX, g.startY))
    (k : Nat) (o c : List gridSquare) (hst : loopState sort g k = some (o, c)) :
    (o.map coords).Nodup ∧ (c.map coords).Nodup ∧
      (∀ s ∈ o, ∀ t ∈ c, coords s ≠ coords t) ∧
      ∀ (j : Nat) (o2 c2 : List gridSquare), j ≤ k → loopState sort g j = some (o2, c2) →
        c2 <+: c := by
  obtain ⟨hinv, _⟩ := reach_inv sort hs g wf hstart (loopState_reach sort g k o c hst)
  have hnd := hinv.nodup
  rw [List.map_append, List.nodup_append] at hnd
  refine ⟨hnd.2.1, hnd.1, ?_, ?_⟩
  · intro s hs' t ht heq
    exact hnd.2.2 (List.mem_map_of_mem coords ht) (heq ▸ List.mem_map_of_mem coords hs')
  · intro j o2 c2 hj hst2
    exact loopState_prefix sort g j o2 c2 hst2 k o c hj hst

theorem C16_lists_unique_witness :
    IsSort stableSort ∧
      (grid.mk 3 4 [1, 1, 1, 1, 0, 1, 0, 1, 0, 1, 1, 1] 1 2 0 0).WellFormed ∧
      (grid.mk 3 4 [1, 1, 1, 1, 0, 1, 0, 1, 0, 1, 1, 1] 1 2 0 0).InBounds (0, 0) ∧
      loopState stableSort (grid.mk 3 4 [1, 1, 1, 1, 0, 1, 0, 1, 0, 1, 1, 1] 1 2 0 0) 2
        = some ([(⟨3, 1, 2, 1, 1, some 1, some 0⟩ : gridSquare),
            ⟨5, 3, 2, 2, 0, some 1, some 0⟩],
          [(⟨3, 3, 0, 0, 0, none, none⟩ : gridSquare), ⟨3, 2, 1, 1, 0, some 0, some 0⟩]) ∧
      (([(⟨3, 1, 2, 1, 1, some 1, some 0⟩ : gridSquare),
          ⟨5, 3, 2, 2, 0, some 1, some 0⟩].map coords).Nodup ∧
        ([(⟨3, 3, 0, 0, 0, none, none⟩ : gridSquare),
          ⟨3, 2, 1, 1, 0, some 0, some 0⟩].map coords).Nodup ∧
        (∀ s ∈ [(⟨3, 1, 2, 1, 1, some 1, some 0⟩ : gridSquare),
            ⟨5, 3, 2, 2, 0, some 1, some 0⟩],
          ∀ t ∈ [(⟨3, 3, 0, 0, 0, none, none⟩ : gridSquare), ⟨3, 2, 1, 1, 0, some 0, some 0⟩],
            coords s ≠ coords t) ∧
        ∀ (j : Nat) (o2 c2 : List gridSquare), j ≤ 2 →
          loopState stableSort (grid.mk 3 4 [1, 1, 1, 1, 0, 1, 0, 1, 0, 1, 1, 1] 1 2 0 0) j
            = some (o2, c2) →
          c2 <+: [(⟨3, 3, 0, 0, 0, none, none⟩ : gridSquare),
            ⟨3, 2, 1, 1, 0, some 0, some 0⟩]) :=
  ⟨stableSort_isSort, by decide, by decide, by decide,
    C16_lists_unique stableSort stableSort_isSort
      (grid.mk 3 4 [1, 1, 1, 1, 0, 1, 0, 1, 0, 1, 1, 1] 1 2 0 0) (by decide) (by decide) 2 _ _
      (by decide)⟩

/-- Claim C17. On a well-formed grid with the start on the grid, when the square taken from the
open list at some loop head is the target, the call of `retracePath` succeeds: no lookup
`find(closedList, (cameFromX, cameFromY))` returns `closedList.end()` and no unset `cameFrom`
field is read (either would give `none`), although every square at the start cell has its
`cameFrom` fields unset.  The recursion needs exactly `gScore + 1` calls (it fails with fewer
and succeeds with more), the retraced list has `gScore + 1` squares, and a returned count
`n ≥ 0` equals the recorded `gScore` of the target. -/
theorem C17_retrace_succeeds (sort : List gridSquare → List gridSquare) (hs : IsSort sort)
    (g : grid) (wf : g.WellFormed) (hstart : g.InBounds (g.startX, g.startY))
    (buf : List Int) (cap : Int) (k : Nat) (o c rest : List gridSquare) (cur : gridSquare)
    (hst : loopState sort g k = some (o, c)) (hsort : sort o = cur :: rest)
    (ht : cur.xCoordinate = g.targetX ∧ cur.yCoordinate = g.targetY) :
    0 ≤ cur.gScore ∧
      (∃ chain, g.retracePath (c ++ [cur]).length cur [] (c ++ [cur]) = some chain ∧
        (chain.length : Int) = cur.gScore + 1 ∧
        reportPath g buf cap cur (c ++ [cur]) = emitPath g buf cap chain) ∧
      (∀ fuel : Nat, g.retracePath fuel cur [] (c ++ [cur]) ≠ none ↔ cur.gScore < fuel) ∧
      (∀ s ∈ c ++ [cur], coords s = (g.startX, g.startY) →
        s.cameFromX = none ∧ s.cameFromY = none) ∧
      (∀ (n : Int) (out : List Int),
        reportPath g buf cap cur (c ++ [cur]) = Outcome.returned n out → 0 ≤ n →
        n = cur.gScore) := by
  have hr := loopState_reach sort g k o c hst
  obtain ⟨hinv, _⟩ := reach_inv sort hs g wf hstart hr
  have hperm : (cur :: rest).Perm o := hsort ▸ (hs o).1
  have hcur : cur ∈ o := hperm.mem_iff.1 (List.mem_cons_self _ _)
  have hP : ((c ++ [cur]) ++ rest).Perm (c ++ o) := by
    rw [List.append_assoc]
    exact List.Perm.append_left _ hperm
  have hndall : (((c ++ [cur]) ++ rest).map coords).Nodup :=
    (hP.map coords).nodup_iff.2 hinv.nodup
  have hnd : ((c ++ [cur]).map coords).Nodup := by
    rw [List.map_append] at hndall
    exact (List.nodup_append.1 hndall).1
  have hsub : ∀ s ∈ c ++ [cur], s ∈ c ++ o := by
    intro s hs'
    rcases List.mem_append.1 hs' with h | h
    · exact List.mem_append_left _ h
    · rw [List.mem_singleton] at h
      subst h
      exact List.mem_append_right _ hcur
  have hl : ∀ s ∈ c ++ [cur], Linked g (c ++ [cur]) s := fun s hs' =>
    (hinv.linked s (hsub s hs')).mono (fun p hp => List.mem_append_left _ hp)
  have hg0 : 0 ≤ cur.gScore := (hinv.linked cur (List.mem_append_right _ hcur)).1
  have hgd := hinv.depthOpen cur hcur
  have hmem : cur ∈ c ++ [cur] := by simp
  have hgn : cur.gScore = ((cur.gScore.toNat : Nat) : Int) := by omega
  obtain ⟨chain, h1, h2, h3⟩ := retrace_spec g (c ++ [cur]) hnd hl cur.gScore.toNat cur
    hmem hgn (c ++ [cur]).length
    (by rw [List.length_append, List.length_singleton]; omega) []
  rw [List.nil_append] at h1
  have hrep : reportPath g buf cap cur (c ++ [cur]) = emitPath g buf cap chain := by
    unfold reportPath; rw [h1]
  have hlen : (chain.length : Int) = cur.gScore + 1 := by rw [h3]; push_cast; omega
  refine ⟨hg0, ⟨chain, h1, hlen, hrep⟩, ?_, ?_, ?_⟩
  · intro fuel
    constructor
    · intro hne
      by_contra hlt
      exact hne (retrace_none g (c ++ [cur]) hnd hl cur.gScore.toNat cur hmem hgn fuel
        (by omega) [])
    · intro hlt
      obtain ⟨ch, h4, _, _⟩ := retrace_spec g (c ++ [cur]) hnd hl cur.gScore.toNat cur
        hmem hgn fuel (by omega) []
      rw [h4]
      simp
  · intro s hs' hsc
    have hs0 := reach_start_mem sort hs g hr
    have : s = g.startingLocation :=
      coords_inj_of_nodup hinv.nodup (hsub s hs') hs0 (hsc.trans rfl)
    rw [this]
    exact ⟨rfl, rfl⟩
  · intro n out hret hn
    rw [hrep] at hret
    cases chain with
    | nil => simp at h3
    | cons c0 chain' =>
      rcases emitPath_cases g buf cap c0 chain' with ⟨e1, _⟩ | ⟨e1, _⟩ | ⟨o2, e1, _⟩
      · rw [e1] at hret
        injection hret with e2 _
        omega
      · rw [e1] at hret
        exact absurd hret (by simp)
      · rw [e1] at hret
        injection hret with e2 _
        rw [← e2]
        simp only [List.length_map, List.length_reverse, List.length_dropLast,
          List.length_cons, Nat.add_sub_cancel] at hlen ⊢
        push_cast at hlen
        omega

theorem C17_retrace_succeeds_witness :
    IsSort stableSort ∧
      (grid.mk 3 4 [1, 1, 1, 1, 0, 1, 0, 1, 0, 1, 1, 1] 1 2 0 0).WellFormed ∧
      (grid.mk 3 4 [1, 1, 1, 1, 0, 1, 0, 1, 0, 1, 1, 1] 1 2 0 0).InBounds (0, 0) ∧
      loopState stableSort (grid.mk 3 4 [1, 1, 1, 1, 0, 1, 0, 1, 0, 1, 1, 1] 1 2 0 0) 3
        = some ([(⟨5, 3, 2, 2, 0, some 1, some 0⟩ : gridSquare),
            ⟨3, 0, 3, 1, 2, some 1, some 1⟩],
          [(⟨3, 3, 0, 0, 0, none, none⟩ : gridSquare), ⟨3, 2, 1, 1, 0, some 0, some 0⟩,
            ⟨3, 1, 2, 1, 1, some 1, some 0⟩]) ∧
      stableSort [(⟨5, 3, 2, 2, 0, some 1, some 0⟩ : gridSquare),
          ⟨3, 0, 3, 1, 2, some 1, some 1⟩]
        = (⟨3, 0, 3, 1, 2, some 1, some 1⟩ : gridSquare) ::
          [(⟨5, 3, 2, 2, 0, some 1, some 0⟩ : gridSquare)] ∧
      ((⟨3, 0, 3, 1, 2, some 1, some 1⟩ : gridSquare).xCoordinate = 1 ∧
        (⟨3, 0, 3, 1, 2, some 1, some 1⟩ : gridSquare).yCoordinate = 2) ∧
      ∀ fuel : Nat,
        (grid.mk 3 4 [1, 1, 1, 1, 0, 1, 0, 1, 0, 1, 1, 1] 1 2 0 0).retracePath fuel
            ⟨3, 0, 3, 1, 2, some 1, some 1⟩ []
            ([(⟨3, 3, 0, 0, 0, none, none⟩ : gridSquare), ⟨3, 2, 1, 1, 0, some 0, some 0⟩,
              ⟨3, 1, 2, 1, 1, some 1, some 0⟩] ++ [⟨3, 0, 3, 1, 2, some 1, some 1⟩]) ≠ none ↔
          (⟨3, 0, 3, 1, 2, some 1, some 1⟩ : gridSquare).gScore < fuel :=
  ⟨stableSort_isSort, by decide, by decide, by decide, by decide, by decide,
    (C17_retrace_succeeds stableSort stableSort_isSort
      (grid.mk 3 4 [1, 1, 1, 1, 0, 1, 0, 1, 0, 1, 1, 1] 1 2 0 0) (by decide) (by decide)
      [0, 0, 0] 3 3
      [(⟨5, 3, 2, 2, 0, some 1, some 0⟩ : gridSquare), ⟨3, 0, 3, 1, 2, some 1, some 1⟩]
      [(⟨3, 3, 0, 0, 0, none, none⟩ : gridSquare), ⟨3, 2, 1, 1, 0, some 0, some 0⟩,
        ⟨3, 1, 2, 1, 1, some 1, some 0⟩]
      [(⟨5, 3, 2, 2, 0, some 1, some 0⟩ : gridSquare)] ⟨3, 0, 3, 1, 2, some 1, some 1⟩
      (by decide) (by decide) (by decide)).2.2.1⟩

/-- With the products taken exactly: on a well-formed grid with the start on the grid, at every loop head every square
on the open or closed list is on the grid, and for each such square every map read that
`getNeighbors` performs stays inside the map: whenever the bounds test of a direction passes,
the index handed to `pMap` lies in `[0, width * height)`, so `getNeighbors` never takes the
out-of-range branch of the lookup (it returns a list, not `none`). -/
theorem reads_in_range (sort : List gridSquare → List gridSquare) (hs : IsSort sort)
    (g : grid) (wf : g.WellFormed) (hstart : g.InBounds (g.startX, g.startY))
    (k : Nat) (o c : List gridSquare) (hst : loopState sort g k = some (o, c)) :
    ∀ s ∈ c ++ o, g.InBounds (coords s) ∧ g.getNeighbors s ≠ none ∧
      (s.yCoordinate + 1 < g.height →
        0 ≤ g.getLocationFromGrid s.xCoordinate (s.yCoordinate + 1) ∧
        g.getLocationFromGrid s.xCoordinate (s.yCoordinate + 1) < g.width * g.height) ∧
      (s.yCoordinate - 1 ≥ 0 →
        0 ≤ g.getLocationFromGrid s.xCoordinate (s.yCoordinate - 1) ∧
        g.getLocationFromGrid s.xCoordinate (s.yCoordinate - 1) < g.width * g.height) ∧
      ((s.xCoordinate + 1).tmod g.width ≠ 0 ∧ s.xCoordinate + 1 < g.height * g.width →
        0 ≤ g.getLocationFromGrid (s.xCoordinate + 1) s.yCoordinate ∧
        g.getLocationFromGrid (s.xCoordinate + 1) s.yCoordinate < g.width * g.height) ∧
      ((s.xCoordinate - 1).tmod g.width ≠ g.width - 1 ∧ s.xCoordinate - 1 ≥ 0 →
        0 ≤ g.getLocationFromGrid (s.xCoordinate - 1) s.yCoordinate ∧
        g.getLocationFromGrid (s.xCoordinate - 1) s.yCoordinate < g.width * g.height) := by
  obtain ⟨hinv, _⟩ := reach_inv sort hs g wf hstart (loopState_reach sort g k o c hst)
  intro s hs'
  have hb := hinv.inBounds s hs'
  obtain ⟨b1, b2, b3, b4⟩ := hb
  simp only [coords] at b1 b2 b3 b4
  refine ⟨⟨b1, b2, b3, b4⟩, ?_, ?_, ?_, ?_, ?_⟩
  · rw [getNeighbors_inBounds g wf s ⟨b1, b2, b3, b4⟩]
    simp
  · intro hq
    exact index_lt g wf (s.xCoordinate, s.yCoordinate + 1) ⟨b1, b2, by simp only; omega, hq⟩
  · intro hq
    exact index_lt g wf (s.xCoordinate, s.yCoordinate - 1)
      ⟨b1, b2, hq, by simp only; omega⟩
  · rintro ⟨hq, _⟩
    have hx : s.xCoordinate + 1 < g.width := by
      by_contra hcon
      have : s.xCoordinate + 1 = g.width := by omega
      rw [this, Int.tmod_self] at hq
      exact hq rfl
    exact index_lt g wf (s.xCoordinate + 1, s.yCoordinate)
      ⟨by simp only; omega, hx, b3, b4⟩
  · rintro ⟨_, hq⟩
    exact index_lt g wf (s.xCoordinate - 1, s.yCoordinate)
      ⟨hq, by simp only; omega, b3, b4⟩

theorem wrap32_eq (n : Int) (h0 : -2 ^ 31 ≤ n) (h1 : n < 2 ^ 31) : wrap32 n = n := by
  unfold wrap32
  norm_num at h0 h1 ⊢
  omega

theorem getLocationFromGrid32_eq (g : grid) (wf : g.WellFormed)
    (hwh : g.width * g.height < 2 ^ 31) (c : Int × Int) (hc : g.InBounds c) :
    g.getLocationFromGrid32 c.1 c.2 = g.getLocationFromGrid c.1 c.2 := by
  obtain ⟨h0, h1⟩ := index_lt g wf c hc
  obtain ⟨c1, _, c3, _⟩ := hc
  have hyw : 0 ≤ c.2 * g.width := Int.mul_nonneg c3 (by have := wf.1; omega)
  unfold grid.getLocationFromGrid32 grid.getLocationFromGrid
  rw [wrap32_eq (c.2 * g.width) (by norm_num; omega) (by omega),
    wrap32_eq (c.2 * g.width + c.1) (by norm_num; omega) (by omega)]

theorem isTraversible32_eq (g : grid) (wf : g.WellFormed)
    (hwh : g.width * g.height < 2 ^ 31) (x y : Int) (hc : g.InBounds (x, y)) :
    g.isTraversible32 x y = g.isTraversible x y := by
  unfold grid.isTraversible32 grid.isTraversible
  have := getLocationFromGrid32_eq g wf hwh (x, y) hc
  simp only at this
  rw [this]

theorem getNeighbors32_eq (g : grid) (wf : g.WellFormed)
    (hwh : g.width * g.height < 2 ^ 31) (cur : gridSquare)
    (hc : g.InBounds (coords cur)) : g.getNeighbors32 cur = g.getNeighbors cur := by
  obtain ⟨hw, hh, hlen⟩ := wf
  obtain ⟨h1, h2, h3, h4⟩ := hc
  simp only [coords] at h1 h2 h3 h4
  have wf : g.WellFormed := ⟨hw, hh, hlen⟩
  have hprod : wrap32 (g.height * g.width) = g.height * g.width := by
    have h5 : g.height * g.width = g.width * g.height := by ring
    have h6 : 0 ≤ g.width * g.height := Int.mul_nonneg (by omega) (by omega)
    rw [h5]
    exact wrap32_eq _ (by norm_num; omega) hwh
  have hdown : (if cur.yCoordinate + 1 < g.height
      then g.isTraversible32 cur.xCoordinate (cur.yCoordinate + 1) else some false)
      = (if cur.yCoordinate + 1 < g.height
      then g.isTraversible cur.xCoordinate (cur.yCoordinate + 1) else some false) := by
    split
    · rename_i hq
      exact isTraversible32_eq g wf hwh _ _ ⟨h1, h2, by simp only; omega, hq⟩
    · rfl
  have hup : (if cur.yCoordinate - 1 ≥ 0
      then g.isTraversible32 cur.xCoordinate (cur.yCoordinate - 1) else some false)
      = (if cur.yCoordinate - 1 ≥ 0
      then g.isTraversible cur.xCoordinate (cur.yCoordinate - 1) else some false) := by
    split
    · rename_i hq
      exact isTraversible32_eq g wf hwh _ _ ⟨h1, h2, hq, by simp only; omega⟩
    · rfl
  have hright : (if (cur.xCoordinate + 1).tmod g.width ≠ 0 ∧
        cur.xCoordinate + 1 < wrap32 (g.height * g.width)
      then g.isTraversible32 (cur.xCoordinate + 1) cur.yCoordinate else some false)
      = (if (cur.xCoordinate + 1).tmod g.width ≠ 0 ∧
        cur.xCoordinate + 1 < g.height * g.width
      then g.isTraversible (cur.xCoordinate + 1) cur.yCoordinate else some false) := by
    rw [hprod]
    split
    · rename_i hq
      have hx : cur.xCoordinate + 1 < g.width := by
        by_contra hcon
        have : cur.xCoordinate + 1 = g.width := by omega
        rw [this, Int.tmod_self] at hq
        exact hq.1 rfl
      exact isTraversible32_eq g wf hwh _ _ ⟨by simp only; omega, hx, h3, h4⟩
    · rfl
  have hleft : (if (cur.xCoordinate - 1).tmod g.width ≠ g.width - 1 ∧
        cur.xCoordinate - 1 ≥ 0
      then g.isTraversible32 (cur.xCoordinate - 1) cur.yCoordinate else some false)
      = (if (cur.xCoordinate - 1).tmod g.width ≠ g.width - 1 ∧
        cur.xCoordinate - 1 ≥ 0
      then g.isTraversible (cur.xCoordinate - 1) cur.yCoordinate else some false) := by
    split
    · rename_i hq
      exact isTraversible32_eq g wf hwh _ _ ⟨hq.2, by simp only; omega, h3, h4⟩
    · rfl
  unfold grid.getNeighbors32 grid.getNeighbors
  simp only [hdown, hup, hright, hleft]

theorem retracePath_mem (g : grid) (closedList : List gridSquare) :
    ∀ (fuel : Nat) (s : gridSquare) (acc l : List gridSquare),
    g.retracePath fuel s acc closedList = some l →
    ∀ t ∈ l, t ∈ acc ∨ t = s ∨ t ∈ closedList := by
  intro fuel
  induction fuel with
  | zero => intro s acc l h; simp [grid.retracePath] at h
  | succ k ih =>
    intro s acc l h t ht
    simp only [grid.retracePath] at h
    split at h
    · injection h with h
      subst h
      rcases List.mem_append.1 ht with h1 | h1
      · exact Or.inl h1
      · exact Or.inr (Or.inl (List.mem_singleton.1 h1))
    · split at h
      · split at h
        · rename_i it hfind
          rcases ih it (acc ++ [s]) l h t ht with h1 | h1 | h1
          · rcases List.mem_append.1 h1 with h2 | h2
            · exact Or.inl h2
            · exact Or.inr (Or.inl (List.mem_singleton.1 h2))
          · exact Or.inr (Or.inr (h1 ▸ List.mem_of_find?_eq_some hfind))
          · exact Or.inr (Or.inr h1)
        · exact absurd h (by simp)
      · exact absurd h (by simp)

theorem emitPath32_eq (g : grid) (buf : List Int) (cap : Int) (chain : List gridSquare)
    (h : ∀ t ∈ chain, g.getLocationFromGrid32 t.xCoordinate t.yCoordinate
      = g.getLocationFromGrid t.xCoordinate t.yCoordinate) :
    emitPath32 g buf cap chain = emitPath g buf cap chain := by
  cases chain with
  | nil => rfl
  | cons c rest =>
    have hmap : List.map (fun s => g.getLocationFromGrid32 s.xCoordinate s.yCoordinate)
        (c :: rest).dropLast.reverse
        = List.map (fun s => g.getLocationFromGrid s.xCoordinate s.yCoordinate)
          (c :: rest).dropLast.reverse := by
      apply List.map_congr_left
      intro t ht
      exact h t (List.dropLast_subset _ (List.mem_reverse.1 ht))
    simp only [emitPath32, emitPath, hmap]

theorem mainLoop32_nil (sort : List gridSquare → List gridSquare) (g : grid) (buf : List Int)
    (cap : Int) (fuel : Nat) (closedList : List gridSquare) :
    mainLoop32 sort g buf cap fuel [] closedList = Outcome.returned (-1) buf := by
  cases fuel <;> rfl

theorem mainLoop32_zero (sort : List gridSquare → List gridSquare) (g : grid) (buf : List Int)
    (cap : Int) (openList closedList : List gridSquare) (h : openList ≠ []) :
    mainLoop32 sort g buf cap 0 openList closedList = Outcome.outOfFuel := by
  cases openList with
  | nil => exact absurd rfl h
  | cons o os => rfl

theorem mainLoop32_succ (sort : List gridSquare → List gridSquare) (g : grid) (buf : List Int)
    (cap : Int) (fuel : Nat) (openList closedList : List gridSquare) (h : openList ≠ []) :
    mainLoop32 sort g buf cap (fuel + 1) openList closedList =
      match sort openList with
      | [] => Outcome.undefinedBehaviour
      | currentLocation :: rest =>
        if currentLocation.xCoordinate = g.targetX ∧ currentLocation.yCoordinate = g.targetY then
          reportPath32 g buf cap currentLocation (closedList ++ [currentLocation])
        else
          match g.getNeighbors32 currentLocation with
          | none => Outcome.undefinedBehaviour
          | some adjacentSqaures =>
            mainLoop32 sort g buf cap fuel
              (processNeighbors currentLocation (closedList ++ [currentLocation])
                adjacentSqaures rest)
              (closedList ++ [currentLocation]) := by
  cases openList with
  | nil => exact absurd rfl h
  | cons o os => rfl

/-- On a well-formed grid of fewer than `2 ^ 31` cells with the start on the grid, the loop
over the 32-bit products runs exactly as the loop over the exact ones. -/
theorem mainLoop32_eq (sort : List gridSquare → List gridSquare) (hs : IsSort sort)
    (g : grid) (wf : g.WellFormed) (hstart : g.InBounds (g.startX, g.startY))
    (hwh : g.width * g.height < 2 ^ 31) (buf : List Int) (cap : Int) :
    ∀ (fuel : Nat) (o c : List gridSquare), Reach sort g o c →
    mainLoop32 sort g buf cap fuel o c = mainLoop sort g buf cap fuel o c := by
  intro fuel
  induction fuel with
  | zero =>
    intro o c _
    cases o with
    | nil => rw [mainLoop32_nil, mainLoop_nil]
    | cons a l => rw [mainLoop32_zero _ _ _ _ _ _ (by simp), mainLoop_zero _ _ _ _ _ _ (by simp)]
  | succ fuel ih =>
    intro o c hr
    cases o with
    | nil => rw [mainLoop32_nil, mainLoop_nil]
    | cons a l =>
      have hne : a :: l ≠ [] := by simp
      obtain ⟨hinv, _⟩ := reach_inv sort hs g wf hstart hr
      rw [mainLoop32_succ _ _ _ _ _ _ _ hne, mainLoop_succ _ _ _ _ _ _ _ hne]
      cases hsort : sort (a :: l) with
      | nil => rfl
      | cons cur rest =>
        simp only
        have hperm : (cur :: rest).Perm (a :: l) := hsort ▸ (hs (a :: l)).1
        have hcur : cur ∈ a :: l := hperm.mem_iff.1 (List.mem_cons_self _ _)
        have hb : g.InBounds (coords cur) := hinv.inBounds cur (List.mem_append_right _ hcur)
        by_cases ht : cur.xCoordinate = g.targetX ∧ cur.yCoordinate = g.targetY
        · rw [if_pos ht, if_pos ht]
          unfold reportPath32 reportPath
          cases hre : g.retracePath (c ++ [cur]).length cur [] (c ++ [cur]) with
          | none => rfl
          | some path =>
            simp only
            apply emitPath32_eq
            intro t htm
            have hin : t ∈ c ++ (a :: l) := by
              rcases retracePath_mem g _ _ _ _ _ hre t htm with h1 | h1 | h1
              · exact absurd h1 (List.not_mem_nil _)
              · rw [h1]; exact List.mem_append_right _ hcur
              · rcases List.mem_append.1 h1 with h2 | h2
                · exact List.mem_append_left _ h2
                · rw [List.mem_singleton.1 h2]; exact List.mem_append_right _ hcur
            exact getLocationFromGrid32_eq g wf hwh (coords t) (hinv.inBounds t hin)
        · rw [if_neg ht, if_neg ht, getNeighbors32_eq g wf hwh cur hb]
          cases hadj : g.getNeighbors cur with
          | none => rfl
          | some adj =>
            simp only
            exact ih _ _ (Reach.next hr hne hsort ht hadj)

/-- On a well-formed grid of fewer than `2 ^ 31` cells with the start on the grid,
`FindPath32` and `FindPath` give the same outcome. -/
theorem FindPath32_eq (sort : List gridSquare → List gridSquare) (hs : IsSort sort)
    (fuel : Nat) (sx sy tx ty : Int) (pMap : List Nat) (w h : Int) (buf : List Int)
    (cap : Int) (hw : 1 ≤ w) (hh : 1 ≤ h) (hmap : (pMap.length : Int) = w * h)
    (hsx : 0 ≤ sx ∧ sx < w) (hsy : 0 ≤ sy ∧ sy < h) (hwh : w * h < 2 ^ 31) :
    FindPath32 sort fuel sx sy tx ty pMap w h buf cap
      = FindPath sort fuel sx sy tx ty pMap w h buf cap :=
  mainLoop32_eq sort hs (grid.mk h w pMap tx ty sx sy) ⟨hw, hh, hmap⟩
    ⟨hsx.1, hsx.2, hsy.1, hsy.2⟩ hwh buf cap fuel _ _ Reach.init

theorem loopStep32_eq (sort : List gridSquare → List gridSquare) (hs : IsSort sort)
    (g : grid) (wf : g.WellFormed) (hwh : g.width * g.height < 2 ^ 31)
    {o c : List gridSquare} (hinv : Inv g o c) :
    loopStep32 sort g o c = loopStep sort g o c := by
  unfold loopStep32 loopStep
  cases o with
  | nil => rfl
  | cons a l =>
    simp only
    cases hsort : sort (a :: l) with
    | nil => rfl
    | cons cur rest =>
      simp only
      have hperm : (cur :: rest).Perm (a :: l) := hsort ▸ (hs (a :: l)).1
      have hcur : cur ∈ a :: l := hperm.mem_iff.1 (List.mem_cons_self _ _)
      have hb : g.InBounds (coords cur) := hinv.inBounds cur (List.mem_append_right _ hcur)
      rw [getNeighbors32_eq g wf hwh cur hb]

theorem loopState32_eq (sort : List gridSquare → List gridSquare) (hs : IsSort sort)
    (g : grid) (wf : g.WellFormed) (hstart : g.InBounds (g.startX, g.startY))
    (hwh : g.width * g.height < 2 ^ 31) :
    ∀ k : Nat, loopState32 sort g k = loopState sort g k := by
  intro k
  induction k with
  | zero => rfl
  | succ k ih =>
    simp only [loopState32, loopState, ih]
    cases hk : loopState sort g k with
    | none => rfl
    | some s =>
      simp only
      obtain ⟨hinv, _⟩ := reach_inv sort hs g wf hstart
        (loopState_reach sort g k s.1 s.2 (by rw [hk]))
      exact loopStep32_eq sort hs g wf hwh hinv

/-! ## Grids of `2 ^ 31` cells and more -/

theorem readMap_replicate (g : grid) (N : Nat) (hp : g.pMap = List.replicate N 1) (loc : Int)
    (h0 : 0 ≤ loc) (h1 : loc.toNat < N) : g.readMap loc = some 1 := by
  unfold grid.readMap
  rw [if_pos h0, hp, List.get?_eq_getElem?, List.getElem?_replicate, if_pos h1]

theorem isTraversible32_replicate (g : grid) (N : Nat) (hp : g.pMap = List.replicate N 1)
    (x y : Int) (h0 : 0 ≤ g.getLocationFromGrid32 x y)
    (h1 : (g.getLocationFromGrid32 x y).toNat < N) : g.isTraversible32 x y = some true := by
  unfold grid.isTraversible32
  simp only [readMap_replicate g N hp _ h0 h1, if_true]

theorem isTraversible32_negative (g : grid) (x y : Int)
    (h0 : g.getLocationFromGrid32 x y < 0) : g.isTraversible32 x y = none := by
  unfold grid.isTraversible32 grid.readMap
  simp only [if_neg (show ¬ 0 ≤ g.getLocationFromGrid32 x y by omega)]

/-- On the all-ones grid of width `2 ^ 30` and height 2 the product `height * width` is
`2 ^ 31`, which a 32-bit `int` holds as `-2 ^ 31`: the test `x + 1 < height * width` of
line 136 fails and `getNeighbors32` returns only the square below (0,0). -/
theorem getNeighbors32_wide_start :
    (grid.mk 2 (2 ^ 30) (List.replicate (2 ^ 31) 1) 1 0 0 0).getNeighbors32
        ⟨1, 1, 0, 0, 0, none, none⟩
      = some [⟨3, 2, 1, 0, 1, none, none⟩] := by
  have hd : (grid.mk 2 (2 ^ 30) (List.replicate (2 ^ 31) 1) 1 0 0 0).isTraversible32 0 (0 + 1)
      = some true :=
    isTraversible32_replicate _ (2 ^ 31) rfl 0 (0 + 1) (by decide) (by decide)
  unfold grid.getNeighbors32
  simp only [hd]
  decide

theorem getNeighbors32_wide_second :
    (grid.mk 2 (2 ^ 30) (List.replicate (2 ^ 31) 1) 1 0 0 0).getNeighbors32
        ⟨3, 2, 1, 0, 1, some 0, some 0⟩
      = some [⟨3, 1, 2, 0, 0, none, none⟩] := by
  have hu : (grid.mk 2 (2 ^ 30) (List.replicate (2 ^ 31) 1) 1 0 0 0).isTraversible32 0 (1 - 1)
      = some true :=
    isTraversible32_replicate _ (2 ^ 31) rfl 0 (1 - 1) (by decide) (by decide)
  unfold grid.getNeighbors32
  simp only [hu]
  decide

/-- The run of `FindPath32` on the all-ones grid of width `2 ^ 30` and height 2 from (0,0)
to (1,0): the start is expanded, then (0,1), and the open list is empty. -/
theorem findPath32_wide (fuel : Nat) (buf : List Int) (cap : Int) :
    FindPath32 stableSort (fuel + 2) 0 0 1 0 (List.replicate (2 ^ 31) 1) (2 ^ 30) 2 buf cap
      = Outcome.returned (-1) buf := by
  have hF : FindPath32 stableSort (fuel + 2) 0 0 1 0 (List.replicate (2 ^ 31) 1) (2 ^ 30) 2
      buf cap
      = mainLoop32 stableSort (grid.mk 2 (2 ^ 30) (List.replicate (2 ^ 31) 1) 1 0 0 0) buf cap
        (fuel + 1 + 1) [(⟨1, 1, 0, 0, 0, none, none⟩ : gridSquare)] [] := rfl
  have hs1 : stableSort [(⟨1, 1, 0, 0, 0, none, none⟩ : gridSquare)]
      = [⟨1, 1, 0, 0, 0, none, none⟩] := by decide
  have hp1 : processNeighbors ⟨1, 1, 0, 0, 0, none, none⟩
      ([] ++ [(⟨1, 1, 0, 0, 0, none, none⟩ : gridSquare)])
      [(⟨3, 2, 1, 0, 1, none, none⟩ : gridSquare)] []
      = [⟨3, 2, 1, 0, 1, some 0, some 0⟩] := by decide
  have hs2 : stableSort [(⟨3, 2, 1, 0, 1, some 0, some 0⟩ : gridSquare)]
      = [⟨3, 2, 1, 0, 1, some 0, some 0⟩] := by decide
  have hp2 : processNeighbors ⟨3, 2, 1, 0, 1, some 0, some 0⟩
      (([] ++ [(⟨1, 1, 0, 0, 0, none, none⟩ : gridSquare)])
        ++ [(⟨3, 2, 1, 0, 1, some 0, some 0⟩ : gridSquare)])
      [(⟨3, 1, 2, 0, 0, none, none⟩ : gridSquare)] []
      = [] := by decide
  rw [hF, mainLoop32_succ _ _ _ _ _ _ _ (by simp), hs1]
  simp only
  rw [if_neg (by decide), getNeighbors32_wide_start]
  simp only
  rw [hp1, mainLoop32_succ _ _ _ _ _ _ _ (by simp), hs2]
  simp only
  rw [if_neg (by decide), getNeighbors32_wide_second]
  simp only
  rw [hp2, mainLoop32_nil]

theorem wide_wellFormed :
    (grid.mk 2 (2 ^ 30) (List.replicate (2 ^ 31) 1) 1 0 0 0).WellFormed := by
  refine ⟨by decide, by decide, ?_⟩
  simp only [List.length_replicate]
  norm_num

theorem wide_openCell :
    (grid.mk 2 (2 ^ 30) (List.replicate (2 ^ 31) 1) 1 0 0 0).openCell (1, 0) := by
  refine ⟨by decide, ?_⟩
  simp only [List.get?_eq_getElem?, List.getElem?_replicate]
  decide

/-- Claim C2 as stated fails on a grid of `2 ^ 31` cells: on the all-ones grid of width
`2 ^ 30` and height 2 (well-formed, every byte 1), from (0,0) to (1,0) with capacity 1, the
Manhattan distance is 1, but the product `height * width` of line 136 is `-2 ^ 31` in `int`,
no move to the right is generated, and `FindPath32` returns -1. -/
theorem C2_wide_grid_returns_minus_one :
    (grid.mk 2 (2 ^ 30) (List.replicate (2 ^ 31) 1) 1 0 0 0).WellFormed ∧
      (∀ v ∈ List.replicate (2 ^ 31) 1, v = 1) ∧
      (grid.mk 2 (2 ^ 30) (List.replicate (2 ^ 31) 1) 1 0 0 0).InBounds (0, 0) ∧
      (grid.mk 2 (2 ^ 30) (List.replicate (2 ^ 31) 1) 1 0 0 0).InBounds (1, 0) ∧
      ((((0 : Int) - 1).natAbs + ((0 : Int) - 0).natAbs : Nat) : Int) = 1 ∧
      wrap32 (2 * 2 ^ 30) = -2 ^ 31 ∧
      FindPath32 stableSort 2147483648 0 0 1 0 (List.replicate (2 ^ 31) 1) (2 ^ 30) 2 [0] 1
        = Outcome.returned (-1) [0] := by
  refine ⟨wide_wellFormed, ?_, by decide, by decide, by decide, by decide, ?_⟩
  · intro v hv
    exact (List.mem_replicate.1 hv).2
  · exact findPath32_wide 2147483646 [0] 1

/-- Claim C13 as stated fails on a grid of `2 ^ 31` cells: on the all-ones grid of width
`2 ^ 30` and height 2 the cell (1,0) is on the grid with map byte 1, yet for the square at
(0,0) `getNeighbors32` returns only the square at (0,1): the test
`x + 1 < height * width` fails because the product is `-2 ^ 31` in `int`. -/
theorem C13_wide_grid_drops_right :
    (grid.mk 2 (2 ^ 30) (List.replicate (2 ^ 31) 1) 1 0 0 0).WellFormed ∧
      (grid.mk 2 (2 ^ 30) (List.replicate (2 ^ 31) 1) 1 0 0 0).InBounds
        (coords ⟨1, 1, 0, 0, 0, none, none⟩) ∧
      (grid.mk 2 (2 ^ 30) (List.replicate (2 ^ 31) 1) 1 0 0 0).openCell (0 + 1, 0) ∧
      (grid.mk 2 (2 ^ 30) (List.replicate (2 ^ 31) 1) 1 0 0 0).getNeighbors32
          ⟨1, 1, 0, 0, 0, none, none⟩
        = some [⟨3, 2, 1, 0, 1, none, none⟩] :=
  ⟨wide_wellFormed, by decide, wide_openCell, getNeighbors32_wide_start⟩

theorem tall_wellFormed :
    (grid.mk 3 (2 ^ 30) (List.replicate (3 * 2 ^ 30) 1) 0 0 0 1).WellFormed := by
  refine ⟨by decide, by decide, ?_⟩
  simp only [List.length_replicate]
  norm_num

theorem tall_getNeighbors32 :
    (grid.mk 3 (2 ^ 30) (List.replicate (3 * 2 ^ 30) 1) 0 0 0 1).getNeighbors32
        ⟨1, 1, 0, 0, 1, none, none⟩ = none := by
  have hd : (grid.mk 3 (2 ^ 30) (List.replicate (3 * 2 ^ 30) 1) 0 0 0 1).isTraversible32 0 (1 + 1)
      = none := isTraversible32_negative _ 0 (1 + 1) (by decide)
  unfold grid.getNeighbors32
  simp only [hd]
  decide

/-- Claim C18 as stated fails on a grid of more than `2 ^ 31` cells: on the all-ones grid of
width `2 ^ 30` and height 3 with start (0,1), the first pass of the loop expands the start;
the bounds test `y + 1 < height` passes, and `isTraversible(0, 2)` reads at `2 * width`, which
is `-2 ^ 31` in `int`, outside the map: `getNeighbors32` takes the out-of-range branch. -/
theorem C18_tall_grid_reads_outside :
    (grid.mk 3 (2 ^ 30) (List.replicate (3 * 2 ^ 30) 1) 0 0 0 1).WellFormed ∧
      (grid.mk 3 (2 ^ 30) (List.replicate (3 * 2 ^ 30) 1) 0 0 0 1).InBounds (0, 1) ∧
      loopState32 stableSort (grid.mk 3 (2 ^ 30) (List.replicate (3 * 2 ^ 30) 1) 0 0 0 1) 0
        = some ([⟨1, 1, 0, 0, 1, none, none⟩], []) ∧
      (⟨1, 1, 0, 0, 1, none, none⟩ : gridSquare).yCoordinate + 1 < 3 ∧
      (grid.mk 3 (2 ^ 30) (List.replicate (3 * 2 ^ 30) 1) 0 0 0 1).getLocationFromGrid32 0 2
        = -2 ^ 31 ∧
      (grid.mk 3 (2 ^ 30) (List.replicate (3 * 2 ^ 30) 1) 0 0 0 1).getNeighbors32
        ⟨1, 1, 0, 0, 1, none, none⟩ = none :=
  ⟨tall_wellFormed, by decide, rfl, by decide, by decide, tall_getNeighbors32⟩

/-- Claim C12 as stated fails in both directions.  On the 2x2 grid with map bytes 0,0,1,0
the coordinate (2,0), with x equal to the width, is outside the grid, yet `isTraversible(2, 0)`
reads the byte at index 2 (the cell (0,1)) and returns true.  On the all-ones grid of width
`2 ^ 30` and height 3 the cell (0,2) is on the grid and its map byte is 1, yet the index
`2 * width` is `-2 ^ 31` in `int` and the read leaves the map instead of returning true. -/
theorem C12_bounds_not_tested :
    (¬ (grid.mk 2 2 [0, 0, 1, 0] 0 0 0 0).InBounds (2, 0) ∧
      (grid.mk 2 2 [0, 0, 1, 0] 0 0 0 0).isTraversible32 2 0 = some true) ∧
    ((grid.mk 3 (2 ^ 30) (List.replicate (3 * 2 ^ 30) 1) 0 0 0 1).WellFormed ∧
      (grid.mk 3 (2 ^ 30) (List.replicate (3 * 2 ^ 30) 1) 0 0 0 1).openCell (0, 2) ∧
      (grid.mk 3 (2 ^ 30) (List.replicate (3 * 2 ^ 30) 1) 0 0 0 1).isTraversible32 0 2
        = none) := by
  refine ⟨⟨by decide, by decide⟩, tall_wellFormed, ⟨by decide, ?_⟩,
    isTraversible32_negative _ 0 2 (by decide)⟩
  simp only [List.get?_eq_getElem?, List.getElem?_replicate]
  decide

/-! ## The claims about the products, on grids of fewer than `2 ^ 31` cells -/

/-- Claim C2, amended. On a grid of width and height at least 1 with `width * height < 2 ^ 31`
(so that the `int` products of lines 108 and 136 stay in range) whose map bytes are all 1,
with start and target on the grid, a capacity (an `int`, so below `2 ^ 31`) of at least
`|startX - targetX| + |startY - targetY|`, a buffer that holds that many entries and at least
`width * height` iterations of fuel, `FindPath` with its products in 32-bit `int` returns
exactly `|startX - targetX| + |startY - targetY|`, for every sort that meets the contract of
`std::sort`, that is, whatever order it leaves equal `fScore`s in. -/
theorem C2_open_grid_manhattan_bounded (sort : List gridSquare → List gridSquare)
    (hs : IsSort sort)
    (fuel : Nat) (sx sy tx ty : Int) (pMap : List Nat) (w h : Int) (buf : List Int)
    (cap : Int) (hw : 1 ≤ w) (hh : 1 ≤ h) (hmap : (pMap.length : Int) = w * h)
    (hwh : w * h < 2 ^ 31)
    (hall : ∀ v ∈ pMap, v = 1)
    (hsx : 0 ≤ sx ∧ sx < w) (hsy : 0 ≤ sy ∧ sy < h)
    (htx : 0 ≤ tx ∧ tx < w) (hty : 0 ≤ ty ∧ ty < h)
    (hfuel : (w * h).toNat ≤ fuel)
    (hcap : (((sx - tx).natAbs + (sy - ty).natAbs : Nat) : Int) ≤ cap) (hc1 : cap < 2 ^ 31)
    (hbuf : (sx - tx).natAbs + (sy - ty).natAbs ≤ buf.length) :
    ∃ out, FindPath32 sort fuel sx sy tx ty pMap w h buf cap
      = Outcome.returned (((sx - tx).natAbs + (sy - ty).natAbs : Nat) : Int) out := by
  rw [FindPath32_eq sort hs fuel sx sy tx ty pMap w h buf cap hw hh hmap hsx hsy hwh]
  exact open_grid_manhattan sort hs fuel sx sy tx ty pMap w h buf cap hw hh hmap hall hsx hsy
    htx hty hfuel hcap (by norm_num at hc1 ⊢; omega) hbuf

theorem C2_open_grid_manhattan_bounded_witness :
    IsSort stableSort ∧ (1 : Int) ≤ 3 ∧ (1 : Int) ≤ 2 ∧
      (([1, 1, 1, 1, 1, 1] : List Nat).length : Int) = 3 * 2 ∧
      (3 : Int) * 2 < 2 ^ 31 ∧
      (∀ v ∈ ([1, 1, 1, 1, 1, 1] : List Nat), v = 1) ∧
      ((0 : Int) ≤ 0 ∧ (0 : Int) < 3) ∧ ((0 : Int) ≤ 0 ∧ (0 : Int) < 2) ∧
      ((0 : Int) ≤ 2 ∧ (2 : Int) < 3) ∧ ((0 : Int) ≤ 1 ∧ (1 : Int) < 2) ∧
      ((3 : Int) * 2).toNat ≤ 6 ∧
      ((((0 : Int) - 2).natAbs + ((0 : Int) - 1).natAbs : Nat) : Int) ≤ 3 ∧
      (3 : Int) < 2 ^ 31 ∧
      ((0 : Int) - 2).natAbs + ((0 : Int) - 1).natAbs ≤ ([0, 0, 0] : List Int).length ∧
      (FindPath32 stableSort 6 0 0 2 1 [1, 1, 1, 1, 1, 1] 3 2 [0, 0, 0] 3
        = Outcome.returned 3 [3, 4, 5]) ∧
      ∃ out, FindPath32 stableSort 6 0 0 2 1 [1, 1, 1, 1, 1, 1] 3 2 [0, 0, 0] 3
        = Outcome.returned ((((0 : Int) - 2).natAbs + ((0 : Int) - 1).natAbs : Nat) : Int) out :=
  ⟨stableSort_isSort, by decide, by decide, by decide, by decide, by decide, by decide,
    by decide, by decide, by decide, by decide, by decide, by decide, by decide, by decide,
    C2_open_grid_manhattan_bounded stableSort stableSort_isSort 6 0 0 2 1 [1, 1, 1, 1, 1, 1] 3 2
      [0, 0, 0] 3 (by decide) (by decide) (by decide) (by decide) (by decide) (by decide)
      (by decide) (by decide) (by decide) (by decide) (by decide) (by decide) (by decide)⟩

/-- Claim C12, amended. `isTraversible(x, y)` makes no bounds test on `x` and `y`; the tests
are made by `getNeighbors` before each call.  On a well-formed grid with
`width * height < 2 ^ 31`, for a coordinate (x, y) with `0 ≤ x < width` and `0 ≤ y < height`,
the read stays inside the map, and `isTraversible` returns true exactly when the byte at
`y * width + x` is 1 and false exactly when it is not. -/
theorem C12_isTraversible_on_grid (g : grid) (wf : g.WellFormed)
    (hwh : g.width * g.height < 2 ^ 31) (x y : Int) (hc : g.InBounds (x, y)) :
    g.isTraversible32 x y ≠ none ∧
    (g.isTraversible32 x y = some true ↔ g.openCell (x, y)) ∧
    (g.isTraversible32 x y = some false ↔ ¬ g.openCell (x, y)) := by
  rw [isTraversible32_eq g wf hwh x y hc, isTraversible_inBounds g wf x y hc]
  by_cases ho : g.openCell (x, y) <;> simp [ho]

theorem C12_isTraversible_on_grid_witness :
    (grid.mk 2 2 [0, 1, 1, 0] 0 0 0 0).WellFormed ∧
      (grid.mk 2 2 [0, 1, 1, 0] 0 0 0 0).width * (grid.mk 2 2 [0, 1, 1, 0] 0 0 0 0).height
        < 2 ^ 31 ∧
      (grid.mk 2 2 [0, 1, 1, 0] 0 0 0 0).InBounds (1, 0) ∧
      (grid.mk 2 2 [0, 1, 1, 0] 0 0 0 0).InBounds (1, 1) ∧
      ((grid.mk 2 2 [0, 1, 1, 0] 0 0 0 0).isTraversible32 1 0 = some true ↔
        (grid.mk 2 2 [0, 1, 1, 0] 0 0 0 0).openCell (1, 0)) ∧
      (grid.mk 2 2 [0, 1, 1, 0] 0 0 0 0).isTraversible32 1 0 = some true ∧
      ((grid.mk 2 2 [0, 1, 1, 0] 0 0 0 0).isTraversible32 1 1 = some false ↔
        ¬ (grid.mk 2 2 [0, 1, 1, 0] 0 0 0 0).openCell (1, 1)) ∧
      (grid.mk 2 2 [0, 1, 1, 0] 0 0 0 0).isTraversible32 1 1 = some false :=
  ⟨by decide, by decide, by decide, by decide,
    (C12_isTraversible_on_grid (grid.mk 2 2 [0, 1, 1, 0] 0 0 0 0) (by decide) (by decide) 1 0
      (by decide)).2.1,
    by decide,
    (C12_isTraversible_on_grid (grid.mk 2 2 [0, 1, 1, 0] 0 0 0 0) (by decide) (by decide) 1 1
      (by decide)).2.2,
    by decide⟩

/-- Claim C13, amended. On a well-formed grid with `width * height < 2 ^ 31` (width or height 1
included), for a square on the grid, `getNeighbors` with its products in 32-bit `int` returns
squares whose cells are exactly those of the candidates (x, y+1), (x, y-1), (x+1, y),
(x-1, y), in this order, that lie on the grid and have map byte 1; each returned square has
`gScore = cell.gScore + 1`, `hScore = |x' - targetX| + |y' - targetY|` and
`fScore = gScore + hScore`. -/
theorem C13_getNeighbors_bounded (g : grid) (wf : g.WellFormed)
    (hwh : g.width * g.height < 2 ^ 31) (cur : gridSquare)
    (hc : g.InBounds (coords cur)) :
    ∃ adj, g.getNeighbors32 cur = some adj ∧
      adj.map coords =
        [(cur.xCoordinate, cur.yCoordinate + 1), (cur.xCoordinate, cur.yCoordinate - 1),
          (cur.xCoordinate + 1, cur.yCoordinate), (cur.xCoordinate - 1, cur.yCoordinate)].filter
          (fun d => decide (g.InBounds d ∧ g.pMap.get? (d.2 * g.width + d.1).toNat = some 1)) ∧
      ∀ a ∈ adj, a.gScore = cur.gScore + 1 ∧
        a.hScore = (((a.xCoordinate - g.targetX).natAbs + (a.yCoordinate - g.targetY).natAbs
          : Nat) : Int) ∧
        a.fScore = a.gScore + a.hScore := by
  rw [getNeighbors32_eq g wf hwh cur hc]
  exact getNeighbors_exact g wf cur hc

theorem C13_getNeighbors_bounded_witness :
    (grid.mk 3 3 [1, 1, 0, 0, 1, 1, 1, 0, 1] 0 2 0 0).WellFormed ∧
      (grid.mk 3 3 [1, 1, 0, 0, 1, 1, 1, 0, 1] 0 2 0 0).width *
        (grid.mk 3 3 [1, 1, 0, 0, 1, 1, 1, 0, 1] 0 2 0 0).height < 2 ^ 31 ∧
      (grid.mk 3 3 [1, 1, 0, 0, 1, 1, 1, 0, 1] 0 2 0 0).InBounds
        (coords ⟨6, 3, 3, 2, 1, some 1, some 1⟩) ∧
      (grid.mk 3 3 [1, 1, 0, 0, 1, 1, 1, 0, 1] 0 2 0 0).getNeighbors32
          ⟨6, 3, 3, 2, 1, some 1, some 1⟩
        = some [⟨6, 2, 4, 2, 2, none, none⟩, ⟨6, 2, 4, 1, 1, none, none⟩] ∧
      [((⟨6, 3, 3, 2, 1, some 1, some 1⟩ : gridSquare).xCoordinate,
          (⟨6, 3, 3, 2, 1, some 1, some 1⟩ : gridSquare).yCoordinate + 1),
        ((⟨6, 3, 3, 2, 1, some 1, some 1⟩ : gridSquare).xCoordinate,
          (⟨6, 3, 3, 2, 1, some 1, some 1⟩ : gridSquare).yCoordinate - 1),
        ((⟨6, 3, 3, 2, 1, some 1, some 1⟩ : gridSquare).xCoordinate + 1,
          (⟨6, 3, 3, 2, 1, some 1, some 1⟩ : gridSquare).yCoordinate),
        ((⟨6, 3, 3, 2, 1, some 1, some 1⟩ : gridSquare).xCoordinate - 1,
          (⟨6, 3, 3, 2, 1, some 1, some 1⟩ : gridSquare).yCoordinate)].filter
          (fun d => decide ((grid.mk 3 3 [1, 1, 0, 0, 1, 1, 1, 0, 1] 0 2 0 0).InBounds d ∧
            (grid.mk 3 3 [1, 1, 0, 0, 1, 1, 1, 0, 1] 0 2 0 0).pMap.get?
              (d.2 * (grid.mk 3 3 [1, 1, 0, 0, 1, 1, 1, 0, 1] 0 2 0 0).width + d.1).toNat
              = some 1))
        = [(2, 2), (1, 1)] ∧
      ∃ adj, (grid.mk 3 3 [1, 1, 0, 0, 1, 1, 1, 0, 1] 0 2 0 0).getNeighbors32
          ⟨6, 3, 3, 2, 1, some 1, some 1⟩ = some adj ∧
        adj.map coords =
          [((⟨6, 3, 3, 2, 1, some 1, some 1⟩ : gridSquare).xCoordinate,
              (⟨6, 3, 3, 2, 1, some 1, some 1⟩ : gridSquare).yCoordinate + 1),
            ((⟨6, 3, 3, 2, 1, some 1, some 1⟩ : gridSquare).xCoordinate,
              (⟨6, 3, 3, 2, 1, some 1, some 1⟩ : gridSquare).yCoordinate - 1),
            ((⟨6, 3, 3, 2, 1, some 1, some 1⟩ : gridSquare).xCoordinate + 1,
              (⟨6, 3, 3, 2, 1, some 1, some 1⟩ : gridSquare).yCoordinate),
            ((⟨6, 3, 3, 2, 1, some 1, some 1⟩ : gridSquare).xCoordinate - 1,
              (⟨6, 3, 3, 2, 1, some 1, some 1⟩ : gridSquare).yCoordinate)].filter
            (fun d => decide ((grid.mk 3 3 [1, 1, 0, 0, 1, 1, 1, 0, 1] 0 2 0 0).InBounds d ∧
              (grid.mk 3 3 [1, 1, 0, 0, 1, 1, 1, 0, 1] 0 2 0 0).pMap.get?
                (d.2 * (grid.mk 3 3 [1, 1, 0, 0, 1, 1, 1, 0, 1] 0 2 0 0).width + d.1).toNat
                = some 1)) ∧
        ∀ a ∈ adj, a.gScore = (⟨6, 3, 3, 2, 1, some 1, some 1⟩ : gridSquare).gScore + 1 ∧
          a.hScore =
            (((a.xCoordinate - (grid.mk 3 3 [1, 1, 0, 0, 1, 1, 1, 0, 1] 0 2 0 0).targetX).natAbs +
              (a.yCoordinate - (grid.mk 3 3 [1, 1, 0, 0, 1, 1, 1, 0, 1] 0 2 0 0).targetY).natAbs
              : Nat) : Int) ∧
          a.fScore = a.gScore + a.hScore :=
  ⟨by decide, by decide, by decide, by decide, by decide,
    C13_getNeighbors_bounded (grid.mk 3 3 [1, 1, 0, 0, 1, 1, 1, 0, 1] 0 2 0 0) (by decide)
      (by decide) ⟨6, 3, 3, 2, 1, some 1, some 1⟩ (by decide)⟩

/-- Claim C15. On a well-formed grid with the start on the grid, a capacity of at least
`width * height` (an `int`, so below `2 ^ 31`, and with it `width * height`), a buffer of at
least `width * height` entries and at least `width * height` iterations of fuel: if some
sequence of moves leads from the start to the target through cells of map value 1,
`FindPath`, with its products in 32-bit `int`, returns a count `n ≥ 0`; and it returns -1
exactly when there is no such sequence (the path found has fewer than `width * height`
moves, so it is never longer than this capacity). -/
theorem C15_path_found_bounded (sort : List gridSquare → List gridSquare) (hs : IsSort sort)
    (fuel : Nat) (sx sy tx ty : Int) (pMap : List Nat) (w h : Int) (buf : List Int)
    (cap : Int) (hw : 1 ≤ w) (hh : 1 ≤ h) (hmap : (pMap.length : Int) = w * h)
    (hsx : 0 ≤ sx ∧ sx < w) (hsy : 0 ≤ sy ∧ sy < h) (hfuel : (w * h).toNat ≤ fuel)
    (hcap : w * h ≤ cap) (hc1 : cap < 2 ^ 31) (hbuf : (w * h).toNat ≤ buf.length) :
    ((∃ path, (grid.mk h w pMap tx ty sx sy).ValidPath path) →
      ∃ (n : Int) (out : List Int),
        FindPath32 sort fuel sx sy tx ty pMap w h buf cap = Outcome.returned n out ∧ 0 ≤ n) ∧
    (FindPath32 sort fuel sx sy tx ty pMap w h buf cap = Outcome.returned (-1) buf ↔
      ¬ ∃ path, (grid.mk h w pMap tx ty sx sy).ValidPath path) := by
  rw [FindPath32_eq sort hs fuel sx sy tx ty pMap w h buf cap hw hh hmap hsx hsy
    (lt_of_le_of_lt hcap hc1)]
  exact path_found sort hs fuel sx sy tx ty pMap w h buf cap hw hh hmap hsx hsy hfuel hcap
    (by norm_num at hc1 ⊢; omega) hbuf

theorem C15_path_found_bounded_witness :
    IsSort stableSort ∧ (1 : Int) ≤ 4 ∧ (1 : Int) ≤ 3 ∧
      (([1, 1, 1, 1, 0, 1, 0, 1, 0, 1, 1, 1] : List Nat).length : Int) = 4 * 3 ∧
      ((0 : Int) ≤ 0 ∧ (0 : Int) < 4) ∧ ((0 : Int) ≤ 0 ∧ (0 : Int) < 3) ∧
      ((4 : Int) * 3).toNat ≤ 12 ∧ (4 : Int) * 3 ≤ 12 ∧ (12 : Int) < 2 ^ 31 ∧
      ((4 : Int) * 3).toNat ≤ ([0, 0, 0, 0, 0, 0, 0, 0, 0, 0, 0, 0] : List Int).length ∧
      (grid.mk 3 4 [1, 1, 1, 1, 0, 1, 0, 1, 0, 1, 1, 1] 1 2 0 0).ValidPath
        [(1, 0), (1, 1), (1, 2)] ∧
      FindPath32 stableSort 12 0 0 1 2 [1, 1, 1, 1, 0, 1, 0, 1, 0, 1, 1, 1] 4 3
          [0, 0, 0, 0, 0, 0, 0, 0, 0, 0, 0, 0] 12
        = Outcome.returned 3 [1, 5, 9, 0, 0, 0, 0, 0, 0, 0, 0, 0] ∧
      (((∃ path, (grid.mk 3 4 [1, 1, 1, 1, 0, 1, 0, 1, 0, 1, 1, 1] 1 2 0 0).ValidPath path) →
        ∃ (n : Int) (out : List Int),
          FindPath32 stableSort 12 0 0 1 2 [1, 1, 1, 1, 0, 1, 0, 1, 0, 1, 1, 1] 4 3
            [0, 0, 0, 0, 0, 0, 0, 0, 0, 0, 0, 0] 12 = Outcome.returned n out ∧ 0 ≤ n) ∧
      (FindPath32 stableSort 12 0 0 1 2 [1, 1, 1, 1, 0, 1, 0, 1, 0, 1, 1, 1] 4 3
          [0, 0, 0, 0, 0, 0, 0, 0, 0, 0, 0, 0] 12
          = Outcome.returned (-1) [0, 0, 0, 0, 0, 0, 0, 0, 0, 0, 0, 0] ↔
        ¬ ∃ path, (grid.mk 3 4 [1, 1, 1, 1, 0, 1, 0, 1, 0, 1, 1, 1] 1 2 0 0).ValidPath path)) :=
  ⟨stableSort_isSort, by decide, by decide, by decide, by decide, by decide, by decide,
    by decide, by decide, by decide, by decide, by decide,
    C15_path_found_bounded stableSort stableSort_isSort 12 0 0 1 2
      [1, 1, 1, 1, 0, 1, 0, 1, 0, 1, 1, 1] 4 3 [0, 0, 0, 0, 0, 0, 0, 0, 0, 0, 0, 0] 12
      (by decide) (by decide) (by decide) (by decide) (by decide) (by decide) (by decide)
      (by decide) (by decide)⟩

/-- Claim C18, amended. On a well-formed grid with `width * height < 2 ^ 31` and the start on
the grid, with the products in 32-bit `int`: at every loop head every square on the open or
closed list is on the grid, and for each such square every map read that `getNeighbors`
performs stays inside the map: whenever the bounds test of a direction passes, the index
handed to `pMap` lies in `[0, width * height)`, so `getNeighbors` never takes the
out-of-range branch of the lookup (it returns a list, not `none`). -/
theorem C18_reads_in_range_bounded (sort : List gridSquare → List gridSquare)
    (hs : IsSort sort)
    (g : grid) (wf : g.WellFormed) (hstart : g.InBounds (g.startX, g.startY))
    (hwh : g.width * g.height < 2 ^ 31)
    (k : Nat) (o c : List gridSquare) (hst : loopState32 sort g k = some (o, c)) :
    ∀ s ∈ c ++ o, g.InBounds (coords s) ∧ g.getNeighbors32 s ≠ none ∧
      (s.yCoordinate + 1 < g.height →
        0 ≤ g.getLocationFromGrid32 s.xCoordinate (s.yCoordinate + 1) ∧
        g.getLocationFromGrid32 s.xCoordinate (s.yCoordinate + 1) < g.width * g.height) ∧
      (s.yCoordinate - 1 ≥ 0 →
        0 ≤ g.getLocationFromGrid32 s.xCoordinate (s.yCoordinate - 1) ∧
        g.getLocationFromGrid32 s.xCoordinate (s.yCoordinate - 1) < g.width * g.height) ∧
      ((s.xCoordinate + 1).tmod g.width ≠ 0 ∧ s.xCoordinate + 1 < wrap32 (g.height * g.width) →
        0 ≤ g.getLocationFromGrid32 (s.xCoordinate + 1) s.yCoordinate ∧
        g.getLocationFromGrid32 (s.xCoordinate + 1) s.yCoordinate < g.width * g.height) ∧
      ((s.xCoordinate - 1).tmod g.width ≠ g.width - 1 ∧ s.xCoordinate - 1 ≥ 0 →
        0 ≤ g.getLocationFromGrid32 (s.xCoordinate - 1) s.yCoordinate ∧
        g.getLocationFromGrid32 (s.xCoordinate - 1) s.yCoordinate < g.width * g.height) := by
  rw [loopState32_eq sort hs g wf hstart hwh k] at hst
  obtain ⟨hinv, _⟩ := reach_inv sort hs g wf hstart (loopState_reach sort g k o c hst)
  intro s hs'
  have hb := hinv.inBounds s hs'
  obtain ⟨b1, b2, b3, b4⟩ := hb
  simp only [coords] at b1 b2 b3 b4
  refine ⟨⟨b1, b2, b3, b4⟩, ?_, ?_, ?_, ?_, ?_⟩
  · rw [getNeighbors32_eq g wf hwh s ⟨b1, b2, b3, b4⟩,
      getNeighbors_inBounds g wf s ⟨b1, b2, b3, b4⟩]
    simp
  · intro hq
    have hin : g.InBounds (s.xCoordinate, s.yCoordinate + 1) :=
      ⟨b1, b2, by simp only; omega, hq⟩
    rw [getLocationFromGrid32_eq g wf hwh _ hin]
    exact index_lt g wf _ hin
  · intro hq
    have hin : g.InBounds (s.xCoordinate, s.yCoordinate - 1) :=
      ⟨b1, b2, hq, by simp only; omega⟩
    rw [getLocationFromGrid32_eq g wf hwh _ hin]
    exact index_lt g wf _ hin
  · rintro ⟨hq, _⟩
    have hx : s.xCoordinate + 1 < g.width := by
      by_contra hcon
      have : s.xCoordinate + 1 = g.width := by omega
      rw [this, Int.tmod_self] at hq
      exact hq rfl
    have hin : g.InBounds (s.xCoordinate + 1, s.yCoordinate) :=
      ⟨by simp only; omega, hx, b3, b4⟩
    rw [getLocationFromGrid32_eq g wf hwh _ hin]
    exact index_lt g wf _ hin
  · rintro ⟨_, hq⟩
    have hin : g.InBounds (s.xCoordinate - 1, s.yCoordinate) :=
      ⟨hq, by simp only; omega, b3, b4⟩
    rw [getLocationFromGrid32_eq g wf hwh _ hin]
    exact index_lt g wf _ hin

theorem C18_reads_in_range_bounded_witness :
    IsSort stableSort ∧
      (grid.mk 3 4 [1, 1, 1, 1, 0, 1, 0, 1, 0, 1, 1, 1] 1 2 0 0).WellFormed ∧
      (grid.mk 3 4 [1, 1, 1, 1, 0, 1, 0, 1, 0, 1, 1, 1] 1 2 0 0).InBounds (0, 0) ∧
      (grid.mk 3 4 [1, 1, 1, 1, 0, 1, 0, 1, 0, 1, 1, 1] 1 2 0 0).width *
        (grid.mk 3 4 [1, 1, 1, 1, 0, 1, 0, 1, 0, 1, 1, 1] 1 2 0 0).height < 2 ^ 31 ∧
      loopState32 stableSort (grid.mk 3 4 [1, 1, 1, 1, 0, 1, 0, 1, 0, 1, 1, 1] 1 2 0 0) 2
        = some ([(⟨3, 1, 2, 1, 1, some 1, some 0⟩ : gridSquare),
            ⟨5, 3, 2, 2, 0, some 1, some 0⟩],
          [(⟨3, 3, 0, 0, 0, none, none⟩ : gridSquare), ⟨3, 2, 1, 1, 0, some 0, some 0⟩]) ∧
      ∀ s ∈ [(⟨3, 3, 0, 0, 0, none, none⟩ : gridSquare), ⟨3, 2, 1, 1, 0, some 0, some 0⟩]
          ++ [(⟨3, 1, 2, 1, 1, some 1, some 0⟩ : gridSquare), ⟨5, 3, 2, 2, 0, some 1, some 0⟩],
        (grid.mk 3 4 [1, 1, 1, 1, 0, 1, 0, 1, 0, 1, 1, 1] 1 2 0 0).InBounds (coords s) ∧
        (grid.mk 3 4 [1, 1, 1, 1, 0, 1, 0, 1, 0, 1, 1, 1] 1 2 0 0).getNeighbors32 s ≠ none :=
  ⟨stableSort_isSort, by decide, by decide, by decide, by decide, fun s hs' =>
    have h := C18_reads_in_range_bounded stableSort stableSort_isSort
      (grid.mk 3 4 [1, 1, 1, 1, 0, 1, 0, 1, 0, 1, 1, 1] 1 2 0 0) (by decide) (by decide)
      (by decide) 2
      [(⟨3, 1, 2, 1, 1, some 1, some 0⟩ : gridSquare), ⟨5, 3, 2, 2, 0, some 1, some 0⟩]
      [(⟨3, 3, 0, 0, 0, none, none⟩ : gridSquare), ⟨3, 2, 1, 1, 0, some 0, some 0⟩]
      (by decide) s hs'
    ⟨h.1, h.2.1⟩⟩

end AStar
